import Mathlib

/-!
# sorm-go: `base.go`

A shallow embedding of `base.go` (package `sorm`): the reflective walk over a tagged
struct, the primary-key accessors, the snapshot (`SavedValues`), the two statement
builders, `Save`, and `LoadEntity` with the mapping of a row onto the fields.

Modelling decisions, each taken from the source:

* An entity is the struct a pointer refers to: its type name, the promoted field
  `SavedValues` of the embedded `AbstractEntity`, and its declared fields in
  declaration order. Each field carries what `reflect.StructField` exposes to this
  package (`Name`, `PkgPath`, the `db` and `primary` tags) and its current value.
* Entities live in a heap indexed by address, so that a pointer field can refer to
  another entity and a cascading `Save` can change it.
* `Save` recurses through pointer fields without cycle detection; the model takes the
  recursion depth as fuel.
* A Go panic is a result of its own, carrying the world at the moment of the panic.
* `Query` hands `LoadEntity` the first row as column names with the values `Scan` left
  in the `interface{}` slots; a nested load allocates the related entity at the next
  free address.
-/

namespace Sorm

/-! ## Values -/

/-- The signed integer kinds of `reflect.Kind`. -/
inductive IntKind
  | Int | Int8 | Int16 | Int32 | Int64
  deriving DecidableEq, Repr

/-- The unsigned integer kinds of `reflect.Kind`. -/
inductive UintKind
  | Uint | Uint8 | Uint16 | Uint32 | Uint64
  deriving DecidableEq, Repr

/-- The kinds of `reflect.Kind` that no `switch` of `base.go` names. -/
inductive OtherKind
  | float32 | float64 | complex64 | complex128 | array | chan | func | map | slice | struct
  deriving DecidableEq, Repr

/-- Whether the values of a kind can be compared at all: slices, maps and functions
cannot. -/
def OtherKind.comparable : OtherKind → Bool
  | .func => false
  | .map => false
  | .slice => false
  | _ => true

/-- `Kind.String()`. -/
def OtherKind.name : OtherKind → String
  | .float32 => "float32"
  | .float64 => "float64"
  | .complex64 => "complex64"
  | .complex128 => "complex128"
  | .array => "array"
  | .chan => "chan"
  | .func => "func"
  | .map => "map"
  | .slice => "slice"
  | .struct => "struct"

/-- The content of a value of one of those kinds, as `==` sees it: `data` is compared
with the content of the other value; `nan` is a NaN, or a struct or array that holds
one, and differs from every value, itself included; `uncomparable` is a struct or array
that holds a slice, a map or a function, whose type is therefore not comparable. The
content of a slice, map or function is `data`, and is never compared. -/
inductive Content
  | data (c : String)
  | nan
  | uncomparable (c : String)
  deriving DecidableEq, Repr

/-- A Go value: what a field holds, what a snapshot stores and what is bound to a
statement.

* `nil`: the nil interface, also the zero `reflect.Value` (kind `Invalid`);
* `int`, `uint`: an integer of the given kind;
* `str`, `bool`: a string, a boolean;
* `struct`: a struct held by value whose fields all compare by content (such as
  `time.Time`): its type name, the `db` tag of its primary field as `getPrimaryKey`
  reports it (empty when it has none, as for `time.Time`, whose fields are all
  unexported) and a number standing for its content under `==`;
* `ptr`: a pointer to a struct of the named type, nil or the address of an entity;
* `other`: a value of any other kind (a float, a `[]byte`, a map, a struct that holds a
  slice or a NaN ...): its kind, the name of its type as the runtime prints it, and its
  content; a struct given this way has no field tagged `primary`;
* `iface`: what a field declared with the type `interface{}` holds, the kind of the
  field being `Interface` whatever the value inside (`iface nil` for the nil
  interface). Only a field holds an `iface`: `Interface()` unwraps it. -/
inductive Value
  | nil
  | int (k : IntKind) (i : Int)
  | uint (k : UintKind) (n : Nat)
  | str (s : String)
  | bool (b : Bool)
  | struct (typ : String) (primaryKey : String) (content : Int)
  | ptr (elem : String) (addr : Option Nat)
  | other (kind : OtherKind) (typ : String) (content : Content)
  | iface (dyn : Value)
  deriving DecidableEq, Repr

/-- `reflect.Value.Interface`: the value as an `interface{}`. A field of interface type
yields the value it holds. -/
def Value.Interface : Value → Value
  | .iface v => v
  | v => v

/-- Whether the type of a value is comparable. -/
def Value.comparable : Value → Bool
  | .other _ _ (.uncomparable _) => false
  | .other k _ _ => k.comparable
  | _ => true

/-- The name of the type of a value that is not comparable, as the runtime prints it. -/
def Value.typeString : Value → String
  | .other _ t _ => t
  | _ => ""

/-- `x != y` on two `interface{}` values. Values of different dynamic types differ.
Values of one type that is not comparable make the comparison panic (`none`); the two
have one type, so the second decides. A NaN differs from everything. -/
def interfaceNe (x y : Value) : Option Bool :=
  match x, y with
  | .other k t c, .other k' t' c' =>
    if k = k' ∧ t = t' then
      if !(Value.other k' t' c').comparable then none
      else
        match c, c' with
        | .data a, .data b => some (a != b)
        | _, _ => some true
    else some true
  | x, y => some (x != y)

/-- `Kind.String()` of the kind of a `reflect.Value`, `zero` standing for the zero
Value as `ValueError` prints it. -/
def Value.kindName : Value → String
  | .nil => "zero"
  | .int .Int _ => "int"
  | .int .Int8 _ => "int8"
  | .int .Int16 _ => "int16"
  | .int .Int32 _ => "int32"
  | .int .Int64 _ => "int64"
  | .uint .Uint _ => "uint"
  | .uint .Uint8 _ => "uint8"
  | .uint .Uint16 _ => "uint16"
  | .uint .Uint32 _ => "uint32"
  | .uint .Uint64 _ => "uint64"
  | .str _ => "string"
  | .bool _ => "bool"
  | .struct _ _ _ => "struct"
  | .ptr _ _ => "ptr"
  | .other k _ _ => k.name
  | .iface _ => "interface"

/-! ## Struct types and entities -/

/-- The part of `reflect.StructField` that `base.go` reads. -/
structure StructField where
  /-- The field name. -/
  Name : String
  /-- Empty for an exported field. -/
  PkgPath : String
  /-- `Tag.Get("db")`, empty when the tag is absent. -/
  db : String
  /-- `Tag.Get("primary")`, empty when the tag is absent. -/
  primary : String
  deriving DecidableEq, Repr

/-- A declared field with its current value. -/
structure Field where
  typ : StructField
  value : Value
  deriving DecidableEq, Repr

/-- A struct embedding `AbstractEntity`. `SavedValues` is `none` for the nil map. The
map is an association list read with `List.lookup`, the newest binding first. -/
structure Entity where
  typeName : String
  SavedValues : Option (List (String × Value))
  fields : List Field
  deriving DecidableEq, Repr

/-- One call of `SqlExecutor.Exec`. -/
structure Call where
  query : String
  args : List Value
  deriving DecidableEq, Repr

/-- What `Exec` returns: an error, or a result whose `LastInsertId` is `some n` for
`(n, nil)` and `none` when it reports an error. -/
inductive ExecResult
  | err
  | ok (lastInsertId : Option Int)
  deriving DecidableEq, Repr

/-- An executor answers a call knowing the calls made before it. -/
abbrev Executor := List Call → Call → ExecResult

/-- The heap of entities and the calls made on the executor so far, oldest first. -/
structure World where
  heap : Nat → Entity
  log : List Call

/-- Store an entity at an address. -/
def World.set (w : World) (a : Nat) (e : Entity) : World :=
  { w with heap := Function.update w.heap a e }

/-- A call that does not return: a panic, with the world it leaves behind, or the
recursion running past the fuel. -/
inductive Fault
  | panic (msg : String) (w : World)
  | fuel

/-! ## Reflection helpers -/

/-- `strconv.ParseBool`: the accepted spellings, `none` for an error. -/
def ParseBool (s : String) : Option Bool :=
  if s = "1" ∨ s = "t" ∨ s = "T" ∨ s = "TRUE" ∨ s = "true" ∨ s = "True" then some true
  else if s = "0" ∨ s = "f" ∨ s = "F" ∨ s = "FALSE" ∨ s = "false" ∨ s = "False" then some false
  else none

/-- `isDatabaseField`. -/
def isDatabaseField (field : StructField) : Bool :=
  field.db.length > 0

/-- The loop of `getPrimaryType` over the fields of the struct type, from index `i` on:
the first exported field whose `primary` tag parses to true, with its index; `none`
stands for the zero `reflect.StructField`. -/
def getPrimaryTypeFrom : Nat → List StructField → Option (Nat × StructField)
  | _, [] => none
  | i, typeField :: rest =>
    if typeField.PkgPath.length ≠ 0 then getPrimaryTypeFrom (i + 1) rest
    else if typeField.primary.length = 0 then getPrimaryTypeFrom (i + 1) rest
    else
      match ParseBool typeField.primary with
      | none => getPrimaryTypeFrom (i + 1) rest
      | some false => getPrimaryTypeFrom (i + 1) rest
      | some true => some (i, typeField)

/-- `getPrimaryType`. -/
def getPrimaryType (e : Entity) : Option (Nat × StructField) :=
  getPrimaryTypeFrom 0 (e.fields.map Field.typ)

/-- `v.Field(i)`: what the field holds, the zero `reflect.Value` past the last
field. -/
def Entity.fieldValue (e : Entity) (i : Nat) : Value :=
  match e.fields[i]? with
  | some f => f.value
  | none => Value.nil

/-- `getPrimaryValue`: the primary field's value, the zero `reflect.Value` when
`isValidField` fails. -/
def getPrimaryValue (e : Entity) : Value :=
  match getPrimaryType e with
  | some (i, _) => e.fieldValue i
  | none => Value.nil

/-- `getPrimaryKey`. -/
def getPrimaryKey (e : Entity) : String :=
  match getPrimaryType e with
  | some (_, tf) => tf.db
  | none => ""

/-- `IsValid`. A Go `switch` does not fall through: the cases with an empty body leave
the switch, and the function returns false after it. -/
def IsValid (e : Entity) : Bool :=
  match getPrimaryValue e with
  | .int .Int _ => false
  | .int .Int8 _ => false
  | .int .Int16 _ => false
  | .int .Int32 _ => false
  | .int .Int64 i => i != 0
  | .uint .Uint _ => false
  | .uint .Uint8 _ => false
  | .uint .Uint16 _ => false
  | .uint .Uint32 _ => false
  | .uint .Uint64 n => n != 0
  | _ => false

/-- Overwrite the value of field `i`. -/
def Entity.SetField (e : Entity) (i : Nat) (v : Value) : Entity :=
  { e with fields := e.fields.modify (fun f => { f with value := v }) i }

/-- `setPrimary`: the entity afterwards and whether the call returned nil (`true`) or
the error `Invalid primary` (`false`). As in `IsValid`, only the last case of each
group has a body. -/
def setPrimary (e : Entity) (newPrimary : Int) : Entity × Bool :=
  match getPrimaryType e, getPrimaryValue e with
  | some (i, _), .int .Int64 _ => (e.SetField i (.int .Int64 newPrimary), true)
  | some (i, _), .uint .Uint64 _ =>
    (e.SetField i (.uint .Uint64 (newPrimary % 2 ^ 64).toNat), true)
  | _, _ => (e, false)

/-- The loop of `SetSavedValues` over the fields, filling the new map.
`SetMapIndex` panics on a value read from an unexported field: `Except.error` carries
the map as filled so far. A field of interface type is stored as the value it holds. -/
def SetSavedValuesLoop : List Field → List (String × Value) →
    Except (List (String × Value)) (List (String × Value))
  | [], m => .ok m
  | f :: rest, m =>
    if !isDatabaseField f.typ then SetSavedValuesLoop rest m
    else if f.typ.PkgPath.length ≠ 0 then .error m
    else SetSavedValuesLoop rest ((f.typ.Name, f.value.Interface) :: m)

/-- `SetSavedValues` on the entity at address `a`. -/
def SetSavedValues (w : World) (a : Nat) : Except Fault World :=
  let e := w.heap a
  match SetSavedValuesLoop e.fields [] with
  | .ok m => .ok (w.set a { e with SavedValues := some m })
  | .error m =>
    .error (.panic "reflect: SetMapIndex using value obtained using unexported field"
      (w.set a { e with SavedValues := some m }))

/-- `savedValues[name]`, the nil interface for a missing key and for the nil map. -/
def savedValue (saved : Option (List (String × Value))) (name : String) : Value :=
  match saved with
  | none => Value.nil
  | some m => (m.lookup name).getD Value.nil

/-- Equality of two results is decidable when it is for errors and values. -/
instance instDecidableEqExcept {ε α : Type} [DecidableEq ε] [DecidableEq α] :
    DecidableEq (Except ε α) := fun x y =>
  match x, y with
  | .ok a, .ok b => if h : a = b then isTrue (by rw [h]) else isFalse (fun h' => h (by cases h'; rfl))
  | .error a, .error b =>
    if h : a = b then isTrue (by rw [h]) else isFalse (fun h' => h (by cases h'; rfl))
  | .ok _, .error _ => isFalse (fun h => by cases h)
  | .error _, .ok _ => isFalse (fun h => by cases h)

/-- The loop of `getChangedFieldNames`. The comparison on line 288 is `!=` between two
`interface{}` values: `Except.error` carries the message of its panic. -/
def getChangedFieldNamesLoop (saved : Option (List (String × Value))) :
    List Field → List String → Except String (List String)
  | [], fieldNames => .ok fieldNames
  | f :: rest, fieldNames =>
    if f.typ.PkgPath.length ≠ 0 then getChangedFieldNamesLoop saved rest fieldNames
    else if !isDatabaseField f.typ then getChangedFieldNamesLoop saved rest fieldNames
    else
      match interfaceNe (savedValue saved f.typ.Name) f.value.Interface with
      | none =>
        .error ("runtime error: comparing uncomparable type " ++ f.value.Interface.typeString)
      | some true => getChangedFieldNamesLoop saved rest (fieldNames ++ [f.typ.Name])
      | some false => getChangedFieldNamesLoop saved rest fieldNames

/-- `getChangedFieldNames`: the names, or the message of the panic of a comparison. The
type assertion to `map[string]interface{}` succeeds for the nil map as well, so the
panic of line 275 is not reached for a struct that embeds `AbstractEntity`. -/
def getChangedFieldNames (e : Entity) : Except String (List String) :=
  getChangedFieldNamesLoop e.SavedValues e.fields []

/-- `v.FieldByName(name)` among the declared fields. -/
def Entity.FieldByName (e : Entity) (name : String) : Option Field :=
  e.fields.find? (fun f => f.typ.Name = name)

/-! ## Table name -/

/-- `strings.Replace(s, old, "", -1)` on characters: `skip` counts the characters of a
match still to drop. -/
def removeAll (old : List Char) : Nat → List Char → List Char
  | _, [] => []
  | skip + 1, _ :: cs => removeAll old skip cs
  | 0, c :: cs =>
    if old ≠ [] ∧ old.isPrefixOf (c :: cs) then removeAll old (old.length - 1) cs
    else c :: removeAll old 0 cs

/-- The lower-case mappings of `unicode.CaseRanges` beyond ASCII: the simple lower-case
mappings of the Unicode character database, here of version 14 (a Go release carries
the table of its time). `(lo, hi, step, delta)` sends every `step`-th code point from
`lo` to `hi` to itself plus `delta`. -/
def unicode.lowerRanges : List (Nat × Nat × Nat × Int) :=
  [(192, 214, 1, 32), (216, 222, 1, 32), (256, 302, 2, 1), (304, 304, 1, -199),
   (306, 310, 2, 1), (313, 327, 2, 1), (330, 374, 2, 1), (376, 376, 1, -121),
   (377, 381, 2, 1), (385, 385, 1, 210), (386, 388, 2, 1), (390, 390, 1, 206),
   (391, 391, 1, 1), (393, 394, 1, 205), (395, 395, 1, 1), (398, 398, 1, 79),
   (399, 399, 1, 202), (400, 400, 1, 203), (401, 401, 1, 1), (403, 403, 1, 205),
   (404, 404, 1, 207), (406, 406, 1, 211), (407, 407, 1, 209), (408, 408, 1, 1),
   (412, 412, 1, 211), (413, 413, 1, 213), (415, 415, 1, 214), (416, 420, 2, 1),
   (422, 422, 1, 218), (423, 423, 1, 1), (425, 425, 1, 218), (428, 428, 1, 1),
   (430, 430, 1, 218), (431, 431, 1, 1), (433, 434, 1, 217), (435, 437, 2, 1),
   (439, 439, 1, 219), (440, 440, 1, 1), (444, 444, 1, 1), (452, 452, 1, 2), (453, 453, 1, 1),
   (455, 455, 1, 2), (456, 456, 1, 1), (458, 458, 1, 2), (459, 475, 2, 1), (478, 494, 2, 1),
   (497, 497, 1, 2), (498, 500, 2, 1), (502, 502, 1, -97), (503, 503, 1, -56),
   (504, 542, 2, 1), (544, 544, 1, -130), (546, 562, 2, 1), (570, 570, 1, 10795),
   (571, 571, 1, 1), (573, 573, 1, -163), (574, 574, 1, 10792), (577, 577, 1, 1),
   (579, 579, 1, -195), (580, 580, 1, 69), (581, 581, 1, 71), (582, 590, 2, 1),
   (880, 882, 2, 1), (886, 886, 1, 1), (895, 895, 1, 116), (902, 902, 1, 38),
   (904, 906, 1, 37), (908, 908, 1, 64), (910, 911, 1, 63), (913, 929, 1, 32),
   (931, 939, 1, 32), (975, 975, 1, 8), (984, 1006, 2, 1), (1012, 1012, 1, -60),
   (1015, 1015, 1, 1), (1017, 1017, 1, -7), (1018, 1018, 1, 1), (1021, 1023, 1, -130),
   (1024, 1039, 1, 80), (1040, 1071, 1, 32), (1120, 1152, 2, 1), (1162, 1214, 2, 1),
   (1216, 1216, 1, 15), (1217, 1229, 2, 1), (1232, 1326, 2, 1), (1329, 1366, 1, 48),
   (4256, 4293, 1, 7264), (4295, 4295, 1, 7264), (4301, 4301, 1, 7264),
   (5024, 5103, 1, 38864), (5104, 5109, 1, 8), (7312, 7354, 1, -3008), (7357, 7359, 1, -3008),
   (7680, 7828, 2, 1), (7838, 7838, 1, -7615), (7840, 7934, 2, 1), (7944, 7951, 1, -8),
   (7960, 7965, 1, -8), (7976, 7983, 1, -8), (7992, 7999, 1, -8), (8008, 8013, 1, -8),
   (8025, 8031, 2, -8), (8040, 8047, 1, -8), (8072, 8079, 1, -8), (8088, 8095, 1, -8),
   (8104, 8111, 1, -8), (8120, 8121, 1, -8), (8122, 8123, 1, -74), (8124, 8124, 1, -9),
   (8136, 8139, 1, -86), (8140, 8140, 1, -9), (8152, 8153, 1, -8), (8154, 8155, 1, -100),
   (8168, 8169, 1, -8), (8170, 8171, 1, -112), (8172, 8172, 1, -7), (8184, 8185, 1, -128),
   (8186, 8187, 1, -126), (8188, 8188, 1, -9), (8486, 8486, 1, -7517), (8490, 8490, 1, -8383),
   (8491, 8491, 1, -8262), (8498, 8498, 1, 28), (8544, 8559, 1, 16), (8579, 8579, 1, 1),
   (9398, 9423, 1, 26), (11264, 11311, 1, 48), (11360, 11360, 1, 1),
   (11362, 11362, 1, -10743), (11363, 11363, 1, -3814), (11364, 11364, 1, -10727),
   (11367, 11371, 2, 1), (11373, 11373, 1, -10780), (11374, 11374, 1, -10749),
   (11375, 11375, 1, -10783), (11376, 11376, 1, -10782), (11378, 11378, 1, 1),
   (11381, 11381, 1, 1), (11390, 11391, 1, -10815), (11392, 11490, 2, 1),
   (11499, 11501, 2, 1), (11506, 11506, 1, 1), (42560, 42604, 2, 1), (42624, 42650, 2, 1),
   (42786, 42798, 2, 1), (42802, 42862, 2, 1), (42873, 42875, 2, 1),
   (42877, 42877, 1, -35332), (42878, 42886, 2, 1), (42891, 42891, 1, 1),
   (42893, 42893, 1, -42280), (42896, 42898, 2, 1), (42902, 42920, 2, 1),
   (42922, 42922, 1, -42308), (42923, 42923, 1, -42319), (42924, 42924, 1, -42315),
   (42925, 42925, 1, -42305), (42926, 42926, 1, -42308), (42928, 42928, 1, -42258),
   (42929, 42929, 1, -42282), (42930, 42930, 1, -42261), (42931, 42931, 1, 928),
   (42932, 42946, 2, 1), (42948, 42948, 1, -48), (42949, 42949, 1, -42307),
   (42950, 42950, 1, -35384), (42951, 42953, 2, 1), (42960, 42960, 1, 1),
   (42966, 42968, 2, 1), (42997, 42997, 1, 1), (65313, 65338, 1, 32), (66560, 66599, 1, 40),
   (66736, 66771, 1, 40), (66928, 66938, 1, 39), (66940, 66954, 1, 39), (66956, 66962, 1, 39),
   (66964, 66965, 1, 39), (68736, 68786, 1, 64), (71840, 71871, 1, 32), (93760, 93791, 1, 32),
   (125184, 125217, 1, 34)]

/-- The search of `unicode.To` through the ranges: a code point outside them maps to
itself. -/
def unicode.toLowerFrom : List (Nat × Nat × Nat × Int) → Nat → Nat
  | [], r => r
  | (lo, hi, step, delta) :: rest, r =>
    if lo ≤ r ∧ r ≤ hi ∧ (r - lo) % step = 0 then (r + delta).toNat
    else unicode.toLowerFrom rest r

/-- `unicode.ToLower`. -/
def unicode.ToLower (c : Char) : Char :=
  if c.toNat < 128 then c.toLower
  else Char.ofNat (unicode.toLowerFrom unicode.lowerRanges c.toNat)

/-- `strings.ToLower`: every character mapped by `unicode.ToLower`. -/
def strings.ToLower (s : List Char) : List Char :=
  s.map unicode.ToLower

/-- `getTableName`: every occurrence of `Entity` removed, then lower-cased. -/
def getTableName (e : Entity) : String :=
  String.mk (strings.ToLower (removeAll "Entity".data 0 e.typeName.data))

/-! ## Statement builders and Save -/

/-- The block shared by both builders (lines 228-233 and 256-262), on what the field
holds: the value bound is `field.Interface()`, but when the field, dereferenced, is a
struct with a primary key, that struct is saved and its primary value bound instead.
`save` is `Save` on the same executor. A struct held by value reaches `mustBePtr` inside
`Save` and panics (the message names `Save` with its package path, left out here). A
field of interface type has the kind `Interface`, whatever it holds, and is bound as it
is. -/
def saveRelated (save : World → Nat → Except Fault World) (w : World) (value : Value) :
    Except Fault (World × Value) :=
  match value with
  | .ptr _ (some b) =>
    if getPrimaryKey (w.heap b) ≠ "" then
      match save w b with
      | .ok w1 => .ok (w1, (getPrimaryValue (w1.heap b)).Interface)
      | .error f => .error f
    else .ok (w, value)
  | .struct _ pk _ =>
    if pk ≠ "" then .error (.panic "baseEntity: Save call using non-Ptr parameter" w)
    else .ok (w, value)
  | _ => .ok (w, value.Interface)

/-- The loop of `getInsertQuery` over the fields, from index `i` on. The field types
are those of the struct type; the values are read from the heap as it is then. -/
def getInsertQueryLoop (save : World → Nat → Except Fault World) (a : Nat)
    (primaryKey : String) :
    Nat → List StructField → World → List String → List String → List Value →
    Except Fault (World × List String × List String × List Value)
  | _, [], w, columns, queryValues, values => .ok (w, columns, queryValues, values)
  | i, typeField :: rest, w, columns, queryValues, values =>
    if typeField.PkgPath.length ≠ 0 then
      getInsertQueryLoop save a primaryKey (i + 1) rest w columns queryValues values
    else if typeField.db.length = 0 then
      getInsertQueryLoop save a primaryKey (i + 1) rest w columns queryValues values
    else if typeField.db = primaryKey then
      getInsertQueryLoop save a primaryKey (i + 1) rest w columns queryValues values
    else
      match saveRelated save w ((w.heap a).fieldValue i) with
      | .error f => .error f
      | .ok (w1, value) =>
        getInsertQueryLoop save a primaryKey (i + 1) rest w1
          (columns ++ [typeField.db]) (queryValues ++ ["?"]) (values ++ [value])

/-- `getInsertQuery`. -/
def getInsertQuery (save : World → Nat → Except Fault World) (w : World) (a : Nat) :
    Except Fault (World × String × List Value) :=
  let e := w.heap a
  match getInsertQueryLoop save a (getPrimaryKey e) 0 (e.fields.map Field.typ) w [] [] [] with
  | .error f => .error f
  | .ok (w1, columns, queryValues, values) =>
    .ok (w1, "INSERT INTO `" ++ getTableName (w1.heap a) ++ "` (" ++
      ",".intercalate columns ++ ") VALUES (" ++ ",".intercalate queryValues ++ ")", values)

/-- The loop of `getUpdateQuery` over the changed field names. -/
def getUpdateQueryLoop (save : World → Nat → Except Fault World) (a : Nat) :
    List String → World → List String → List Value →
    Except Fault (World × List String × List Value)
  | [], w, queryValues, values => .ok (w, queryValues, values)
  | fieldName :: rest, w, queryValues, values =>
    match (w.heap a).FieldByName fieldName with
    | none => .error (.panic "reflect: call of reflect.Value.Interface on zero Value" w)
    | some field =>
      match saveRelated save w field.value with
      | .error f => .error f
      | .ok (w1, value) =>
        getUpdateQueryLoop save a rest w1
          (queryValues ++ ["`" ++ field.typ.db ++ "` = ?"]) (values ++ [value])

/-- `reflect.Value.Int`: defined on the signed kinds, a panic (`none`) otherwise. -/
def Value.Int : Value → Option Int
  | .int _ i => some i
  | _ => none

/-- `getUpdateQuery`. -/
def getUpdateQuery (save : World → Nat → Except Fault World) (w : World) (a : Nat) :
    Except Fault (World × String × List Value) :=
  match getChangedFieldNames (w.heap a) with
  | .error msg => .error (.panic msg w)
  | .ok fieldNames =>
    match getUpdateQueryLoop save a fieldNames w [] [] with
    | .error f => .error f
    | .ok (w1, queryValues, values) =>
      match (getPrimaryValue (w1.heap a)).Int with
      | none =>
        .error (.panic ("reflect: call of reflect.Value.Int on " ++
          (getPrimaryValue (w1.heap a)).kindName ++ " Value") w1)
      | some p =>
        .ok (w1, "UPDATE `" ++ getTableName (w1.heap a) ++ "` SET " ++
          ",".intercalate queryValues ++ " WHERE `" ++ getPrimaryKey (w1.heap a) ++
          "` = " ++ toString p, values)

/-- Lines 173-179 of `Save`: the choice between the two builders. -/
def buildQuery (save : World → Nat → Except Fault World) (w : World) (a : Nat) :
    Except Fault (World × String × List Value) :=
  if !IsValid (w.heap a) || (w.heap a).SavedValues.isNone then getInsertQuery save w a
  else getUpdateQuery save w a

/-- Lines 181-198 of `Save`: what follows the builder. -/
def execQuery (ex : Executor) (a : Nat) (w1 : World) (query : String) (data : List Value) :
    Except Fault World :=
  if data.length = 0 then .ok w1
  else
    let w2 : World := { w1 with log := w1.log ++ [⟨query, data⟩] }
    match ex w1.log ⟨query, data⟩ with
    | .err => .ok w2
    | .ok res =>
      let w3 :=
        if !IsValid (w2.heap a) then
          match res with
          | some newPrimary =>
            if newPrimary ≠ 0 then w2.set a (setPrimary (w2.heap a) newPrimary).1 else w2
          | none => w2
        else w2
      SetSavedValues w3 a

/-- `Save` on the entity at address `a`, with the recursion depth bounded by the
fuel. -/
def Save (ex : Executor) : Nat → World → Nat → Except Fault World
  | 0, _, _ => .error .fuel
  | fuel + 1, w, a =>
    match buildQuery (Save ex fuel) w a with
    | .error f => .error f
    | .ok (w1, query, data) => execQuery ex a w1 query data

/-- The relation graph of the heap is acyclic: `rank` falls along every pointer
field. -/
def World.ranked (rank : Nat → Nat) (w : World) : Prop :=
  ∀ a i t b, (w.heap a).fieldValue i = Value.ptr t (some b) → rank b < rank a

/-- An entity none of whose shapes makes a call panic: every `db`-tagged field is
exported (`SetSavedValues`), no field holds by value a struct with a primary key
(`mustBePtr`), the primary key is not a `uint64` (`Value.Int` in `getUpdateQuery`), and
every field holds a value of a comparable type (`getChangedFieldNames`). -/
def Entity.safe (e : Entity) : Prop :=
  (∀ tf ∈ e.fields.map Field.typ, isDatabaseField tf = true → tf.PkgPath.length = 0) ∧
    (∀ i t pk c, e.fieldValue i = Value.struct t pk c → pk = "") ∧
    (∀ n, getPrimaryValue e ≠ Value.uint UintKind.Uint64 n) ∧
    ∀ i, (e.fieldValue i).Interface.comparable = true

/-- The address a value points to, if it is a non-nil pointer. -/
def Value.pointee : Value → Option Nat
  | .ptr _ b => b
  | _ => none

/-- The primary key of a struct held by value, empty for any other value. -/
def Value.structKey : Value → String
  | .struct _ pk _ => pk
  | _ => ""

/-- Whether a value is a `uint64`. -/
def Value.isUint64 : Value → Bool
  | .uint .Uint64 _ => true
  | _ => false

/-- A statement on table `t`, as either builder writes it. -/
def isStatementOn (t : String) (q : String) : Prop :=
  (∃ rest, q = "INSERT INTO `" ++ t ++ "` (" ++ rest) ∨
    ∃ rest, q = "UPDATE `" ++ t ++ "` SET " ++ rest

/-! ## Loading -/

/-- A column value as `Rows.Scan` leaves it in an `interface{}`: the values a driver
hands over: nil for SQL NULL, `int64`, `float64` (its content `nan` for a NaN), `bool`,
`[]byte`, `string`, `time.Time`. -/
inductive RowValue
  | null
  | int64 (i : Int)
  | float64 (c : Content)
  | bool (b : Bool)
  | bytes (s : String)
  | str (s : String)
  | time (t : Int)
  deriving DecidableEq, Repr

/-- The column value as a value of its own type. -/
def RowValue.toValue : RowValue → Value
  | .null => .nil
  | .int64 i => .int .Int64 i
  | .float64 c => .other .float64 "float64" c
  | .bool b => .bool b
  | .bytes s => .other .slice "[]uint8" (.data s)
  | .str s => .str s
  | .time t => .struct "time.Time" "" t

/-- What `Query` returns: an error, or rows, of which `LoadEntity` reads the first:
each column name with the value scanned for it, `none` when `rows.Next()` is false. -/
inductive QueryResult
  | err
  | rows (first : Option (List (String × RowValue)))

/-- A querier answers a call knowing the calls made before it. -/
abbrev Querier := List Call → Call → QueryResult

/-- The loop of `getFieldForDbColumn` over the fields of the struct type, from index
`i` on: the index of the first exported field whose `db` tag is non-empty and equals
the column; `none` stands for the zero `reflect.Value`. -/
def getFieldForDbColumnFrom (column : String) : Nat → List StructField → Option Nat
  | _, [] => none
  | i, typeField :: rest =>
    if typeField.PkgPath.length ≠ 0 then getFieldForDbColumnFrom column (i + 1) rest
    else if typeField.db.length ≠ 0 ∧ typeField.db = column then some i
    else getFieldForDbColumnFrom column (i + 1) rest

/-- `getFieldForDbColumn`. -/
def getFieldForDbColumn (e : Entity) (column : String) : Option Nat :=
  getFieldForDbColumnFrom column 0 (e.fields.map Field.typ)

/-- `field.Set(reflect.ValueOf(value))` on a field that holds `field`: the value it
holds afterwards, `none` for a panic. `reflect.ValueOf(nil)` is the zero Value, which
`Set` refuses; any other value must have the field's type, unless the field is declared
`interface{}`, which takes every value. -/
def setValue (field : Value) (value : RowValue) : Option Value :=
  match value, field with
  | .null, _ => none
  | v, .iface _ => some (.iface v.toValue)
  | .int64 i, .int .Int64 _ => some (.int .Int64 i)
  | .float64 c, .other .float64 typ _ =>
    if typ = "float64" then some (.other .float64 "float64" c) else none
  | .bool b, .bool _ => some (.bool b)
  | .bytes s, .other .slice typ _ =>
    if typ = "[]uint8" then some (.other .slice "[]uint8" (.data s)) else none
  | .str s, .str _ => some (.str s)
  | .time t, .struct typ _ _ => if typ = "time.Time" then some (.struct "time.Time" "" t) else none
  | _, _ => none

/-- The message of the panic of `field.Set(reflect.ValueOf(value))`. -/
def setPanic (value : RowValue) : String :=
  if value = .null then "reflect: call of reflect.Value.Set on zero Value"
  else "reflect.Set: value is not assignable to the type of the field"

/-- A `time.Time` on the heap, for a `*time.Time` field: a struct named `Time` whose
content sits in an unexported field. -/
def timeObject (t : Int) : Entity :=
  { typeName := "Time"
    SavedValues := none
    fields := [⟨⟨"wall", "time", "", ""⟩, .int .Int64 t⟩] }

/-- `setInterfaceToFieldValue` on field `field` of the entity at address `a`. `load`
is `LoadEntity` on the same querier; `types` gives the zero value of a struct type,
for `reflect.New`; `next` is the next free address of the heap. A field that
`getFieldForDbColumn` did not find is the zero `reflect.Value`: its kind is `Invalid`,
which takes the `default` case, where `Set` panics. So does a field declared
`interface{}`, of kind `Interface` whatever it holds. -/
def setInterfaceToFieldValue
    (load : World → Nat → Nat → String → Value → Except Fault (World × Nat × Bool))
    (types : String → Entity) (w : World) (next : Nat) (a : Nat) (field : Option Nat)
    (value : RowValue) : Except Fault (World × Nat) :=
  match field with
  | none => .error (.panic "reflect: call of reflect.Value.Set on zero Value" w)
  | some i =>
    match (w.heap a).fieldValue i with
    | .int .Int64 old =>
      match setValue (.int .Int64 old) value with
      | some v => .ok (w.set a ((w.heap a).SetField i v), next)
      | none => .error (.panic (setPanic value) w)
    | .str _ =>
      match value with
      | .bytes strVal => .ok (w.set a ((w.heap a).SetField i (.str strVal)), next)
      | _ => .ok (w, next)
    | .ptr elem _ =>
      match value with
      | .int64 n =>
        let w1 := w.set next (types elem)
        match load w1 (next + 1) next (getPrimaryKey (types elem)) (.int .Int64 n) with
        | .error f => .error f
        | .ok (w2, next2, _) =>
          .ok (w2.set a ((w2.heap a).SetField i (.ptr elem (some next))), next2)
      | .null => .ok (w, next)
      | .time t =>
        if elem = "time.Time" then
          .ok ((w.set next (timeObject t)).set a
            ((w.heap a).SetField i (.ptr elem (some next))), next + 1)
        else .error (.panic (setPanic value) w)
      | _ => .ok (w, next)
    | old =>
      match setValue old value with
      | some v => .ok (w.set a ((w.heap a).SetField i v), next)
      | none => .error (.panic (setPanic value) w)

/-- The loop of `LoadEntity` over the columns of the row. -/
def LoadEntityLoop
    (load : World → Nat → Nat → String → Value → Except Fault (World × Nat × Bool))
    (types : String → Entity) (a : Nat) :
    List (String × RowValue) → World → Nat → Except Fault (World × Nat)
  | [], w, next => .ok (w, next)
  | (column, value) :: rest, w, next =>
    match setInterfaceToFieldValue load types w next a
        (getFieldForDbColumn (w.heap a) column) value with
    | .error f => .error f
    | .ok (w1, next1) => LoadEntityLoop load types a rest w1 next1

/-- `LoadEntity` on the entity at address `a`, with the recursion depth bounded by the
fuel: the world afterwards, the next free address and the boolean returned. The query
is logged like a call of `Exec`. -/
def LoadEntity (q : Querier) (types : String → Entity) :
    Nat → World → Nat → Nat → String → Value → Except Fault (World × Nat × Bool)
  | 0, _, _, _, _, _ => .error .fuel
  | fuel + 1, w, next, a, column, value =>
    let c : Call :=
      ⟨"SELECT * FROM `" ++ getTableName (w.heap a) ++ "` WHERE `" ++ column ++ "` = ?",
        [value]⟩
    let w0 : World := { w with log := w.log ++ [c] }
    match q w.log c with
    | .err => .ok (w0, next, false)
    | .rows none => .ok (w0, next, false)
    | .rows (some row) =>
      match LoadEntityLoop (LoadEntity q types fuel) types a row w0 next with
      | .error f => .error f
      | .ok (w1, next1) =>
        if !IsValid (w1.heap a) then .ok (w1, next1, false)
        else
          match SetSavedValues w1 a with
          | .error f => .error f
          | .ok w2 => .ok (w2, next1, true)

/-! ## The entities and the mock of `base_test.go` -/

/-- An exported field with its two tags. -/
def exportedField (name db primary : String) : StructField :=
  ⟨name, "", db, primary⟩

/-- `testEntity`: `TestId int` (primary), `Name string` and two `time.Time` fields. -/
def testEntity (TestId : Int) (Name : String) (TimeAdded TimeCurrent : Int) : Entity :=
  { typeName := "testEntity"
    SavedValues := none
    fields :=
      [⟨exportedField "TestId" "test_id" "true", .int .Int TestId⟩,
       ⟨exportedField "Name" "name" "", .str Name⟩,
       ⟨exportedField "TimeAdded" "time_added" "", .struct "time.Time" "" TimeAdded⟩,
       ⟨exportedField "TimeCurrent" "time_current" "", .struct "time.Time" "" TimeCurrent⟩] }

/-- `extendedEntity`: `Id int` (primary), `TestPtr *testEntity` and two `time.Time`
fields. -/
def extendedEntity (Id : Int) (TestPtr : Option Nat) (TimeAdded TimeCurrent : Int) : Entity :=
  { typeName := "extendedEntity"
    SavedValues := none
    fields :=
      [⟨exportedField "Id" "id" "true", .int .Int Id⟩,
       ⟨exportedField "TestPtr" "test_ptr_id" "", .ptr "testEntity" TestPtr⟩,
       ⟨exportedField "TimeAdded" "time_added" "", .struct "time.Time" "" TimeAdded⟩,
       ⟨exportedField "TimeCurrent" "time_current" "", .struct "time.Time" "" TimeCurrent⟩] }

/-- `mockDb.Exec`: always `mockResult{}`, whose `LastInsertId` is `(1, nil)`. -/
def mockDb : Executor := fun _ _ => .ok (some 1)

/-- The world that a result leaves behind, `none` when the fuel ran out. -/
def finalWorld : Except Fault World → Option World
  | .ok w => some w
  | .error (.panic _ w) => some w
  | .error .fuel => none

/-! ## Vocabulary of the statements -/

/-- Whether `getChangedFieldNames` reports field `f` against the snapshot `saved`:
exported, `db`-tagged, and its value differs, under `!=`, from the one stored under its
name. -/
def isChangedField (saved : Option (List (String × Value))) (f : Field) : Bool :=
  f.typ.PkgPath.length = 0 && isDatabaseField f.typ &&
    (interfaceNe (savedValue saved f.typ.Name) f.value.Interface == some true)

/-- Whether `getChangedFieldNames` passes field `f` without a panic: the field is
skipped, or its comparison with the snapshot is defined. -/
def isComparedField (saved : Option (List (String × Value))) (f : Field) : Bool :=
  !(decide (f.typ.PkgPath.length = 0) && isDatabaseField f.typ) ||
    (interfaceNe (savedValue saved f.typ.Name) f.value.Interface).isSome

/-- A value that `==` finds equal to itself: its type is comparable and it holds no
NaN. -/
def Value.selfEqual (v : Value) : Bool :=
  interfaceNe v v == some false

/-- The names of the persisted (`db`-tagged) fields, in declaration order. Go lets a
struct repeat only the blank name `_`, which is not exported. -/
def persistedNames (e : Entity) : List String :=
  ((e.fields.map Field.typ).filter isDatabaseField).map StructField.Name

/-- Whether `getInsertQuery` lists a field: exported, `db`-tagged, and its column is not
the primary key. -/
def isInsertedField (primaryKey : String) (typeField : StructField) : Bool :=
  typeField.PkgPath.length = 0 && typeField.db.length ≠ 0 && typeField.db ≠ primaryKey

/-- Whether a field value makes a builder call `Save`: a struct with a primary key,
held by value or behind a non-nil pointer. -/
def isRelated (w : World) : Value → Bool
  | .ptr _ (some b) => getPrimaryKey (w.heap b) ≠ ""
  | .struct _ pk _ => pk ≠ ""
  | _ => false

/-- The call `LoadEntity` makes on entity `e`: the SELECT on its table, with the one
bound value. -/
def loadQuery (e : Entity) (column : String) (value : Value) : Call :=
  ⟨"SELECT * FROM `" ++ getTableName e ++ "` WHERE `" ++ column ++ "` = ?", [value]⟩

/-- The kinds `setInterfaceToFieldValue` tells apart. -/
inductive LoadKind
  | int64
  | string
  | ptr
  | other
  deriving DecidableEq, Repr

/-- The kind of the field that holds a value. -/
def Value.loadKind : Value → LoadKind
  | .int .Int64 _ => .int64
  | .str _ => .string
  | .ptr _ _ => .ptr
  | _ => .other

/-- A column that `setInterfaceToFieldValue` maps without a nested load and without a
panic: it matches a field, and either the field is an `int64` and the value an `int64`,
or the field is a string, or the field is a pointer and the value nil. -/
def plainColumn (e : Entity) (cv : String × RowValue) : Bool :=
  match getFieldForDbColumn e cv.1 with
  | none => false
  | some i =>
    match (e.fieldValue i).loadKind, cv.2 with
    | .int64, .int64 _ => true
    | .string, _ => true
    | .ptr, .null => true
    | _, _ => false

/-- Two entities of one struct type whose fields have the same kinds. -/
def Entity.alike (e e' : Entity) : Prop :=
  e'.fields.map Field.typ = e.fields.map Field.typ ∧
    ∀ i, (e'.fieldValue i).loadKind = (e.fieldValue i).loadKind

/-- How `Save` may change a value: not at all, or a zero 64-bit primary key replaced by
a generated one of the same kind. -/
def Value.evolves (v v' : Value) : Prop :=
  v' = v ∨ (v = .int .Int64 0 ∧ ∃ j, v' = .int .Int64 j) ∨
    (v = .uint .Uint64 0 ∧ ∃ n, v' = .uint .Uint64 n)

/-- How `Save` may change an entity: the type stays, the values evolve (the snapshot is
free). -/
def Entity.evolves (e e' : Entity) : Prop :=
  e'.typeName = e.typeName ∧ e'.fields.map Field.typ = e.fields.map Field.typ ∧
    ∀ i, (e.fieldValue i).evolves (e'.fieldValue i)

/-- A later world: every entity evolved, the log extended. -/
def World.evolves (w w' : World) : Prop :=
  (∀ b, (w.heap b).evolves (w'.heap b)) ∧ ∃ l, w'.log = w.log ++ l

/-! ## Further entities used as concrete inputs -/

/-- A struct with an unexported `db`-tagged field `token` (package path `main`), its
snapshot holding an older token. -/
def accountEntity : Entity :=
  { typeName := "accountEntity"
    SavedValues := some [("token", .str "old"), ("Id", .int .Int64 1)]
    fields :=
      [⟨exportedField "Id" "id" "true", .int .Int64 1⟩,
       ⟨⟨"token", "main", "token", ""⟩, .str "new"⟩] }

/-- A struct whose only persisted field is its `int64` primary key. -/
def tagEntity (Id : Int) : Entity :=
  { typeName := "tagEntity"
    SavedValues := none
    fields := [⟨exportedField "Id" "id" "true", .int .Int64 Id⟩] }

/-- `testEntity` with `TestId` declared `int64`. -/
def test64Entity (TestId : Int) (Name : String) (TimeAdded TimeCurrent : Int) : Entity :=
  { typeName := "testEntity"
    SavedValues := none
    fields :=
      [⟨exportedField "TestId" "test_id" "true", .int .Int64 TestId⟩,
       ⟨exportedField "Name" "name" "", .str Name⟩,
       ⟨exportedField "TimeAdded" "time_added" "", .struct "time.Time" "" TimeAdded⟩,
       ⟨exportedField "TimeCurrent" "time_current" "", .struct "time.Time" "" TimeCurrent⟩] }

/-- A struct with an `int64` primary key and a pointer field of its own type. -/
def nodeEntity (Id : Int) (Parent : Option Nat) : Entity :=
  { typeName := "nodeEntity"
    SavedValues := none
    fields :=
      [⟨exportedField "Id" "id" "true", .int .Int64 Id⟩,
       ⟨exportedField "Parent" "parent_id" "", .ptr "nodeEntity" Parent⟩] }

/-- An executor whose `Exec` always returns an error. -/
def failingDb : Executor := fun _ _ => .err

/-- `extendedEntity` with `Id` declared `int64`. -/
def extended64Entity (Id : Int) (TestPtr : Option Nat) (TimeAdded TimeCurrent : Int) : Entity :=
  { typeName := "extendedEntity"
    SavedValues := none
    fields :=
      [⟨exportedField "Id" "id" "true", .int .Int64 Id⟩,
       ⟨exportedField "TestPtr" "test_ptr_id" "", .ptr "testEntity" TestPtr⟩,
       ⟨exportedField "TimeAdded" "time_added" "", .struct "time.Time" "" TimeAdded⟩,
       ⟨exportedField "TimeCurrent" "time_current" "", .struct "time.Time" "" TimeCurrent⟩] }

/-- A world holding `e0` at address 0 and `e1` at every other address, with an empty
log. -/
def World.pair (e0 e1 : Entity) : World :=
  ⟨fun a => if a = 0 then e0 else e1, []⟩

/-- A `test64Entity` with key 1 as it is after a load or a save of `{Name: "Jake",
TimeAdded: 5, TimeCurrent: 0}`, the snapshot included, with `Name` and `TimeCurrent`
then set to the given values. -/
def savedTest64Entity (Name : String) (TimeCurrent : Int) : Entity :=
  { test64Entity 1 Name 5 TimeCurrent with
    SavedValues := some [("TimeCurrent", .struct "time.Time" "" 0),
      ("TimeAdded", .struct "time.Time" "" 5), ("Name", .str "Jake"),
      ("TestId", .int .Int64 1)] }

/-- A struct with a `uint64` primary key 5 and one more persisted field, as it is after
a save of `{Hits: 1}`, with `Hits` then set to the given value. -/
def counterEntity (Hits : Int) : Entity :=
  { typeName := "counterEntity"
    SavedValues := some [("Hits", .int .Int64 1), ("Id", .uint .Uint64 5)]
    fields :=
      [⟨exportedField "Id" "id" "true", .uint .Uint64 5⟩,
       ⟨exportedField "Hits" "hits" "", .int .Int64 Hits⟩] }

/-- A struct without fields, of the given type name. -/
def emptyStruct (typeName : String) : Entity :=
  { typeName := typeName, SavedValues := none, fields := [] }

/-- A querier whose `Query` always yields the given first row. -/
def rowDb (row : List (String × RowValue)) : Querier := fun _ _ => .rows (some row)

/-- A querier whose `Query` yields rows without a first row: `rows.Next()` is false.
(`mockDb.Query` of `base_test.go` does not get that far: it calls `Close` on a zero
`sql.Rows`.) -/
def noRowQuery : Querier := fun _ _ => .rows none

/-- A querier whose `Query` always returns an error. -/
def failingQuery : Querier := fun _ _ => .err

/-- The zero values of the struct types of the concrete inputs. -/
def zeroOf (typeName : String) : Entity :=
  if typeName = "testEntity" then test64Entity 0 "" 0 0
  else if typeName = "nodeEntity" then nodeEntity 0 none
  else emptyStruct typeName

/-- The message of the panic a call ended in, if it ended in one. -/
def panicMessage {α : Type} : Except Fault α → Option String
  | .error (.panic msg _) => some msg
  | _ => none

/-- A `test64Entity` loaded with key 1, whose `TestId` was then set to the given value. -/
def rekeyedTest64Entity (TestId : Int) : Entity :=
  { test64Entity TestId "Jake" 5 0 with
    SavedValues := some [("TimeCurrent", .struct "time.Time" "" 0),
      ("TimeAdded", .struct "time.Time" "" 5), ("Name", .str "Jake"),
      ("TestId", .int .Int64 1)] }

/-- A struct with an `int64` primary key and a `float64` field `Score`. -/
def scoreEntity (Id : Int) (Score : Content) : Entity :=
  { typeName := "scoreEntity"
    SavedValues := none
    fields :=
      [⟨exportedField "Id" "id" "true", .int .Int64 Id⟩,
       ⟨exportedField "Score" "score" "", .other .float64 "float64" Score⟩] }

/-- A `nodeEntity` with key 5, loaded when it had no parent, whose `Parent` was then set
to the entity itself (address 0). -/
def selfParentEntity : Entity :=
  { nodeEntity 5 (some 0) with
    SavedValues := some [("Parent", .ptr "nodeEntity" none), ("Id", .int .Int64 5)] }

/-- A world holding the same entity at every address and an empty log. -/
def World.single (e : Entity) : World :=
  ⟨fun _ => e, []⟩

end Sorm

/-! # Theorems -/

namespace Sorm

/-! ## The changed-field loop -/

theorem interfaceNe_isSome (x y : Value) (h : y.comparable = true) :
    (interfaceNe x y).isSome = true := by
  unfold interfaceNe
  split
  · rename_i k t c k' t' c'
    split
    · simp only [h, Bool.not_true, Bool.false_eq_true, if_false]
      split <;> rfl
    · rfl
  · rfl

theorem isComparedField_of_comparable (saved : Option (List (String × Value))) (f : Field)
    (h : f.value.Interface.comparable = true) : isComparedField saved f = true := by
  simp [isComparedField, interfaceNe_isSome _ _ h]

theorem getChangedFieldNamesLoop_eq (saved : Option (List (String × Value)))
    (fs : List Field) (acc : List String)
    (h : ∀ f ∈ fs, isComparedField saved f = true) :
    getChangedFieldNamesLoop saved fs acc =
      .ok (acc ++ (fs.filter (isChangedField saved)).map (fun f => f.typ.Name)) := by
  induction fs generalizing acc with
  | nil => simp [getChangedFieldNamesLoop]
  | cons f rest ih =>
    have hrest : ∀ g ∈ rest, isComparedField saved g = true :=
      fun g hg => h g (List.mem_cons_of_mem _ hg)
    have hf := h f (List.mem_cons_self _ _)
    unfold getChangedFieldNamesLoop
    by_cases h1 : f.typ.PkgPath.length = 0
    · by_cases h2 : isDatabaseField f.typ = true
      · simp only [isComparedField, h1, h2, decide_True, Bool.and_self, Bool.not_true,
          Bool.false_or] at hf
        cases h3 : interfaceNe (savedValue saved f.typ.Name) f.value.Interface with
        | none => simp [h3] at hf
        | some b =>
          cases b
          · simp [h1, h2, h3, ih _ hrest, isChangedField]
          · simp [h1, h2, h3, ih _ hrest, isChangedField]
      · simp [h1, h2, ih _ hrest, isChangedField]
    · simp [h1, ih _ hrest, isChangedField]

theorem getChangedFieldNamesLoop_compared (saved : Option (List (String × Value)))
    (fs : List Field) (acc names : List String)
    (h : getChangedFieldNamesLoop saved fs acc = .ok names) :
    ∀ f ∈ fs, isComparedField saved f = true := by
  induction fs generalizing acc with
  | nil => intro f hf; cases hf
  | cons g rest ih =>
    unfold getChangedFieldNamesLoop at h
    intro f hf
    by_cases h1 : g.typ.PkgPath.length = 0
    · by_cases h2 : isDatabaseField g.typ = true
      · simp only [h1, h2, ne_eq, not_true_eq_false, if_false, Bool.not_true,
          Bool.false_eq_true] at h
        cases h3 : interfaceNe (savedValue saved g.typ.Name) g.value.Interface with
        | none => simp [h3] at h
        | some b =>
          rcases List.mem_cons.1 hf with rfl | hf
          · simp [isComparedField, h3]
          · cases b
            · simp only [h3] at h
              exact ih _ h f hf
            · simp only [h3] at h
              exact ih _ h f hf
      · simp only [h1, h2, ne_eq, not_true_eq_false, if_false, Bool.not_false, if_true] at h
        rcases List.mem_cons.1 hf with rfl | hf
        · simp [isComparedField, h2]
        · exact ih _ h f hf
    · simp only [h1, ne_eq, not_false_eq_true, if_true] at h
      rcases List.mem_cons.1 hf with rfl | hf
      · simp [isComparedField, h1]
      · exact ih _ h f hf

theorem getChangedFieldNames_eq (e : Entity)
    (h : ∀ f ∈ e.fields, isComparedField e.SavedValues f = true) :
    getChangedFieldNames e =
      .ok ((e.fields.filter (isChangedField e.SavedValues)).map (fun f => f.typ.Name)) := by
  simp [getChangedFieldNames, getChangedFieldNamesLoop_eq _ _ _ h]

/-- What a run of `getChangedFieldNames` that returned has returned. -/
theorem getChangedFieldNames_ok (e : Entity) (names : List String)
    (h : getChangedFieldNames e = .ok names) :
    (∀ f ∈ e.fields, isComparedField e.SavedValues f = true) ∧
      names = (e.fields.filter (isChangedField e.SavedValues)).map (fun f => f.typ.Name) := by
  have hc := getChangedFieldNamesLoop_compared _ _ _ _ h
  rw [getChangedFieldNames_eq e hc] at h
  exact ⟨hc, (Except.ok.inj h).symm⟩

/-- A comparison that panics makes `getChangedFieldNames` panic. -/
theorem getChangedFieldNames_error (e : Entity)
    (h : ∃ f ∈ e.fields, isComparedField e.SavedValues f = false) :
    ∃ msg, getChangedFieldNames e = .error msg := by
  cases hr : getChangedFieldNames e with
  | error msg => exact ⟨msg, rfl⟩
  | ok names =>
    obtain ⟨f, hf, hcmp⟩ := h
    rw [(getChangedFieldNames_ok e names hr).1 f hf] at hcmp
    cases hcmp

theorem getChangedFieldNames_eq_nil_iff (e : Entity) :
    getChangedFieldNames e = .ok [] ↔
      ∀ f ∈ e.fields, isComparedField e.SavedValues f = true ∧
        isChangedField e.SavedValues f = false := by
  constructor
  · intro h
    obtain ⟨hc, hn⟩ := getChangedFieldNames_ok e [] h
    intro f hf
    refine ⟨hc f hf, ?_⟩
    have := hn.symm
    simp only [List.map_eq_nil_iff, List.filter_eq_nil_iff] at this
    simpa using this f hf
  · intro h
    rw [getChangedFieldNames_eq e (fun f hf => (h f hf).1)]
    congr 1
    simp only [List.map_eq_nil_iff, List.filter_eq_nil_iff]
    intro f hf
    simp [(h f hf).2]

/-! ## The snapshot loop -/

theorem SetSavedValuesLoop_ok (fs : List Field) (m m' : List (String × Value))
    (h : SetSavedValuesLoop fs m = .ok m') :
    (∀ f ∈ fs, isDatabaseField f.typ = true → f.typ.PkgPath.length = 0) ∧
    (∀ k, k ∉ ((fs.map Field.typ).filter isDatabaseField).map StructField.Name →
      m'.lookup k = m.lookup k) ∧
    ((((fs.map Field.typ).filter isDatabaseField).map StructField.Name).Nodup →
      ∀ f ∈ fs, isDatabaseField f.typ = true →
        m'.lookup f.typ.Name = some f.value.Interface) := by
  induction fs generalizing m with
  | nil =>
    simp [SetSavedValuesLoop] at h
    subst h
    simp
  | cons f rest ih =>
    unfold SetSavedValuesLoop at h
    by_cases h1 : isDatabaseField f.typ = true
    · by_cases h2 : f.typ.PkgPath.length = 0
      · simp [h1, h2] at h
        obtain ⟨ih1, ih2, ih3⟩ := ih _ h
        refine ⟨?_, ?_, ?_⟩
        · intro g hg hdb
          rcases List.mem_cons.1 hg with rfl | hg
          · exact h2
          · exact ih1 g hg hdb
        · intro k hk
          simp only [List.map_cons, List.filter_cons, h1, if_true, List.mem_cons, not_or] at hk
          rw [ih2 k hk.2]
          have hb : (k == f.typ.Name) = false := by simpa using hk.1
          simp [List.lookup_cons, hb]
        · intro hnd g hg hdb
          simp only [List.map_cons, List.filter_cons, h1, if_true, List.nodup_cons] at hnd
          rcases List.mem_cons.1 hg with rfl | hg
          · rw [ih2 _ hnd.1]
            simp [List.lookup_cons]
          · exact ih3 hnd.2 g hg hdb
      · simp [h1, h2] at h
    · simp [h1] at h
      obtain ⟨ih1, ih2, ih3⟩ := ih _ h
      refine ⟨?_, ?_, ?_⟩
      · intro g hg hdb
        rcases List.mem_cons.1 hg with rfl | hg
        · exact absurd hdb h1
        · exact ih1 g hg hdb
      · intro k hk
        simp only [List.map_cons, List.filter_cons, h1, Bool.false_eq_true, if_false] at hk
        exact ih2 k hk
      · intro hnd g hg hdb
        simp only [List.map_cons, List.filter_cons, h1, Bool.false_eq_true, if_false] at hnd
        rcases List.mem_cons.1 hg with rfl | hg
        · exact absurd hdb h1
        · exact ih3 hnd g hg hdb

/-- After a snapshot that did not panic, no field counts as changed, when every
persisted field holds a value that equals itself. -/
theorem getChangedFieldNames_after_snapshot (e : Entity) (m : List (String × Value))
    (h : SetSavedValuesLoop e.fields [] = .ok m)
    (hnd : (persistedNames e).Nodup)
    (hself : ∀ f ∈ e.fields, isDatabaseField f.typ = true →
      f.value.Interface.selfEqual = true) :
    getChangedFieldNames { e with SavedValues := some m } = .ok [] := by
  rw [getChangedFieldNames_eq_nil_iff]
  intro f hf
  obtain ⟨_, _, h3⟩ := SetSavedValuesLoop_ok _ _ _ h
  by_cases hdb : isDatabaseField f.typ = true
  · have := h3 hnd f hf hdb
    have hs := hself f hf hdb
    simp only [Value.selfEqual, beq_iff_eq] at hs
    simp [isChangedField, isComparedField, savedValue, this, hs]
  · simp [isChangedField, isComparedField, hdb]

theorem persistedNames_congr (e e' : Entity)
    (h : e'.fields.map Field.typ = e.fields.map Field.typ) :
    persistedNames e' = persistedNames e := by
  simp [persistedNames, h]

/-! ## Field access -/

theorem map_typ_modify (fs : List Field) (i : Nat) (v : Value) :
    (fs.modify (fun f => { f with value := v }) i).map Field.typ = fs.map Field.typ := by
  induction fs generalizing i with
  | nil => simp
  | cons f rest ih =>
    cases i with
    | zero => simp
    | succ n => simp [ih]

theorem SetField_typ (e : Entity) (i : Nat) (v : Value) :
    (e.SetField i v).fields.map Field.typ = e.fields.map Field.typ :=
  map_typ_modify e.fields i v

theorem SetField_fieldValue (e : Entity) (i j : Nat) (v : Value) :
    (e.SetField i v).fieldValue j =
      if i = j ∧ j < e.fields.length then v else e.fieldValue j := by
  unfold Entity.SetField Entity.fieldValue
  simp only [List.getElem?_modify]
  by_cases hj : j < e.fields.length
  · by_cases hij : i = j
    · simp [hj, hij, List.getElem?_eq_getElem]
    · simp [hj, hij, List.getElem?_eq_getElem]
  · have : e.fields[j]? = none := List.getElem?_eq_none (by omega)
    simp [this, hj]

theorem getPrimaryTypeFrom_lt (tfs : List StructField) (i j : Nat) (tf : StructField)
    (h : getPrimaryTypeFrom i tfs = some (j, tf)) :
    i ≤ j ∧ j < i + tfs.length ∧ tfs[j - i]? = some tf ∧ tf.PkgPath.length = 0 := by
  induction tfs generalizing i with
  | nil => simp [getPrimaryTypeFrom] at h
  | cons t rest ih =>
    unfold getPrimaryTypeFrom at h
    have step : getPrimaryTypeFrom (i + 1) rest = some (j, tf) →
        i ≤ j ∧ j < i + (t :: rest).length ∧ (t :: rest)[j - i]? = some tf ∧
          tf.PkgPath.length = 0 := by
      intro h'
      obtain ⟨h1, h2, h3, h4⟩ := ih (i + 1) h'
      refine ⟨by omega, by simp; omega, ?_, h4⟩
      have : j - i = (j - (i + 1)) + 1 := by omega
      rw [this]
      simpa using h3
    split at h
    · exact step h
    · split at h
      · exact step h
      · split at h
        · exact step h
        · exact step h
        · rename_i hp _ _ _
          simp only [Option.some.injEq, Prod.mk.injEq] at h
          obtain ⟨rfl, rfl⟩ := h
          refine ⟨le_refl _, by simp, by simp, ?_⟩
          simpa using hp

theorem getPrimaryType_lt (e : Entity) (j : Nat) (tf : StructField)
    (h : getPrimaryType e = some (j, tf)) :
    j < e.fields.length ∧ (e.fields.map Field.typ)[j]? = some tf := by
  obtain ⟨_, h2, h3, _⟩ := getPrimaryTypeFrom_lt _ _ _ _ h
  simp at h2 h3
  exact ⟨h2, by simpa using h3⟩

theorem getPrimaryType_congr (e e' : Entity)
    (h : e'.fields.map Field.typ = e.fields.map Field.typ) :
    getPrimaryType e' = getPrimaryType e := by
  simp [getPrimaryType, h]

theorem getPrimaryKey_congr (e e' : Entity)
    (h : e'.fields.map Field.typ = e.fields.map Field.typ) :
    getPrimaryKey e' = getPrimaryKey e := by
  simp [getPrimaryKey, getPrimaryType_congr e e' h]

/-! ## Evolution of values, entities and worlds -/

theorem value_evolves_refl (v : Value) : v.evolves v := Or.inl rfl

theorem value_evolves_trans {u v w : Value} (h1 : u.evolves v) (h2 : v.evolves w) :
    u.evolves w := by
  rcases h1 with rfl | ⟨rfl, j, rfl⟩ | ⟨rfl, n, rfl⟩
  · exact h2
  · rcases h2 with rfl | ⟨_, j', rfl⟩ | ⟨h, _⟩
    · exact Or.inr (Or.inl ⟨rfl, j, rfl⟩)
    · exact Or.inr (Or.inl ⟨rfl, j', rfl⟩)
    · cases h
  · rcases h2 with rfl | ⟨h, _⟩ | ⟨_, n', rfl⟩
    · exact Or.inr (Or.inr ⟨rfl, n, rfl⟩)
    · cases h
    · exact Or.inr (Or.inr ⟨rfl, n', rfl⟩)

theorem entity_evolves_refl (e : Entity) : e.evolves e :=
  ⟨rfl, rfl, fun _ => value_evolves_refl _⟩

theorem entity_evolves_trans {e1 e2 e3 : Entity} (h1 : e1.evolves e2) (h2 : e2.evolves e3) :
    e1.evolves e3 :=
  ⟨h2.1.trans h1.1, h2.2.1.trans h1.2.1, fun i => value_evolves_trans (h1.2.2 i) (h2.2.2 i)⟩

theorem world_evolves_refl (w : World) : w.evolves w :=
  ⟨fun _ => entity_evolves_refl _, [], by simp⟩

theorem world_evolves_trans {w1 w2 w3 : World} (h1 : w1.evolves w2) (h2 : w2.evolves w3) :
    w1.evolves w3 := by
  refine ⟨fun b => entity_evolves_trans (h1.1 b) (h2.1 b), ?_⟩
  obtain ⟨l1, hl1⟩ := h1.2
  obtain ⟨l2, hl2⟩ := h2.2
  exact ⟨l1 ++ l2, by rw [hl2, hl1, List.append_assoc]⟩

theorem Entity.evolves_primaryType {e e' : Entity} (h : e.evolves e') :
    getPrimaryType e' = getPrimaryType e :=
  getPrimaryType_congr e e' h.2.1

theorem Entity.evolves_primaryKey {e e' : Entity} (h : e.evolves e') :
    getPrimaryKey e' = getPrimaryKey e :=
  getPrimaryKey_congr e e' h.2.1

theorem Entity.evolves_primaryValue {e e' : Entity} (h : e.evolves e') :
    (getPrimaryValue e).evolves (getPrimaryValue e') := by
  unfold getPrimaryValue
  rw [Entity.evolves_primaryType h]
  cases getPrimaryType e with
  | none => exact value_evolves_refl _
  | some p => exact h.2.2 p.1

theorem Entity.evolves_tableName {e e' : Entity} (h : e.evolves e') :
    getTableName e' = getTableName e := by
  simp [getTableName, h.1]

theorem World.set_heap_same (w : World) (a : Nat) (e : Entity) : (w.set a e).heap a = e := by
  simp [World.set]

theorem World.set_heap_ne (w : World) (a b : Nat) (e : Entity) (h : b ≠ a) :
    (w.set a e).heap b = w.heap b := by
  simp [World.set, Function.update, h]

theorem World.set_log (w : World) (a : Nat) (e : Entity) : (w.set a e).log = w.log := rfl

theorem World.evolves_set (w : World) (a : Nat) (e : Entity) (h : (w.heap a).evolves e) :
    w.evolves (w.set a e) := by
  refine ⟨fun b => ?_, [], by simp [World.set_log]⟩
  by_cases hb : b = a
  · subst hb
    rw [World.set_heap_same]
    exact h
  · rw [World.set_heap_ne _ _ _ _ hb]
    exact entity_evolves_refl _

/-- An invalid entity's primary value, when `setPrimary` accepts it, is a zero. -/
theorem setPrimary_evolves (e : Entity) (n : Int) (hv : IsValid e = false) :
    e.evolves (setPrimary e n).1 := by
  unfold setPrimary
  split
  · rename_i i _ _ hpt hpv
    refine ⟨rfl, SetField_typ _ _ _, fun j => ?_⟩
    rw [SetField_fieldValue]
    split
    · rename_i hij
      obtain ⟨rfl, _⟩ := hij
      have hval : e.fieldValue i = getPrimaryValue e := by simp [getPrimaryValue, hpt]
      rw [hval, hpv]
      simp [IsValid, hpv] at hv
      subst hv
      exact Or.inr (Or.inl ⟨rfl, _, rfl⟩)
    · exact value_evolves_refl _
  · rename_i i _ _ hpt hpv
    refine ⟨rfl, SetField_typ _ _ _, fun j => ?_⟩
    rw [SetField_fieldValue]
    split
    · rename_i hij
      obtain ⟨rfl, _⟩ := hij
      have hval : e.fieldValue i = getPrimaryValue e := by simp [getPrimaryValue, hpt]
      rw [hval, hpv]
      simp [IsValid, hpv] at hv
      subst hv
      exact Or.inr (Or.inr ⟨rfl, _, rfl⟩)
    · exact value_evolves_refl _
  · exact entity_evolves_refl _

/-! ## Save only evolves the world -/

theorem saveRelated_evolves {save : World → Nat → Except Fault World}
    (hs : ∀ w b w', save w b = .ok w' → w.evolves w')
    {w w1 : World} {v v1 : Value} (h : saveRelated save w v = .ok (w1, v1)) :
    w.evolves w1 := by
  unfold saveRelated at h
  split at h
  · split at h
    · split at h
      · rename_i w2 hsave
        simp only [Except.ok.injEq, Prod.mk.injEq] at h
        rw [← h.1]
        exact hs _ _ _ hsave
      · cases h
    · simp only [Except.ok.injEq, Prod.mk.injEq] at h
      rw [← h.1]
      exact world_evolves_refl _
  · split at h
    · cases h
    · simp only [Except.ok.injEq, Prod.mk.injEq] at h
      rw [← h.1]
      exact world_evolves_refl _
  · simp only [Except.ok.injEq, Prod.mk.injEq] at h
    rw [← h.1]
    exact world_evolves_refl _

theorem getInsertQueryLoop_evolves {save : World → Nat → Except Fault World}
    (hs : ∀ w b w', save w b = .ok w' → w.evolves w') (a : Nat) (pk : String)
    (tfs : List StructField) :
    ∀ (i : Nat) (w : World) (cols qvs : List String) (vals : List Value)
      (r : World × List String × List String × List Value),
      getInsertQueryLoop save a pk i tfs w cols qvs vals = .ok r → w.evolves r.1 := by
  induction tfs with
  | nil =>
    intro i w cols qvs vals r h
    simp only [getInsertQueryLoop, Except.ok.injEq] at h
    subst h
    exact world_evolves_refl _
  | cons tf rest ih =>
    intro i w cols qvs vals r h
    unfold getInsertQueryLoop at h
    split at h
    · exact ih _ _ _ _ _ _ h
    · split at h
      · exact ih _ _ _ _ _ _ h
      · split at h
        · exact ih _ _ _ _ _ _ h
        · split at h
          · cases h
          · rename_i w1 value hrel
            exact world_evolves_trans (saveRelated_evolves hs hrel) (ih _ _ _ _ _ _ h)

theorem getUpdateQueryLoop_evolves {save : World → Nat → Except Fault World}
    (hs : ∀ w b w', save w b = .ok w' → w.evolves w') (a : Nat)
    (names : List String) :
    ∀ (w : World) (qvs : List String) (vals : List Value)
      (r : World × List String × List Value),
      getUpdateQueryLoop save a names w qvs vals = .ok r → w.evolves r.1 := by
  induction names with
  | nil =>
    intro w qvs vals r h
    simp only [getUpdateQueryLoop, Except.ok.injEq] at h
    subst h
    exact world_evolves_refl _
  | cons name rest ih =>
    intro w qvs vals r h
    unfold getUpdateQueryLoop at h
    split at h
    · cases h
    · split at h
      · cases h
      · rename_i w1 value hrel
        exact world_evolves_trans (saveRelated_evolves hs hrel) (ih _ _ _ _ h)

theorem buildQuery_evolves {save : World → Nat → Except Fault World}
    (hs : ∀ w b w', save w b = .ok w' → w.evolves w') {w : World} {a : Nat}
    {r : World × String × List Value} (h : buildQuery save w a = .ok r) :
    w.evolves r.1 := by
  unfold buildQuery at h
  split at h
  · unfold getInsertQuery at h
    simp only at h
    split at h
    · cases h
    · rename_i w1 cols qvs vals hloop
      simp only [Except.ok.injEq] at h
      subst h
      exact getInsertQueryLoop_evolves hs _ _ _ _ _ _ _ _ _ hloop
  · unfold getUpdateQuery at h
    split at h
    · cases h
    · split at h
      · cases h
      · rename_i w1 qvs vals hloop
        split at h
        · cases h
        · simp only [Except.ok.injEq] at h
          subst h
          exact getUpdateQueryLoop_evolves hs _ _ _ _ _ _ hloop

theorem SetSavedValues_evolves {w w' : World} {a : Nat} (h : SetSavedValues w a = .ok w') :
    w.evolves w' := by
  unfold SetSavedValues at h
  simp only at h
  split at h
  · simp only [Except.ok.injEq] at h
    subst h
    exact World.evolves_set _ _ _ ⟨rfl, rfl, fun _ => value_evolves_refl _⟩
  · cases h

theorem World.evolves_log (w : World) (c : Call) :
    w.evolves { w with log := w.log ++ [c] } :=
  ⟨fun _ => entity_evolves_refl _, [c], rfl⟩

theorem execQuery_evolves (ex : Executor) (a : Nat) (w1 w' : World) (q : String)
    (data : List Value) (h : execQuery ex a w1 q data = .ok w') : w1.evolves w' := by
  unfold execQuery at h
  split at h
  · simp only [Except.ok.injEq] at h
    subst h
    exact world_evolves_refl _
  · simp only at h
    split at h
    · simp only [Except.ok.injEq] at h
      subst h
      exact World.evolves_log _ _
    · rename_i res _
      refine world_evolves_trans (World.evolves_log w1 ⟨q, data⟩) ?_
      refine world_evolves_trans ?_ (SetSavedValues_evolves h)
      split
      · rename_i hv
        split
        · split
          · refine World.evolves_set _ _ _ (setPrimary_evolves _ _ ?_)
            simpa using hv
          · exact world_evolves_refl _
        · exact world_evolves_refl _
      · exact world_evolves_refl _

theorem Save_evolves (ex : Executor) (fuel : Nat) :
    ∀ w a w', Save ex fuel w a = .ok w' → w.evolves w' := by
  induction fuel with
  | zero => intro w a w' h; simp [Save] at h
  | succ n ih =>
    intro w a w' h
    unfold Save at h
    split at h
    · cases h
    · rename_i w1 q data hb
      exact world_evolves_trans (buildQuery_evolves ih hb) (execQuery_evolves _ _ _ _ _ _ h)

/-! ## What the builder loops return -/

/-- The columns and placeholders of an INSERT depend on the struct type alone. -/
theorem getInsertQueryLoop_columns (save : World → Nat → Except Fault World) (a : Nat)
    (pk : String) (tfs : List StructField) :
    ∀ (i : Nat) (w : World) (cols qvs : List String) (vals : List Value)
      (r : World × List String × List String × List Value),
      getInsertQueryLoop save a pk i tfs w cols qvs vals = .ok r →
        r.2.1 = cols ++ (tfs.filter (isInsertedField pk)).map StructField.db ∧
        r.2.2.1 = qvs ++ (tfs.filter (isInsertedField pk)).map (fun _ => "?") ∧
        r.2.2.2.length = vals.length + (tfs.filter (isInsertedField pk)).length := by
  induction tfs with
  | nil =>
    intro i w cols qvs vals r h
    simp only [getInsertQueryLoop, Except.ok.injEq] at h
    subst h
    simp
  | cons tf rest ih =>
    intro i w cols qvs vals r h
    unfold getInsertQueryLoop at h
    split at h
    · rename_i h1
      have hf : isInsertedField pk tf = false := by simp [isInsertedField, h1]
      simpa [hf] using ih _ _ _ _ _ _ h
    · split at h
      · rename_i h1 h2
        have hf : isInsertedField pk tf = false := by simp [isInsertedField, h2]
        simpa [hf] using ih _ _ _ _ _ _ h
      · split at h
        · rename_i h1 h2 h3
          have hf : isInsertedField pk tf = false := by simp [isInsertedField, h3]
          simpa [hf] using ih _ _ _ _ _ _ h
        · rename_i h1 h2 h3
          have hf : isInsertedField pk tf = true := by
            simp only [isInsertedField, Bool.and_eq_true, decide_eq_true_eq]
            exact ⟨⟨by simpa using h1, h2⟩, h3⟩
          split at h
          · cases h
          · obtain ⟨c1, c2, c3⟩ := ih _ _ _ _ _ _ h
            refine ⟨?_, ?_, ?_⟩
            · simp [c1, hf]
            · simp [c2, hf]
            · simp [c3, hf]; omega

/-- A value that is no related entity is bound as `Interface()` gives it, and no `Save`
is called. -/
theorem saveRelated_plain (save : World → Nat → Except Fault World) (w : World) (v : Value)
    (h : isRelated w v = false) : saveRelated save w v = .ok (w, v.Interface) := by
  unfold saveRelated
  cases v with
  | ptr t ad =>
    cases ad with
    | none => rfl
    | some b =>
      simp only [isRelated, decide_eq_false_iff_not, ne_eq, not_not] at h
      simp [h, Value.Interface]
  | struct t k c =>
    simp only [isRelated, decide_eq_false_iff_not, ne_eq, not_not] at h
    simp [h, Value.Interface]
  | _ => rfl

/-- Without a related entity among the inserted fields the loop calls no `Save`: it
returns the world as it was and binds the fields' own values. -/
theorem getInsertQueryLoop_plain (save : World → Nat → Except Fault World) (a : Nat)
    (pk : String) (w : World) (fs : List Field) :
    ∀ (pre : List Field) (cols qvs : List String) (vals : List Value),
      (w.heap a).fields = pre ++ fs →
      (∀ f ∈ fs, isInsertedField pk f.typ = true → isRelated w f.value = false) →
      getInsertQueryLoop save a pk pre.length (fs.map Field.typ) w cols qvs vals =
        .ok (w, cols ++ ((fs.filter (fun f => isInsertedField pk f.typ)).map (fun f => f.typ.db)),
          qvs ++ ((fs.filter (fun f => isInsertedField pk f.typ)).map (fun _ => "?")),
          vals ++ ((fs.filter (fun f => isInsertedField pk f.typ)).map
            (fun f => f.value.Interface))) := by
  induction fs with
  | nil =>
    intro pre cols qvs vals _ _
    simp [getInsertQueryLoop]
  | cons f rest ih =>
    intro pre cols qvs vals hfields hplain
    have hfields' : (w.heap a).fields = (pre ++ [f]) ++ rest := by simp [hfields]
    have hplain' : ∀ g ∈ rest, isInsertedField pk g.typ = true → isRelated w g.value = false :=
      fun g hg => hplain g (List.mem_cons_of_mem _ hg)
    have hlen : (pre ++ [f]).length = pre.length + 1 := by simp
    simp only [List.map_cons]
    unfold getInsertQueryLoop
    by_cases hins : isInsertedField pk f.typ = true
    · have hins' := hins
      simp only [isInsertedField, Bool.and_eq_true, decide_eq_true_eq] at hins'
      obtain ⟨⟨h1, h2⟩, h3⟩ := hins'
      have hval : (w.heap a).fieldValue pre.length = f.value := by
        have : (pre ++ f :: rest)[pre.length]? = some f := by
          rw [List.getElem?_append_right (le_refl _)]
          simp
        simp [Entity.fieldValue, hfields, this]
      have hrel := hplain f (List.mem_cons_self _ _) hins
      have hsr := saveRelated_plain save w f.value hrel
      simp only [h1, h2, h3, hval, hsr, ne_eq, not_true_eq_false, if_false, not_false_eq_true]
      rw [← hlen, ih (pre ++ [f]) _ _ _ hfields' hplain']
      simp [hins]
    · have hskip : getInsertQueryLoop save a pk (pre.length + 1) (rest.map Field.typ) w cols
          qvs vals = .ok (w,
            cols ++ ((rest.filter (fun f => isInsertedField pk f.typ)).map (fun f => f.typ.db)),
            qvs ++ ((rest.filter (fun f => isInsertedField pk f.typ)).map (fun _ => "?")),
            vals ++ ((rest.filter (fun f => isInsertedField pk f.typ)).map
              (fun f => f.value.Interface))) := by
        rw [← hlen]
        exact ih (pre ++ [f]) _ _ _ hfields' hplain'
      simp only [List.filter_cons, hins, Bool.false_eq_true, if_false]
      simp only [isInsertedField, Bool.and_eq_true, decide_eq_true_eq, not_and, not_not] at hins
      by_cases h1 : f.typ.PkgPath.length = 0
      · by_cases h2 : f.typ.db.length = 0
        · simp only [h1, h2, ne_eq, not_true_eq_false, if_false, if_true]
          exact hskip
        · have h3 := hins ⟨h1, h2⟩
          simp only [h1, h2, ne_eq, not_true_eq_false, not_false_eq_true, if_false, if_true]
          rw [if_pos h3]
          exact hskip
      · simp only [h1, ne_eq, not_false_eq_true, if_true]
        exact hskip

theorem getUpdateQueryLoop_length (save : World → Nat → Except Fault World) (a : Nat)
    (names : List String) :
    ∀ (w : World) (qvs : List String) (vals : List Value)
      (r : World × List String × List Value),
      getUpdateQueryLoop save a names w qvs vals = .ok r →
        r.2.2.length = vals.length + names.length := by
  induction names with
  | nil =>
    intro w qvs vals r h
    simp only [getUpdateQueryLoop, Except.ok.injEq] at h
    subst h
    simp
  | cons name rest ih =>
    intro w qvs vals r h
    unfold getUpdateQueryLoop at h
    split at h
    · cases h
    · split at h
      · cases h
      · have := ih _ _ _ _ h
        simp at this ⊢
        omega

/-- Without a related entity among the changed fields the UPDATE loop calls no `Save`. -/
theorem getUpdateQueryLoop_plain (save : World → Nat → Except Fault World) (a : Nat)
    (w : World) (fs : List Field) :
    ∀ (qvs : List String) (vals : List Value),
      (∀ f ∈ fs, (w.heap a).FieldByName f.typ.Name = some f) →
      (∀ f ∈ fs, isRelated w f.value = false) →
      getUpdateQueryLoop save a (fs.map (fun f => f.typ.Name)) w qvs vals =
        .ok (w, qvs ++ fs.map (fun f => "`" ++ f.typ.db ++ "` = ?"),
          vals ++ fs.map (fun f => f.value.Interface)) := by
  induction fs with
  | nil =>
    intro qvs vals _ _
    simp [getUpdateQueryLoop]
  | cons f rest ih =>
    intro qvs vals hfind hplain
    have hrel := hplain f (List.mem_cons_self _ _)
    have hsr := saveRelated_plain save w f.value hrel
    simp only [List.map_cons]
    unfold getUpdateQueryLoop
    simp only [hfind f (List.mem_cons_self _ _), hsr]
    rw [ih _ _ (fun g hg => hfind g (List.mem_cons_of_mem _ hg))
      (fun g hg => hplain g (List.mem_cons_of_mem _ hg))]
    simp

theorem FieldByName_of_mem (e : Entity) (f : Field) (hf : f ∈ e.fields)
    (hnd : (e.fields.map (fun f => f.typ.Name)).Nodup) :
    e.FieldByName f.typ.Name = some f := by
  unfold Entity.FieldByName
  generalize e.fields = fs at hf hnd
  induction fs with
  | nil => cases hf
  | cons g rest ih =>
    simp only [List.map_cons, List.nodup_cons] at hnd
    rcases List.mem_cons.1 hf with rfl | hf'
    · simp
    · have hne : g.typ.Name ≠ f.typ.Name := by
        intro heq
        exact hnd.1 (heq ▸ List.mem_map_of_mem (fun f => f.typ.Name) hf')
      simp [List.find?_cons, hne, ih hf' hnd.2]

/-! ## The tail of Save -/

/-- The INSERT loop that binds nothing called no `Save`. -/
theorem getInsertQueryLoop_nil (save : World → Nat → Except Fault World) (a : Nat)
    (pk : String) (w : World)
    (r : World × List String × List String × List Value)
    (h : getInsertQueryLoop save a pk 0 ((w.heap a).fields.map Field.typ) w [] [] [] = .ok r)
    (hnil : r.2.2.2 = []) : r = (w, [], [], []) := by
  obtain ⟨_, _, h3⟩ := getInsertQueryLoop_columns save a pk _ _ _ _ _ _ _ h
  rw [hnil] at h3
  simp only [List.length_nil, zero_add] at h3
  have hnone : (w.heap a).fields.filter (fun f => isInsertedField pk f.typ) = [] := by
    have : ((w.heap a).fields.map Field.typ).filter (isInsertedField pk) = [] :=
      List.length_eq_zero.1 h3.symm
    rw [List.filter_map] at this
    simpa [Function.comp] using this
  have hplain := getInsertQueryLoop_plain save a pk w (w.heap a).fields [] [] [] [] rfl
    (by
      intro f hf hins
      have : f ∈ (w.heap a).fields.filter (fun f => isInsertedField pk f.typ) :=
        List.mem_filter.2 ⟨hf, hins⟩
      rw [hnone] at this
      cases this)
  simp only [List.length_nil, hnone, List.map_nil, List.append_nil] at hplain
  rw [hplain] at h
  simp only [Except.ok.injEq] at h
  exact h.symm

/-- A builder that binds nothing left the world as it was. -/
theorem buildQuery_nil (save : World → Nat → Except Fault World) (w : World) (a : Nat)
    (r : World × String × List Value) (h : buildQuery save w a = .ok r) (hnil : r.2.2 = []) :
    r.1 = w := by
  unfold buildQuery at h
  split at h
  · unfold getInsertQuery at h
    simp only at h
    split at h
    · cases h
    · rename_i w1 cols qvs vals hloop
      simp only [Except.ok.injEq] at h
      subst h
      simp only at hnil
      have := getInsertQueryLoop_nil save a _ w _ hloop hnil
      simp only [Prod.mk.injEq] at this
      exact this.1
  · unfold getUpdateQuery at h
    split at h
    · cases h
    · rename_i names hnames
      split at h
      · cases h
      · rename_i w1 qvs vals hloop
        split at h
        · cases h
        · simp only [Except.ok.injEq] at h
          subst h
          simp only at hnil
          have hlen := getUpdateQueryLoop_length save a _ _ _ _ _ hloop
          simp only [hnil, List.length_nil, zero_add] at hlen
          have hn : names = [] := List.length_eq_zero.1 hlen.symm
          rw [hn] at hloop
          simp only [getUpdateQueryLoop, Except.ok.injEq, Prod.mk.injEq] at hloop
          exact hloop.1.symm

/-- What a successful `Exec` is followed by: the primary key is set when the entity was
not valid, and the snapshot is taken anew. -/
theorem execQuery_ok (ex : Executor) (a : Nat) (w1 w' : World) (q : String)
    (data : List Value) (res : Option Int) (hd : data ≠ [])
    (hex : ex w1.log ⟨q, data⟩ = .ok res)
    (h : execQuery ex a w1 q data = .ok w') :
    ∃ e3 m, (w1.heap a).evolves e3 ∧
      (IsValid (w1.heap a) = true → e3 = w1.heap a) ∧
      (IsValid (w1.heap a) = false → ∀ n, res = some n → n ≠ 0 →
        e3 = (setPrimary (w1.heap a) n).1) ∧
      SetSavedValuesLoop e3.fields [] = .ok m ∧
      w'.heap a = { e3 with SavedValues := some m } ∧
      w'.log = w1.log ++ [⟨q, data⟩] ∧ ∀ c, c ≠ a → w'.heap c = w1.heap c := by
  unfold execQuery at h
  have hd' : ¬ data.length = 0 := by
    intro h0
    exact hd (List.length_eq_zero.1 h0)
  simp only [hd', if_false, hex] at h
  unfold SetSavedValues at h
  simp only at h
  split at h
  · rename_i m hm
    simp only [Except.ok.injEq] at h
    subst h
    by_cases hv : IsValid (w1.heap a) = true
    · simp only [hv, Bool.not_true, Bool.false_eq_true, if_false] at hm ⊢
      refine ⟨w1.heap a, m, entity_evolves_refl _, fun _ => rfl, ?_, hm, ?_, rfl, ?_⟩
      · intro hf; cases hf
      · rw [World.set_heap_same]
      · intro c hc
        rw [World.set_heap_ne _ _ _ _ hc]
    · have hv' : IsValid (w1.heap a) = false := by simpa using hv
      simp only [hv', Bool.not_false, if_true] at hm ⊢
      cases res with
      | none =>
        simp only at hm ⊢
        refine ⟨w1.heap a, m, entity_evolves_refl _, fun _ => rfl, ?_, hm, ?_, rfl, ?_⟩
        · intro _ n hn; cases hn
        · rw [World.set_heap_same]
        · intro c hc
          rw [World.set_heap_ne _ _ _ _ hc]
      | some n =>
        simp only at hm ⊢
        by_cases hn : n = 0
        · simp only [hn, ne_eq, not_true_eq_false, if_false] at hm ⊢
          refine ⟨w1.heap a, m, entity_evolves_refl _, fun _ => rfl, ?_, hm, ?_, rfl, ?_⟩
          · intro _ n' hn' hn0
            simp only [Option.some.injEq] at hn'
            exact absurd hn'.symm hn0
          · rw [World.set_heap_same]
          · intro c hc
            rw [World.set_heap_ne _ _ _ _ hc]
        · simp only [ne_eq, hn, not_false_eq_true, if_true] at hm ⊢
          rw [World.set_heap_same] at hm
          refine ⟨(setPrimary (w1.heap a) n).1, m, setPrimary_evolves _ _ hv', ?_, ?_, hm, ?_,
            rfl, ?_⟩
          · intro ht; cases ht
          · intro _ n' hn' _
            simp only [Option.some.injEq] at hn'
            rw [hn']
          · rw [World.set_heap_same, World.set_heap_same]
          · intro c hc
            rw [World.set_heap_ne _ _ _ _ hc, World.set_heap_ne _ _ _ _ hc]
  · cases h

/-! ## Changes against a matching snapshot -/

theorem interfaceNe_false {x y : Value} (h : interfaceNe x y = some false) : x = y := by
  unfold interfaceNe at h
  split at h
  · rename_i k t c k' t' c'
    split at h
    · rename_i hkt
      split at h
      · cases h
      · split at h
        · rename_i a b
          simp only [Option.some.injEq, bne_eq_false_iff_eq] at h
          rw [hkt.1, hkt.2, h]
        · cases h
    · cases h
  · simpa using h

theorem filter_changed_of_matching (saved : Option (List (String × Value))) :
    ∀ (fs fs' : List Field), fs'.map Field.typ = fs.map Field.typ →
      (∀ f ∈ fs, isComparedField saved f = true ∧ isChangedField saved f = false) →
      (fs'.filter (isChangedField saved)).map (fun f => f.typ.Name) =
        ((fs.zip fs').filter (fun p => decide (p.2.typ.PkgPath.length = 0) &&
          isDatabaseField p.2.typ &&
            (interfaceNe p.1.value.Interface p.2.value.Interface == some true))).map
          (fun p => p.2.typ.Name) := by
  intro fs
  induction fs with
  | nil =>
    intro fs' h _
    cases fs' with
    | nil => simp
    | cons _ _ => simp at h
  | cons f rest ih =>
    intro fs' h hm
    cases fs' with
    | nil => simp at h
    | cons f' rest' =>
      simp only [List.map_cons, List.cons.injEq] at h
      have ihr := ih rest' h.2 (fun g hg => hm g (List.mem_cons_of_mem _ hg))
      obtain ⟨hc, hf⟩ := hm f (List.mem_cons_self _ _)
      simp only [List.zip_cons_cons, List.filter_cons]
      have hkey : isChangedField saved f' =
          (decide (f'.typ.PkgPath.length = 0) && isDatabaseField f'.typ &&
            (interfaceNe f.value.Interface f'.value.Interface == some true)) := by
        unfold isChangedField at hf ⊢
        unfold isComparedField at hc
        rw [← h.1] at hf hc
        by_cases h1 : f'.typ.PkgPath.length = 0
        · by_cases h2 : isDatabaseField f'.typ = true
          · simp only [h1, h2, decide_True, Bool.true_and, Bool.and_self, Bool.not_true,
              Bool.false_or] at hf hc ⊢
            have hfalse : interfaceNe (savedValue saved f'.typ.Name) f.value.Interface =
                some false := by
              cases hr : interfaceNe (savedValue saved f'.typ.Name) f.value.Interface with
              | none => simp [hr] at hc
              | some b =>
                cases b
                · rfl
                · simp [hr] at hf
            rw [interfaceNe_false hfalse]
          · simp [h2]
        · simp [h1]
      rw [hkey]
      split
      · simp [ihr]
      · exact ihr

/-! ## Save returns on an acyclic heap of safe entities -/

theorem ranked_of_evolves {rank : Nat → Nat} {w w' : World} (h : w.ranked rank)
    (hev : w.evolves w') : w'.ranked rank := by
  intro a i t b hv
  rcases (hev.1 a).2.2 i with h1 | ⟨_, j, h2⟩ | ⟨_, n, h2⟩
  · exact h a i t b (h1 ▸ hv)
  · rw [h2] at hv; cases hv
  · rw [h2] at hv; cases hv

theorem safe_of_evolves {e e' : Entity} (h : e.safe) (hev : e.evolves e') : e'.safe := by
  refine ⟨?_, ?_, ?_, ?_⟩
  · rw [hev.2.1]
    exact h.1
  · intro i t pk c hv
    rcases hev.2.2 i with h1 | ⟨_, j, h2⟩ | ⟨_, n, h2⟩
    · exact h.2.1 i t pk c (h1 ▸ hv)
    · rw [h2] at hv; cases hv
    · rw [h2] at hv; cases hv
  · intro n hv
    rcases Entity.evolves_primaryValue hev with h1 | ⟨_, j, h2⟩ | ⟨h1, _⟩
    · exact h.2.2.1 n (h1 ▸ hv)
    · rw [h2] at hv; cases hv
    · exact h.2.2.1 0 h1
  · intro i
    rcases hev.2.2 i with h1 | ⟨_, j, h2⟩ | ⟨_, n, h2⟩
    · rw [h1]
      exact h.2.2.2 i
    · rw [h2]; rfl
    · rw [h2]; rfl

theorem allSafe_of_evolves {w w' : World} (h : ∀ c, (w.heap c).safe) (hev : w.evolves w') :
    ∀ c, (w'.heap c).safe :=
  fun c => safe_of_evolves (h c) (hev.1 c)

theorem fieldValue_of_mem (e : Entity) (f : Field) (hf : f ∈ e.fields) :
    ∃ i, e.fieldValue i = f.value := by
  obtain ⟨i, hi, hget⟩ := List.getElem_of_mem hf
  refine ⟨i, ?_⟩
  simp [Entity.fieldValue, List.getElem?_eq_getElem hi, hget]

theorem FieldByName_of_name_mem (e : Entity) (name : String)
    (h : name ∈ e.fields.map (fun f => f.typ.Name)) :
    ∃ f, e.FieldByName name = some f ∧ f ∈ e.fields := by
  unfold Entity.FieldByName
  cases hfind : e.fields.find? (fun f => decide (f.typ.Name = name)) with
  | some f => exact ⟨f, rfl, List.mem_of_find?_eq_some hfind⟩
  | none =>
    exfalso
    rw [List.find?_eq_none] at hfind
    obtain ⟨f, hf, hname⟩ := List.mem_map.1 h
    exact hfind f hf (by simpa using hname)

theorem saveRelated_returns {rank : Nat → Nat} {save : World → Nat → Except Fault World}
    (bound : Nat)
    (hs : ∀ w b, w.ranked rank → (∀ c, (w.heap c).safe) → rank b < bound →
      ∃ w', save w b = .ok w' ∧ ∀ c, c ≠ b → ¬ rank c < rank b → w'.heap c = w.heap c)
    (w : World) (v : Value) (hr : w.ranked rank) (hsafe : ∀ c, (w.heap c).safe)
    (hptr : ∀ t b, v = Value.ptr t (some b) → rank b < bound)
    (hstruct : ∀ t pk c, v = Value.struct t pk c → pk = "") :
    ∃ r, saveRelated save w v = .ok r ∧
      ∀ c, ¬ rank c < bound → r.1.heap c = w.heap c := by
  unfold saveRelated
  split
  · rename_i t b
    have hb := hptr t b rfl
    split
    · obtain ⟨w', hw', hframe⟩ := hs w b hr hsafe hb
      rw [hw']
      refine ⟨_, rfl, fun c hc => ?_⟩
      apply hframe c
      · intro hcb
        exact hc (hcb ▸ hb)
      · intro hcb
        exact hc (lt_trans hcb hb)
    · exact ⟨_, rfl, fun _ _ => rfl⟩
  · rename_i t pk c
    have := hstruct t pk c rfl
    simp only [this, ne_eq, not_true_eq_false, if_false]
    exact ⟨_, rfl, fun _ _ => rfl⟩
  · exact ⟨_, rfl, fun _ _ => rfl⟩

theorem getInsertQueryLoop_returns {rank : Nat → Nat}
    {save : World → Nat → Except Fault World} (a : Nat)
    (hev : ∀ w b w', save w b = .ok w' → w.evolves w')
    (hs : ∀ w b, w.ranked rank → (∀ c, (w.heap c).safe) → rank b < rank a →
      ∃ w', save w b = .ok w' ∧ ∀ c, c ≠ b → ¬ rank c < rank b → w'.heap c = w.heap c)
    (pk : String) (tfs : List StructField) :
    ∀ (i : Nat) (w : World) (cols qvs : List String) (vals : List Value),
      w.ranked rank → (∀ c, (w.heap c).safe) →
      ∃ r, getInsertQueryLoop save a pk i tfs w cols qvs vals = .ok r ∧
        ∀ c, ¬ rank c < rank a → r.1.heap c = w.heap c := by
  induction tfs with
  | nil =>
    intro i w cols qvs vals _ _
    exact ⟨_, rfl, fun _ _ => rfl⟩
  | cons tf rest ih =>
    intro i w cols qvs vals hr hsafe
    unfold getInsertQueryLoop
    split
    · exact ih _ _ _ _ _ hr hsafe
    · split
      · exact ih _ _ _ _ _ hr hsafe
      · split
        · exact ih _ _ _ _ _ hr hsafe
        · obtain ⟨r1, hr1, hf1⟩ := saveRelated_returns (rank a) hs w
            ((w.heap a).fieldValue i) hr hsafe
            (fun t b hv => hr a i t b hv) (fun t k c hv => (hsafe a).2.1 i t k c hv)
          obtain ⟨w1, v1⟩ := r1
          have hev1 := saveRelated_evolves hev hr1
          rw [hr1]
          simp only
          obtain ⟨r2, hr2, hf2⟩ := ih (i + 1) w1 (cols ++ [tf.db]) (qvs ++ ["?"])
            (vals ++ [v1]) (ranked_of_evolves hr hev1) (allSafe_of_evolves hsafe hev1)
          exact ⟨r2, hr2, fun c hc => (hf2 c hc).trans (hf1 c hc)⟩

theorem getUpdateQueryLoop_returns {rank : Nat → Nat}
    {save : World → Nat → Except Fault World} (a : Nat)
    (hev : ∀ w b w', save w b = .ok w' → w.evolves w')
    (hs : ∀ w b, w.ranked rank → (∀ c, (w.heap c).safe) → rank b < rank a →
      ∃ w', save w b = .ok w' ∧ ∀ c, c ≠ b → ¬ rank c < rank b → w'.heap c = w.heap c)
    (names : List String) :
    ∀ (w : World) (qvs : List String) (vals : List Value),
      w.ranked rank → (∀ c, (w.heap c).safe) →
      (∀ name ∈ names, name ∈ (w.heap a).fields.map (fun f => f.typ.Name)) →
      ∃ r, getUpdateQueryLoop save a names w qvs vals = .ok r ∧
        ∀ c, ¬ rank c < rank a → r.1.heap c = w.heap c := by
  induction names with
  | nil =>
    intro w qvs vals _ _ _
    exact ⟨_, rfl, fun _ _ => rfl⟩
  | cons name rest ih =>
    intro w qvs vals hr hsafe hnames
    obtain ⟨f, hfind, hmem⟩ := FieldByName_of_name_mem (w.heap a) name
      (hnames name (List.mem_cons_self _ _))
    obtain ⟨j, hj⟩ := fieldValue_of_mem _ _ hmem
    unfold getUpdateQueryLoop
    rw [hfind]
    simp only
    obtain ⟨r1, hr1, hf1⟩ := saveRelated_returns (rank a) hs w f.value hr hsafe
      (fun t b hv => hr a j t b (hj.trans hv)) (fun t k c hv => (hsafe a).2.1 j t k c (hj.trans hv))
    obtain ⟨w1, v1⟩ := r1
    have hev1 := saveRelated_evolves hev hr1
    rw [hr1]
    simp only
    have ha : w1.heap a = w.heap a := hf1 a (lt_irrefl _)
    obtain ⟨r2, hr2, hf2⟩ := ih w1 (qvs ++ ["`" ++ f.typ.db ++ "` = ?"]) (vals ++ [v1])
      (ranked_of_evolves hr hev1) (allSafe_of_evolves hsafe hev1)
      (fun n hn => by
        rw [ha]
        exact hnames n (List.mem_cons_of_mem _ hn))
    exact ⟨r2, hr2, fun c hc => (hf2 c hc).trans (hf1 c hc)⟩

theorem getChangedFieldNames_subset (e : Entity) (names : List String)
    (hn : getChangedFieldNames e = .ok names) :
    ∀ name ∈ names, name ∈ e.fields.map (fun f => f.typ.Name) := by
  intro name h
  rw [(getChangedFieldNames_ok e names hn).2] at h
  obtain ⟨f, hf, rfl⟩ := List.mem_map.1 h
  exact List.mem_map_of_mem _ (List.mem_of_mem_filter hf)

/-- On a safe entity no comparison of `getChangedFieldNames` panics, whatever the
snapshot. -/
theorem safe_compared {e : Entity} (h : e.safe) (saved : Option (List (String × Value))) :
    ∀ f ∈ e.fields, isComparedField saved f = true := by
  intro f hf
  obtain ⟨i, hi⟩ := fieldValue_of_mem e f hf
  exact isComparedField_of_comparable saved f (hi ▸ h.2.2.2 i)

theorem getChangedFieldNames_safe {e : Entity} (h : e.safe) :
    getChangedFieldNames e =
      .ok ((e.fields.filter (isChangedField e.SavedValues)).map (fun f => f.typ.Name)) :=
  getChangedFieldNames_eq e (safe_compared h _)

/-- What a run of `getUpdateQuery` that returned went through. -/
theorem getUpdateQuery_ok {save : World → Nat → Except Fault World} {w : World} {a : Nat}
    {r : World × String × List Value} (h : getUpdateQuery save w a = .ok r) :
    ∃ names qvs p, getChangedFieldNames (w.heap a) = .ok names ∧
      getUpdateQueryLoop save a names w [] [] = .ok (r.1, qvs, r.2.2) ∧
      (getPrimaryValue (r.1.heap a)).Int = some p ∧
      r.2.1 = "UPDATE `" ++ getTableName (r.1.heap a) ++ "` SET " ++
        ",".intercalate qvs ++ " WHERE `" ++ getPrimaryKey (r.1.heap a) ++ "` = " ++
        toString p := by
  unfold getUpdateQuery at h
  split at h
  · cases h
  · rename_i names hnames
    split at h
    · cases h
    · rename_i w1 qvs vals hloop
      split at h
      · cases h
      · rename_i p hp
        simp only [Except.ok.injEq] at h
        subst h
        exact ⟨names, qvs, p, hnames, hloop, hp, rfl⟩

/-- The way back: from the three steps to the result. -/
theorem getUpdateQuery_of {save : World → Nat → Except Fault World} {w w1 : World} {a : Nat}
    {names qvs : List String} {vals : List Value} {p : Int}
    (h1 : getChangedFieldNames (w.heap a) = .ok names)
    (h2 : getUpdateQueryLoop save a names w [] [] = .ok (w1, qvs, vals))
    (h3 : (getPrimaryValue (w1.heap a)).Int = some p) :
    getUpdateQuery save w a =
      .ok (w1, "UPDATE `" ++ getTableName (w1.heap a) ++ "` SET " ++
        ",".intercalate qvs ++ " WHERE `" ++ getPrimaryKey (w1.heap a) ++ "` = " ++
        toString p, vals) := by
  unfold getUpdateQuery
  simp only [h1, h2, h3]

theorem IsValid_signed {e : Entity} (hv : IsValid e = true)
    (hnu : ∀ n, getPrimaryValue e ≠ Value.uint UintKind.Uint64 n) :
    ∃ p, getPrimaryValue e = Value.int IntKind.Int64 p ∧ p ≠ 0 := by
  unfold IsValid at hv
  split at hv <;> try (cases hv)
  · rename_i i hp
    exact ⟨i, hp, by simpa using hv⟩
  · rename_i n hp
    exact absurd hp (hnu n)

theorem buildQuery_returns {rank : Nat → Nat}
    {save : World → Nat → Except Fault World} (a : Nat)
    (hev : ∀ w b w', save w b = .ok w' → w.evolves w')
    (hs : ∀ w b, w.ranked rank → (∀ c, (w.heap c).safe) → rank b < rank a →
      ∃ w', save w b = .ok w' ∧ ∀ c, c ≠ b → ¬ rank c < rank b → w'.heap c = w.heap c)
    (w : World) (hr : w.ranked rank) (hsafe : ∀ c, (w.heap c).safe) :
    ∃ r, buildQuery save w a = .ok r ∧
      ∀ c, ¬ rank c < rank a → r.1.heap c = w.heap c := by
  unfold buildQuery
  split
  · unfold getInsertQuery
    simp only
    obtain ⟨r, hr1, hf⟩ := getInsertQueryLoop_returns a hev hs (getPrimaryKey (w.heap a))
      ((w.heap a).fields.map Field.typ) 0 w [] [] [] hr hsafe
    obtain ⟨w1, cols, qvs, vals⟩ := r
    rw [hr1]
    exact ⟨_, rfl, hf⟩
  · rename_i hcond
    have hnames := getChangedFieldNames_safe (hsafe a)
    obtain ⟨r, hr1, hf⟩ := getUpdateQueryLoop_returns a hev hs _ w [] [] hr hsafe
      (getChangedFieldNames_subset _ _ hnames)
    obtain ⟨w1, qvs, vals⟩ := r
    have ha : w1.heap a = w.heap a := hf a (lt_irrefl _)
    have hv : IsValid (w.heap a) = true := by
      simp only [Bool.or_eq_true, Bool.not_eq_true', not_or, Bool.not_eq_false] at hcond
      exact hcond.1
    obtain ⟨p, hp, _⟩ := IsValid_signed hv (hsafe a).2.2.1
    simp only at ha
    have hint : (getPrimaryValue (w1.heap a)).Int = some p := by rw [ha, hp]; rfl
    rw [getUpdateQuery_of hnames hr1 hint]
    exact ⟨_, rfl, hf⟩

theorem SetSavedValuesLoop_returns (fs : List Field)
    (h : ∀ tf ∈ fs.map Field.typ, isDatabaseField tf = true → tf.PkgPath.length = 0) :
    ∀ m, ∃ m', SetSavedValuesLoop fs m = .ok m' := by
  induction fs with
  | nil => intro m; exact ⟨m, rfl⟩
  | cons f rest ih =>
    intro m
    have ihr := ih (fun tf htf => h tf (by simp only [List.map_cons]; exact List.mem_cons_of_mem _ htf))
    unfold SetSavedValuesLoop
    by_cases hdb : isDatabaseField f.typ = true
    · have hx := h f.typ (by simp) hdb
      simp only [hdb, Bool.not_true, Bool.false_eq_true, if_false, hx, ne_eq,
        not_true_eq_false]
      exact ihr _
    · simp only [hdb, Bool.not_false, if_true]
      exact ihr _

theorem execQuery_returns (ex : Executor) (a : Nat) (w1 : World) (q : String)
    (data : List Value)
    (hsafe : ∀ tf ∈ (w1.heap a).fields.map Field.typ,
      isDatabaseField tf = true → tf.PkgPath.length = 0) :
    ∃ w', execQuery ex a w1 q data = .ok w' ∧ ∀ c, c ≠ a → w'.heap c = w1.heap c := by
  unfold execQuery
  split
  · exact ⟨_, rfl, fun _ _ => rfl⟩
  · simp only
    split
    · exact ⟨_, rfl, fun _ _ => rfl⟩
    · rename_i res _
      have key : ∀ w3 : World, (w1.heap a).evolves (w3.heap a) →
          (∀ c, c ≠ a → w3.heap c = w1.heap c) →
          ∃ w', SetSavedValues w3 a = .ok w' ∧ ∀ c, c ≠ a → w'.heap c = w1.heap c := by
        intro w3 hev3 hfr
        obtain ⟨m, hm⟩ := SetSavedValuesLoop_returns (w3.heap a).fields
          (by rw [hev3.2.1]; exact hsafe) []
        unfold SetSavedValues
        simp only [hm]
        refine ⟨_, rfl, fun c hc => ?_⟩
        rw [World.set_heap_ne _ _ _ _ hc]
        exact hfr c hc
      split
      · rename_i hv
        split
        · split
          · apply key
            · rw [World.set_heap_same]
              exact setPrimary_evolves _ _ (by simpa using hv)
            · intro c hc
              rw [World.set_heap_ne _ _ _ _ hc]
          · exact key _ (entity_evolves_refl _) (fun _ _ => rfl)
        · exact key _ (entity_evolves_refl _) (fun _ _ => rfl)
      · exact key _ (entity_evolves_refl _) (fun _ _ => rfl)

/-- On an acyclic heap of safe entities `Save` returns once the fuel exceeds the rank
of the entity, and it touches only the entity and entities of lower rank. -/
theorem Save_returns (ex : Executor) (rank : Nat → Nat) (fuel : Nat) :
    ∀ w a, w.ranked rank → (∀ c, (w.heap c).safe) → rank a < fuel →
      ∃ w', Save ex fuel w a = .ok w' ∧
        ∀ c, c ≠ a → ¬ rank c < rank a → w'.heap c = w.heap c := by
  induction fuel with
  | zero => intro w a _ _ h; cases h
  | succ n ih =>
    intro w a hr hsafe hlt
    have hs : ∀ w b, w.ranked rank → (∀ c, (w.heap c).safe) → rank b < rank a →
        ∃ w', Save ex n w b = .ok w' ∧
          ∀ c, c ≠ b → ¬ rank c < rank b → w'.heap c = w.heap c :=
      fun w b hr hsafe hb => ih w b hr hsafe (by omega)
    obtain ⟨r, hb, hf⟩ := buildQuery_returns a (Save_evolves ex n) hs w hr hsafe
    obtain ⟨w1, q, data⟩ := r
    have hev1 := buildQuery_evolves (Save_evolves ex n) hb
    obtain ⟨w', hw', hf'⟩ := execQuery_returns ex a w1 q data
      (allSafe_of_evolves hsafe hev1 a).1
    unfold Save
    rw [hb]
    simp only
    exact ⟨w', hw', fun c hca hc => (hf' c hca).trans (hf c hc)⟩

/-! ## A Save that binds nothing -/

theorem Save_nothing_to_bind (ex : Executor) (fuel : Nat) (w : World) (a : Nat)
    (h : ((IsValid (w.heap a) = false ∨ (w.heap a).SavedValues = none) ∧
          ∀ f ∈ (w.heap a).fields, isInsertedField (getPrimaryKey (w.heap a)) f.typ = false) ∨
        (IsValid (w.heap a) = true ∧ (w.heap a).SavedValues ≠ none ∧
          getChangedFieldNames (w.heap a) = .ok [])) :
    finalWorld (Save ex (fuel + 1) w a) = some w ∧
      ((∀ n, getPrimaryValue (w.heap a) ≠ Value.uint UintKind.Uint64 n) →
        Save ex (fuel + 1) w a = Except.ok w) := by
  rcases h with ⟨hpath, hnone⟩ | ⟨hv, hs, hnil⟩
  · have hcond : (!IsValid (w.heap a) || (w.heap a).SavedValues.isNone) = true := by
      rcases hpath with h1 | h1
      · simp [h1]
      · simp [h1]
    have hfilter : (w.heap a).fields.filter
        (fun f => isInsertedField (getPrimaryKey (w.heap a)) f.typ) = [] := by
      rw [List.filter_eq_nil_iff]
      intro f hf
      simp [hnone f hf]
    have hloop := getInsertQueryLoop_plain (Save ex fuel) a (getPrimaryKey (w.heap a)) w
      (w.heap a).fields [] [] [] [] rfl (by
        intro f hf hins
        rw [hnone f hf] at hins
        cases hins)
    simp only [List.length_nil, hfilter, List.map_nil, List.append_nil] at hloop
    have hsave : Save ex (fuel + 1) w a = Except.ok w := by
      unfold Save buildQuery
      simp only [hcond, if_true]
      unfold getInsertQuery
      simp only [hloop]
      simp [execQuery]
    rw [hsave]
    exact ⟨rfl, fun _ => rfl⟩
  · have hcond : (!IsValid (w.heap a) || (w.heap a).SavedValues.isNone) = false := by
      cases hsv : (w.heap a).SavedValues with
      | none => exact absurd hsv hs
      | some m => simp [hv]
    cases hint : (getPrimaryValue (w.heap a)).Int with
    | none =>
      have hsave : Save ex (fuel + 1) w a =
          Except.error (Fault.panic ("reflect: call of reflect.Value.Int on " ++
            (getPrimaryValue (w.heap a)).kindName ++ " Value") w) := by
        unfold Save buildQuery
        simp only [hcond, Bool.false_eq_true, if_false]
        unfold getUpdateQuery
        simp only [hnil, getUpdateQueryLoop, hint]
      rw [hsave]
      refine ⟨rfl, fun hnu => ?_⟩
      exfalso
      unfold IsValid at hv
      unfold Value.Int at hint
      split at hv <;> simp_all
    | some p =>
      have hsave : Save ex (fuel + 1) w a = Except.ok w := by
        unfold Save buildQuery
        simp only [hcond, Bool.false_eq_true, if_false]
        unfold getUpdateQuery
        simp only [hnil, getUpdateQueryLoop, hint]
        simp [execQuery]
      rw [hsave]
      exact ⟨rfl, fun _ => rfl⟩

/-! ## The text of the statements -/

theorem buildQuery_statement (save : World → Nat → Except Fault World) (w : World) (a : Nat)
    (r : World × String × List Value) (h : buildQuery save w a = .ok r) :
    isStatementOn (getTableName (r.1.heap a)) r.2.1 := by
  unfold buildQuery at h
  split at h
  · unfold getInsertQuery at h
    simp only at h
    split at h
    · cases h
    · simp only [Except.ok.injEq] at h
      subst h
      exact Or.inl ⟨_, by simp only [String.append_assoc]; rfl⟩
  · obtain ⟨names, qvs, p, _, _, _, hq⟩ := getUpdateQuery_ok h
    exact Or.inr ⟨_, by rw [hq]; simp only [String.append_assoc]; rfl⟩

theorem insert_ne_update (x y : String) : "INSERT INTO `" ++ x ≠ "UPDATE `" ++ y := by
  intro h
  have := congrArg String.data h
  simp only [String.data_append] at this
  have h0 := congrArg List.head? this
  simp at h0

/-- Which builder `Save` takes, read off the statement. -/
theorem buildQuery_shape (save : World → Nat → Except Fault World) (w : World) (a : Nat)
    (r : World × String × List Value) (h : buildQuery save w a = .ok r) :
    ((∃ rest, r.2.1 = "UPDATE `" ++ rest) ↔
        (IsValid (w.heap a) = true ∧ (w.heap a).SavedValues ≠ none)) ∧
      (¬ (IsValid (w.heap a) = true ∧ (w.heap a).SavedValues ≠ none) →
        r.2.1 = "INSERT INTO `" ++ getTableName (r.1.heap a) ++ "` (" ++
          ",".intercalate ((((w.heap a).fields.map Field.typ).filter
            (isInsertedField (getPrimaryKey (w.heap a)))).map StructField.db) ++ ") VALUES (" ++
          ",".intercalate ((((w.heap a).fields.map Field.typ).filter
            (isInsertedField (getPrimaryKey (w.heap a)))).map (fun _ => "?")) ++ ")" ∧
        r.2.2.length = (((w.heap a).fields.map Field.typ).filter
            (isInsertedField (getPrimaryKey (w.heap a)))).length) := by
  unfold buildQuery at h
  split at h
  · rename_i hcond
    have hnc : ¬ (IsValid (w.heap a) = true ∧ (w.heap a).SavedValues ≠ none) := by
      rintro ⟨h1, h2⟩
      cases hsv : (w.heap a).SavedValues with
      | none => exact h2 hsv
      | some m => simp [h1, hsv] at hcond
    unfold getInsertQuery at h
    simp only at h
    split at h
    · cases h
    · rename_i w1 cols qvs vals hloop
      obtain ⟨c1, c2, c3⟩ := getInsertQueryLoop_columns save a _ _ _ _ _ _ _ _ hloop
      simp only [List.nil_append, List.length_nil, zero_add] at c1 c2 c3
      simp only [Except.ok.injEq] at h
      subst h
      simp only at c1 c2 c3 ⊢
      refine ⟨⟨?_, fun hc => absurd hc hnc⟩, fun _ => ⟨?_, c3⟩⟩
      · rintro ⟨rest, hrest⟩
        exfalso
        simp only [String.append_assoc] at hrest
        exact insert_ne_update _ _ hrest
      · rw [c1, c2]
  · rename_i hcond
    have hc : IsValid (w.heap a) = true ∧ (w.heap a).SavedValues ≠ none := by
      simp only [Bool.or_eq_true, Bool.not_eq_true', not_or, Bool.not_eq_false] at hcond
      refine ⟨hcond.1, fun hn => hcond.2 ?_⟩
      simp [hn]
    obtain ⟨names, qvs, p, _, _, _, hq⟩ := getUpdateQuery_ok h
    refine ⟨⟨fun _ => hc, fun _ => ⟨_, by rw [hq]; simp only [String.append_assoc]; rfl⟩⟩,
      fun hn => absurd hc hn⟩

theorem primaryKey_not_inserted (pk : String) (tfs : List StructField) :
    pk ∉ (tfs.filter (isInsertedField pk)).map StructField.db := by
  intro h
  obtain ⟨tf, htf, hdb⟩ := List.mem_map.1 h
  have := (List.mem_filter.1 htf).2
  simp only [isInsertedField, Bool.and_eq_true, decide_eq_true_eq] at this
  exact this.2 hdb

/-! ## Checking that a concrete world is acyclic and safe -/

theorem fieldValue_mem_or_nil (e : Entity) (i : Nat) :
    (∃ f ∈ e.fields, e.fieldValue i = f.value) ∨ e.fieldValue i = Value.nil := by
  unfold Entity.fieldValue
  cases h : e.fields[i]? with
  | none => exact Or.inr rfl
  | some f => exact Or.inl ⟨f, List.mem_iff_getElem?.2 ⟨i, h⟩, rfl⟩

theorem ranked_of_pointees (rank : Nat → Nat) (w : World)
    (h : ∀ a, ∀ f ∈ (w.heap a).fields, ∀ b, f.value.pointee = some b → rank b < rank a) :
    w.ranked rank := by
  intro a i t b hv
  rcases fieldValue_mem_or_nil (w.heap a) i with ⟨f, hf, hfv⟩ | hnil
  · exact h a f hf b (by rw [← hfv, hv]; rfl)
  · rw [hnil] at hv; cases hv

theorem ranked_single (rank : Nat → Nat) (e : Entity)
    (h : ∀ f ∈ e.fields, f.value.pointee = none) : (World.single e).ranked rank := by
  apply ranked_of_pointees
  intro a f hf b hb
  rw [h f hf] at hb
  cases hb

theorem safe_of_fields (e : Entity)
    (h1 : ∀ f ∈ e.fields, isDatabaseField f.typ = true → f.typ.PkgPath.length = 0)
    (h2 : ∀ f ∈ e.fields, f.value.structKey = "")
    (h3 : (getPrimaryValue e).isUint64 = false)
    (h4 : ∀ f ∈ e.fields, f.value.Interface.comparable = true) : e.safe := by
  refine ⟨?_, ?_, ?_, ?_⟩
  · intro tf htf
    obtain ⟨f, hf, rfl⟩ := List.mem_map.1 htf
    exact h1 f hf
  · intro i t pk c hv
    rcases fieldValue_mem_or_nil e i with ⟨f, hf, hfv⟩ | hnil
    · have := h2 f hf
      rw [← hfv, hv] at this
      exact this
    · rw [hnil] at hv; cases hv
  · intro n hv
    rw [hv] at h3
    cases h3
  · intro i
    rcases fieldValue_mem_or_nil e i with ⟨f, hf, hfv⟩ | hnil
    · rw [hfv]
      exact h4 f hf
    · rw [hnil]; rfl

theorem Save_empty_data (ex : Executor) (fuel : Nat) (w : World) (a : Nat) (w1 : World)
    (q : String) (hb : buildQuery (Save ex fuel) w a = .ok (w1, q, [])) :
    Save ex (fuel + 1) w a = .ok w := by
  have hw := buildQuery_nil _ _ _ _ hb rfl
  simp only at hw
  unfold Save
  rw [hb]
  simp [execQuery, hw]

/-! ## The primary key after Save -/

theorem IsValid_int64 (e : Entity) (p : Int) (h : getPrimaryValue e = Value.int IntKind.Int64 p) :
    IsValid e = (p != 0) := by
  simp [IsValid, h]

theorem getPrimaryValue_snapshot (e : Entity) (s : Option (List (String × Value))) :
    getPrimaryValue { e with SavedValues := s } = getPrimaryValue e := rfl

theorem setPrimary_int64 (e : Entity) (j n : Int)
    (h : getPrimaryValue e = Value.int IntKind.Int64 j) :
    getPrimaryValue (setPrimary e n).1 = Value.int IntKind.Int64 n := by
  cases hpt : getPrimaryType e with
  | none => simp [getPrimaryValue, hpt] at h
  | some p =>
    obtain ⟨i, tf⟩ := p
    have hlt := (getPrimaryType_lt e i tf hpt).1
    have hset : setPrimary e n = (e.SetField i (Value.int IntKind.Int64 n), true) := by
      unfold setPrimary
      rw [hpt, h]
    rw [hset]
    have hpt' : getPrimaryType (e.SetField i (Value.int IntKind.Int64 n)) = some (i, tf) := by
      rw [getPrimaryType_congr e _ (SetField_typ e i _), hpt]
    simp only [getPrimaryValue, hpt', SetField_fieldValue, hlt, and_self, if_true]

theorem selfEqual_of_evolves {v v' : Value} (h : v.evolves v')
    (hs : v.Interface.selfEqual = true) : v'.Interface.selfEqual = true := by
  rcases h with h | ⟨_, j, h⟩ | ⟨_, n, h⟩
  · rw [h]; exact hs
  · rw [h]; simp [Value.Interface, Value.selfEqual, interfaceNe]
  · rw [h]; simp [Value.Interface, Value.selfEqual, interfaceNe]

/-- The fields of an evolved entity, one by one. -/
theorem evolves_field {e e' : Entity} (h : e.evolves e') (f' : Field) (hf' : f' ∈ e'.fields) :
    ∃ f ∈ e.fields, f.typ = f'.typ ∧ f.value.evolves f'.value := by
  obtain ⟨i, hi⟩ := List.mem_iff_getElem?.1 hf'
  have h1 : (e'.fields.map Field.typ)[i]? = some f'.typ := by simp [hi]
  rw [h.2.1] at h1
  simp only [List.getElem?_map, Option.map_eq_some'] at h1
  obtain ⟨f, hf, htyp⟩ := h1
  refine ⟨f, List.mem_iff_getElem?.2 ⟨i, hf⟩, htyp, ?_⟩
  have := h.2.2 i
  simpa [Entity.fieldValue, hi, hf] using this

theorem allSelfEqual_of_evolves {e e' : Entity} (h : e.evolves e')
    (hs : ∀ f ∈ e.fields, isDatabaseField f.typ = true → f.value.Interface.selfEqual = true) :
    ∀ f ∈ e'.fields, isDatabaseField f.typ = true → f.value.Interface.selfEqual = true := by
  intro f' hf' hdb
  obtain ⟨f, hf, htyp, hev⟩ := evolves_field h f' hf'
  exact selfEqual_of_evolves hev (hs f hf (htyp ▸ hdb))

/-- After a first insert that called `Exec` and got a nonzero id, an entity with an
`int64` primary key, whose persisted fields hold values that equal themselves, is valid
and matches its snapshot, and saving it again is a no-op. -/
theorem Save_again_noop (ex : Executor) (N : Int) (fuel fuel' : Nat) (w w1 : World) (a : Nat)
    (hN : N ≠ 0) (hex : ∀ h c, ex h c = ExecResult.ok (some N))
    (hp : getPrimaryValue (w.heap a) = Value.int IntKind.Int64 0)
    (hnd : (persistedNames (w.heap a)).Nodup)
    (hself : ∀ f ∈ (w.heap a).fields, isDatabaseField f.typ = true →
      f.value.Interface.selfEqual = true)
    (hins : ∃ f ∈ (w.heap a).fields,
      isInsertedField (getPrimaryKey (w.heap a)) f.typ = true)
    (h1 : Save ex fuel w a = .ok w1) :
    getChangedFieldNames (w1.heap a) = .ok [] ∧ Save ex (fuel' + 1) w1 a = .ok w1 := by
  cases fuel with
  | zero => simp [Save] at h1
  | succ n =>
    unfold Save at h1
    split at h1
    · cases h1
    · rename_i wb q data hb
      have hev := buildQuery_evolves (Save_evolves ex n) hb
      simp only at hev
      have hinv : IsValid (w.heap a) = false := by rw [IsValid_int64 _ _ hp]; rfl
      have hnc : ¬ (IsValid (w.heap a) = true ∧ (w.heap a).SavedValues ≠ none) := by
        rintro ⟨h, _⟩
        rw [hinv] at h
        cases h
      have hlen := ((buildQuery_shape _ w a _ hb).2 hnc).2
      simp only at hlen
      have hd : data ≠ [] := by
        intro hd
        obtain ⟨f, hf, hfi⟩ := hins
        have hmem : f.typ ∈ ((w.heap a).fields.map Field.typ).filter
            (isInsertedField (getPrimaryKey (w.heap a))) :=
          List.mem_filter.2 ⟨List.mem_map_of_mem _ hf, hfi⟩
        rw [hd] at hlen
        rw [List.length_eq_zero.1 hlen.symm] at hmem
        cases hmem
      obtain ⟨e3, m, he3, hval, hinval, hm, hheap, _, _⟩ :=
        execQuery_ok ex a wb w1 q data (some N) hd (hex _ _) h1
      -- the primary key of `e3` is a nonzero int64
      have hpb : ∃ j, getPrimaryValue (wb.heap a) = Value.int IntKind.Int64 j := by
        rcases Entity.evolves_primaryValue (hev.1 a) with h | ⟨_, j, h⟩ | ⟨h, _⟩
        · exact ⟨0, h.trans hp⟩
        · exact ⟨j, h⟩
        · rw [hp] at h; cases h
      obtain ⟨j, hj⟩ := hpb
      have hp3 : ∃ p, p ≠ 0 ∧ getPrimaryValue e3 = Value.int IntKind.Int64 p := by
        by_cases hvb : IsValid (wb.heap a) = true
        · rw [hval hvb]
          rw [IsValid_int64 _ _ hj] at hvb
          exact ⟨j, by simpa using hvb, hj⟩
        · have hvb' : IsValid (wb.heap a) = false := by simpa using hvb
          rw [hinval hvb' N rfl hN]
          exact ⟨N, hN, setPrimary_int64 _ _ _ hj⟩
      obtain ⟨p, hp0, hp3⟩ := hp3
      have htyp : e3.fields.map Field.typ = (w.heap a).fields.map Field.typ :=
        he3.2.1.trans (hev.1 a).2.1
      have hnd3 : (persistedNames e3).Nodup := by
        rw [persistedNames_congr _ e3 htyp]
        exact hnd
      have hchanged : getChangedFieldNames (w1.heap a) = .ok [] := by
        rw [hheap]
        exact getChangedFieldNames_after_snapshot e3 m hm hnd3
          (allSelfEqual_of_evolves (entity_evolves_trans (hev.1 a) he3) hself)
      have hpv : getPrimaryValue (w1.heap a) = Value.int IntKind.Int64 p := by
        rw [hheap, getPrimaryValue_snapshot, hp3]
      refine ⟨hchanged, ?_⟩
      refine (Save_nothing_to_bind ex fuel' w1 a (Or.inr ⟨?_, ?_, hchanged⟩)).2 ?_
      · rw [IsValid_int64 _ _ hpv]
        simpa using hp0
      · rw [hheap]
        simp
      · intro k hk
        rw [hpv] at hk
        cases hk

/-- An insert without related entities: `Save` returns after exactly one `Exec`. -/
theorem Save_plain_insert (ex : Executor) (fuel : Nat) (w : World) (a : Nat)
    (hv : IsValid (w.heap a) = false)
    (hexp : ∀ tf ∈ (w.heap a).fields.map Field.typ,
      isDatabaseField tf = true → tf.PkgPath.length = 0)
    (hins : ∃ f ∈ (w.heap a).fields,
      isInsertedField (getPrimaryKey (w.heap a)) f.typ = true)
    (hplain : ∀ f ∈ (w.heap a).fields,
      isInsertedField (getPrimaryKey (w.heap a)) f.typ = true → isRelated w f.value = false)
    (hex : ∀ h c, ex h c ≠ ExecResult.err) :
    ∃ w1 q, Save ex (fuel + 1) w a = .ok w1 ∧
      w1.log = w.log ++ [⟨q, ((w.heap a).fields.filter
        (fun f => isInsertedField (getPrimaryKey (w.heap a)) f.typ)).map
        (fun f => f.value.Interface)⟩] := by
  have hloop := getInsertQueryLoop_plain (Save ex fuel) a (getPrimaryKey (w.heap a)) w
    (w.heap a).fields [] [] [] [] rfl hplain
  simp only [List.length_nil, List.nil_append] at hloop
  have hd : ((w.heap a).fields.filter
      (fun f => isInsertedField (getPrimaryKey (w.heap a)) f.typ)).map
        (fun f => f.value.Interface) ≠ [] := by
    obtain ⟨f, hf, hfi⟩ := hins
    intro hnil
    have hmem : f ∈ (w.heap a).fields.filter
        (fun f => isInsertedField (getPrimaryKey (w.heap a)) f.typ) :=
      List.mem_filter.2 ⟨hf, hfi⟩
    rw [List.map_eq_nil_iff] at hnil
    rw [hnil] at hmem
    cases hmem
  have hb : buildQuery (Save ex fuel) w a = .ok (w,
      "INSERT INTO `" ++ getTableName (w.heap a) ++ "` (" ++
        ",".intercalate (((w.heap a).fields.filter
          (fun f => isInsertedField (getPrimaryKey (w.heap a)) f.typ)).map
            (fun f => f.typ.db)) ++ ") VALUES (" ++
        ",".intercalate (((w.heap a).fields.filter
          (fun f => isInsertedField (getPrimaryKey (w.heap a)) f.typ)).map
            (fun _ => "?")) ++ ")",
      ((w.heap a).fields.filter
        (fun f => isInsertedField (getPrimaryKey (w.heap a)) f.typ)).map
        (fun f => f.value.Interface)) := by
    unfold buildQuery getInsertQuery
    simp only [hv, Bool.not_false, Bool.true_or, if_true, hloop]
  obtain ⟨w1, hw1, _⟩ := execQuery_returns ex a w _ _ hexp
  cases hres : ex w.log ⟨_, ((w.heap a).fields.filter
        (fun f => isInsertedField (getPrimaryKey (w.heap a)) f.typ)).map
        (fun f => f.value.Interface)⟩ with
  | err => exact absurd hres (hex _ _)
  | ok res =>
    obtain ⟨_, _, _, _, _, _, _, hlog, _⟩ := execQuery_ok ex a w w1 _ _ res hd hres hw1
    refine ⟨w1, _, ?_, hlog⟩
    unfold Save
    rw [hb]
    exact hw1

/-! ## An update without related entities -/

/-- With a valid `int64` primary key, a snapshot, and no related entity among the changed
fields, `Save` logs exactly the UPDATE of the changed columns, whatever `Exec` answers
and whether or not the snapshot can be taken afterwards. -/
theorem Save_plain_update (ex : Executor) (fuel : Nat) (w : World) (a : Nat) (p : Int)
    (m : List (String × Value)) (names : List String)
    (hp : getPrimaryValue (w.heap a) = Value.int IntKind.Int64 p) (hp0 : p ≠ 0)
    (hs : (w.heap a).SavedValues = some m)
    (hnd : ((w.heap a).fields.map (fun f => f.typ.Name)).Nodup)
    (hnames : getChangedFieldNames (w.heap a) = .ok names) (hchanged : names ≠ [])
    (hplain : ∀ f ∈ (w.heap a).fields,
      isChangedField (some m) f = true → isRelated w f.value = false) :
    ∃ w', finalWorld (Save ex (fuel + 1) w a) = some w' ∧
      w'.log = w.log ++
        [⟨"UPDATE `" ++ getTableName (w.heap a) ++ "` SET " ++
            ",".intercalate (((w.heap a).fields.filter (isChangedField (some m))).map
              (fun f => "`" ++ f.typ.db ++ "` = ?")) ++
            " WHERE `" ++ getPrimaryKey (w.heap a) ++ "` = " ++ toString p,
          ((w.heap a).fields.filter (isChangedField (some m))).map
            (fun f => f.value.Interface)⟩] := by
  have hv : IsValid (w.heap a) = true := by
    rw [IsValid_int64 _ _ hp]
    simpa using hp0
  have hcond : (!IsValid (w.heap a) || (w.heap a).SavedValues.isNone) = false := by
    simp [hv, hs]
  have hn : names =
      ((w.heap a).fields.filter (isChangedField (some m))).map (fun f => f.typ.Name) := by
    rw [(getChangedFieldNames_ok _ _ hnames).2, hs]
  have hloop := getUpdateQueryLoop_plain (Save ex fuel) a w
    ((w.heap a).fields.filter (isChangedField (some m))) [] []
    (fun f hf => FieldByName_of_mem _ f (List.mem_of_mem_filter hf) hnd)
    (fun f hf => hplain f (List.mem_of_mem_filter hf) (List.mem_filter.1 hf).2)
  simp only [List.nil_append] at hloop
  rw [← hn] at hloop
  have hd : ((w.heap a).fields.filter (isChangedField (some m))).map
      (fun f => f.value.Interface) ≠ [] := by
    intro hnil
    apply hchanged
    rw [hn]
    rw [List.map_eq_nil_iff] at hnil ⊢
    exact hnil
  have hd' : ¬ (((w.heap a).fields.filter (isChangedField (some m))).map
      (fun f => f.value.Interface)).length = 0 := fun h0 => hd (List.length_eq_zero.1 h0)
  have hint : (getPrimaryValue (w.heap a)).Int = some p := by rw [hp]; rfl
  have hb : buildQuery (Save ex fuel) w a = .ok (w,
      "UPDATE `" ++ getTableName (w.heap a) ++ "` SET " ++
        ",".intercalate (((w.heap a).fields.filter (isChangedField (some m))).map
          (fun f => "`" ++ f.typ.db ++ "` = ?")) ++
        " WHERE `" ++ getPrimaryKey (w.heap a) ++ "` = " ++ toString p,
      ((w.heap a).fields.filter (isChangedField (some m))).map
        (fun f => f.value.Interface)) := by
    unfold buildQuery
    simp only [hcond, Bool.false_eq_true, if_false]
    exact getUpdateQuery_of hnames hloop hint
  unfold Save
  rw [hb]
  simp only
  unfold execQuery
  simp only [hd', if_false]
  split
  · exact ⟨_, rfl, rfl⟩
  · simp only [hv, Bool.not_true, Bool.false_eq_true, if_false]
    unfold SetSavedValues
    simp only
    split
    · exact ⟨_, rfl, rfl⟩
    · exact ⟨_, rfl, rfl⟩

/-! ## Removing every occurrence -/

theorem removeAll_skip (old : List Char) (l : List Char) :
    ∀ k, removeAll old k l = removeAll old 0 (l.drop k) := by
  induction l with
  | nil => intro k; cases k <;> simp [removeAll]
  | cons c cs ih =>
    intro k
    cases k with
    | zero => rfl
    | succ n =>
      rw [removeAll, ih n]
      rfl

theorem removeAll_match (old : List Char) (c : Char) (cs : List Char) (hne : old ≠ [])
    (h : old.isPrefixOf (c :: cs) = true) :
    removeAll old 0 (c :: cs) = removeAll old 0 ((c :: cs).drop old.length) := by
  rw [removeAll]
  simp only [hne, ne_eq, not_false_eq_true, h, and_self, if_true]
  rw [removeAll_skip]
  cases old with
  | nil => exact absurd rfl hne
  | cons o os => simp

theorem removeAll_nomatch (old : List Char) (c : Char) (cs : List Char)
    (h : old.isPrefixOf (c :: cs) = false) :
    removeAll old 0 (c :: cs) = c :: removeAll old 0 cs := by
  rw [removeAll]
  simp [h]

/-- The occurrences that `removeAll` drops are found left to right: up to the first
one the text is kept, the occurrence is dropped, and the scan goes on behind it. -/
theorem removeAll_first (old : List Char) (hne : old ≠ []) (s : List Char) :
    ∀ p : List Char,
      (∀ k, k < p.length → old.isPrefixOf ((p ++ old ++ s).drop k) = false) →
      removeAll old 0 (p ++ old ++ s) = p ++ removeAll old 0 s := by
  intro p
  induction p with
  | nil =>
    intro _
    cases hold : old with
    | nil => exact absurd hold hne
    | cons o os =>
      have hpre : (o :: os).isPrefixOf (o :: (os ++ s)) = true := by
        rw [List.isPrefixOf_iff_prefix]
        exact ⟨s, by simp⟩
      have := removeAll_match (o :: os) o (os ++ s) (by simp) hpre
      simp only [List.nil_append, List.cons_append]
      rw [this]
      simp
  | cons c p ih =>
    intro h
    have h0 := h 0 (by simp)
    simp only [List.drop_zero, List.cons_append] at h0
    simp only [List.cons_append]
    rw [removeAll_nomatch old c _ h0]
    congr 1
    exact ih (fun k hk => by
      have := h (k + 1) (by simp; omega)
      simpa using this)

theorem removeAll_none (old : List Char) :
    ∀ l : List Char, (∀ k, k < l.length → old.isPrefixOf (l.drop k) = false) →
      removeAll old 0 l = l := by
  intro l
  induction l with
  | nil => intro _; rfl
  | cons c cs ih =>
    intro h
    have h0 := h 0 (by simp)
    simp only [List.drop_zero] at h0
    rw [removeAll_nomatch old c cs h0]
    congr 1
    exact ih (fun k hk => by
      have := h (k + 1) (by simp; omega)
      simpa using this)

/-! ## The primary key in an UPDATE -/

theorem isRelated_evolves {w w' : World} (h : w.evolves w') (v : Value) :
    isRelated w' v = isRelated w v := by
  cases v with
  | ptr t ad =>
    cases ad with
    | none => rfl
    | some b => simp only [isRelated, Entity.evolves_primaryKey (h.1 b)]
  | _ => rfl

theorem find_by_name_index (name : String) :
    ∀ (fs : List Field) (f : Field),
      fs.find? (fun f => decide (f.typ.Name = name)) = some f →
      ∃ i : Nat, fs[i]? = some f ∧ ∀ fs' : List Field, fs'.map Field.typ = fs.map Field.typ →
        ∃ f', fs'.find? (fun f => decide (f.typ.Name = name)) = some f' ∧ fs'[i]? = some f' := by
  intro fs
  induction fs with
  | nil => intro f h; simp at h
  | cons g rest ih =>
    intro f h
    by_cases hg : g.typ.Name = name
    · simp only [List.find?_cons, hg, decide_True] at h
      simp only [Option.some.injEq] at h
      subst h
      refine ⟨0, by simp, fun fs' hfs' => ?_⟩
      cases fs' with
      | nil => simp at hfs'
      | cons g' rest' =>
        simp only [List.map_cons, List.cons.injEq] at hfs'
        refine ⟨g', ?_, by simp⟩
        simp [List.find?_cons, hfs'.1, hg]
    · simp only [List.find?_cons, hg, decide_False] at h
      obtain ⟨i, hi, hrest⟩ := ih f h
      refine ⟨i + 1, by simpa using hi, fun fs' hfs' => ?_⟩
      cases fs' with
      | nil => simp at hfs'
      | cons g' rest' =>
        simp only [List.map_cons, List.cons.injEq] at hfs'
        obtain ⟨f', hf', hi'⟩ := hrest rest' hfs'.2
        refine ⟨f', ?_, by simpa using hi'⟩
        simp [List.find?_cons, hfs'.1, hg, hf']

theorem FieldByName_evolves {e e' : Entity} (h : e.evolves e') (name : String) (f : Field)
    (hf : e.FieldByName name = some f) :
    ∃ f', e'.FieldByName name = some f' ∧ f'.typ = f.typ ∧ f.value.evolves f'.value := by
  unfold Entity.FieldByName at hf ⊢
  obtain ⟨i, hi, hall⟩ := find_by_name_index name e.fields f hf
  obtain ⟨f', hf', hi'⟩ := hall e'.fields h.2.1
  refine ⟨f', hf', ?_, ?_⟩
  · have h1 : (e.fields.map Field.typ)[i]? = some f.typ := by simp [hi]
    have h2 : (e'.fields.map Field.typ)[i]? = some f'.typ := by simp [hi']
    rw [h.2.1, h1] at h2
    simpa using h2.symm
  · have := h.2.2 i
    simpa [Entity.fieldValue, hi, hi'] using this

theorem getUpdateQueryLoop_extends (save : World → Nat → Except Fault World) (a : Nat)
    (names : List String) :
    ∀ (w : World) (qvs : List String) (vals : List Value)
      (r : World × List String × List Value),
      getUpdateQueryLoop save a names w qvs vals = .ok r →
        ∃ x y, r.2.1 = qvs ++ x ∧ r.2.2 = vals ++ y ∧ x.length = names.length ∧
          y.length = names.length := by
  induction names with
  | nil =>
    intro w qvs vals r h
    simp only [getUpdateQueryLoop, Except.ok.injEq] at h
    subst h
    exact ⟨[], [], by simp, by simp, rfl, rfl⟩
  | cons name rest ih =>
    intro w qvs vals r h
    unfold getUpdateQueryLoop at h
    split at h
    · cases h
    · split at h
      · cases h
      · obtain ⟨x, y, hx, hy, hlx, hly⟩ := ih _ _ _ _ h
        exact ⟨_ :: x, _ :: y, by simpa using hx, by simpa using hy, by simp [hlx],
          by simp [hly]⟩

/-- A changed field whose value no `Save` touches is bound at the position of its SET
clause. -/
theorem getUpdateQueryLoop_finds {save : World → Nat → Except Fault World}
    (hs : ∀ w b w', save w b = .ok w' → w.evolves w') (a : Nat) (name db : String)
    (v : Value) (hv : ∀ v', v.evolves v' → v' = v)
    (hplain : ∀ w, saveRelated save w v = .ok (w, v)) (names : List String) :
    ∀ (w : World) (qvs : List String) (vals : List Value)
      (r : World × List String × List Value),
      getUpdateQueryLoop save a names w qvs vals = .ok r →
      qvs.length = vals.length →
      (∃ f, (w.heap a).FieldByName name = some f ∧ f.typ.db = db ∧ f.value = v) →
      name ∈ names →
      ∃ k : Nat, r.2.1[k]? = some ("`" ++ db ++ "` = ?") ∧ r.2.2[k]? = some v := by
  induction names with
  | nil => intro w qvs vals r _ _ _ hmem; cases hmem
  | cons n rest ih =>
    intro w qvs vals r h hlen hP hmem
    obtain ⟨f, hf, hfdb, hfv⟩ := hP
    unfold getUpdateQueryLoop at h
    split at h
    · cases h
    · rename_i field hfield
      split at h
      · cases h
      · rename_i w1 value hrel
        by_cases hn : n = name
        · subst hn
          rw [hf] at hfield
          simp only [Option.some.injEq] at hfield
          subst hfield
          rw [hfv, hplain w] at hrel
          simp only [Except.ok.injEq, Prod.mk.injEq] at hrel
          obtain ⟨rfl, rfl⟩ := hrel
          obtain ⟨x, y, hx, hy, _, _⟩ := getUpdateQueryLoop_extends _ _ _ _ _ _ _ h
          refine ⟨qvs.length, ?_, ?_⟩
          · rw [hx, hfdb, List.append_assoc, List.getElem?_append_right (le_refl _)]
            simp
          · rw [hy, hlen, List.append_assoc, List.getElem?_append_right (le_refl _)]
            simp
        · have hmem' : name ∈ rest := by
            rcases List.mem_cons.1 hmem with h1 | h1
            · exact absurd h1.symm hn
            · exact h1
          have hev1 := saveRelated_evolves hs hrel
          obtain ⟨f', hf', htyp, hval⟩ := FieldByName_evolves (hev1.1 a) name f hf
          refine ih w1 _ _ r h (by simp [hlen]) ⟨f', hf', ?_, ?_⟩ hmem'
          · rw [htyp, hfdb]
          · rw [hfv] at hval
            exact hv _ hval

theorem getUpdateQuery_returns {rank : Nat → Nat}
    {save : World → Nat → Except Fault World} (a : Nat)
    (hev : ∀ w b w', save w b = .ok w' → w.evolves w')
    (hs : ∀ w b, w.ranked rank → (∀ c, (w.heap c).safe) → rank b < rank a →
      ∃ w', save w b = .ok w' ∧ ∀ c, c ≠ b → ¬ rank c < rank b → w'.heap c = w.heap c)
    (w : World) (hr : w.ranked rank) (hsafe : ∀ c, (w.heap c).safe) (p : Int)
    (hp : getPrimaryValue (w.heap a) = Value.int IntKind.Int64 p) :
    ∃ r, getUpdateQuery save w a = .ok r := by
  have hnames := getChangedFieldNames_safe (hsafe a)
  obtain ⟨r, hr1, hf⟩ := getUpdateQueryLoop_returns a hev hs _ w [] [] hr hsafe
    (getChangedFieldNames_subset _ _ hnames)
  obtain ⟨w1, qvs, vals⟩ := r
  have ha : w1.heap a = w.heap a := hf a (lt_irrefl _)
  simp only at ha
  have hint : (getPrimaryValue (w1.heap a)).Int = some p := by rw [ha, hp]; rfl
  exact ⟨_, getUpdateQuery_of hnames hr1 hint⟩

/-- The primary field, found by its index and by its name. -/
theorem primary_field (e : Entity) (i : Nat) (tf : StructField)
    (hpt : getPrimaryType e = some (i, tf))
    (hnd : (e.fields.map (fun f => f.typ.Name)).Nodup) :
    ∃ f, f ∈ e.fields ∧ f.typ = tf ∧ f.value = getPrimaryValue e ∧
      tf.PkgPath.length = 0 ∧ e.FieldByName tf.Name = some f := by
  obtain ⟨_, _, h3, h4⟩ := getPrimaryTypeFrom_lt _ _ _ _ hpt
  simp only [Nat.sub_zero, List.getElem?_map, Option.map_eq_some'] at h3
  obtain ⟨f, hf, htyp⟩ := h3
  have hmem : f ∈ e.fields := List.mem_iff_getElem?.2 ⟨i, hf⟩
  refine ⟨f, hmem, htyp, ?_, h4, ?_⟩
  · simp [getPrimaryValue, hpt, Entity.fieldValue, hf]
  · rw [← htyp]
    exact FieldByName_of_mem e f hmem hnd

theorem int64_evolves_only_to_itself (p : Int) (hp : p ≠ 0) (v : Value)
    (h : (Value.int IntKind.Int64 p).evolves v) : v = Value.int IntKind.Int64 p := by
  rcases h with h | ⟨h, _⟩ | ⟨h, _⟩
  · exact h
  · simp only [Value.int.injEq, true_and] at h
    exact absurd h hp
  · cases h

/-- What an UPDATE built for an entity whose primary key was changed looks like. -/
theorem getUpdateQuery_changed_primary {save : World → Nat → Except Fault World}
    (hs : ∀ w b w', save w b = .ok w' → w.evolves w')
    (w : World) (a i : Nat) (tf : StructField) (p0 p1 : Int) (m : List (String × Value))
    (hpt : getPrimaryType (w.heap a) = some (i, tf)) (hdb : isDatabaseField tf = true)
    (hp : getPrimaryValue (w.heap a) = Value.int IntKind.Int64 p1) (hp1 : p1 ≠ 0)
    (hm : (w.heap a).SavedValues = some m)
    (hp0 : m.lookup tf.Name = some (Value.int IntKind.Int64 p0)) (hne : p1 ≠ p0)
    (hnd : ((w.heap a).fields.map (fun f => f.typ.Name)).Nodup)
    (r : World × String × List Value) (h : getUpdateQuery save w a = .ok r) :
    ∃ qvs : List String,
      r.2.1 = "UPDATE `" ++ getTableName (w.heap a) ++ "` SET " ++ ",".intercalate qvs ++
        " WHERE `" ++ tf.db ++ "` = " ++ toString p1 ∧
      qvs.length = r.2.2.length ∧
      ∃ k : Nat, qvs[k]? = some ("`" ++ tf.db ++ "` = ?") ∧
        r.2.2[k]? = some (Value.int IntKind.Int64 p1) := by
  obtain ⟨f, hmem, htyp, hval, hpkg, hfind⟩ := primary_field _ i tf hpt hnd
  rw [hp] at hval
  obtain ⟨names, qvs, p, hnames, hloop, hint, hq⟩ := getUpdateQuery_ok h
  have hchanged : tf.Name ∈ names := by
    rw [(getChangedFieldNames_ok _ _ hnames).2]
    refine List.mem_map.2 ⟨f, List.mem_filter.2 ⟨hmem, ?_⟩, by rw [htyp]⟩
    have hsv : (Value.int IntKind.Int64 p0 != Value.int IntKind.Int64 p1) = true := by
      simp only [bne_iff_ne, ne_eq, Value.int.injEq, true_and]
      exact fun h => hne h.symm
    simp only [isChangedField, htyp, hpkg, hdb, hm, hval, decide_True, Bool.true_and,
      savedValue, hp0, Option.getD_some, Value.Interface, interfaceNe, hsv, beq_self_eq_true]
  have hev := getUpdateQueryLoop_evolves hs a _ _ _ _ _ hloop
  simp only at hev
  have hpv : getPrimaryValue (r.1.heap a) = Value.int IntKind.Int64 p1 := by
    have := Entity.evolves_primaryValue (hev.1 a)
    rw [hp] at this
    exact int64_evolves_only_to_itself p1 hp1 _ this
  have hkey : getPrimaryKey (w.heap a) = tf.db := by simp [getPrimaryKey, hpt]
  rw [hpv] at hint
  simp only [Value.Int, Option.some.injEq] at hint
  rw [Entity.evolves_tableName (hev.1 a), Entity.evolves_primaryKey (hev.1 a), hkey,
    ← hint] at hq
  refine ⟨qvs, hq, ?_, ?_⟩
  · obtain ⟨x, y, hx, hy, hlx, hly⟩ := getUpdateQueryLoop_extends _ _ _ _ _ _ _ hloop
    simp only at hx hy
    simp only [hx, hy, List.nil_append, hlx, hly]
  · exact getUpdateQueryLoop_finds hs a tf.Name tf.db _
      (int64_evolves_only_to_itself p1 hp1) (fun _ => rfl) _ _ _ _ _ hloop rfl
      ⟨f, hfind, by rw [htyp], hval⟩ hchanged

/-! ## The values bound by an INSERT -/

/-- On an acyclic heap of safe entities the INSERT loop returns, leaves the entity as it
found it, and binds the value of every listed field that is no related entity at the
position of the field among the listed ones. -/
theorem getInsertQueryLoop_values {rank : Nat → Nat}
    {save : World → Nat → Except Fault World} (a : Nat)
    (hev : ∀ w b w', save w b = .ok w' → w.evolves w')
    (hs : ∀ w b, w.ranked rank → (∀ c, (w.heap c).safe) → rank b < rank a →
      ∃ w', save w b = .ok w' ∧ ∀ c, c ≠ b → ¬ rank c < rank b → w'.heap c = w.heap c)
    (pk : String) (e0 : Entity) (w0 : World) (fs : List Field) :
    ∀ (pre : List Field) (w : World) (cols qvs : List String) (vals : List Value),
      e0.fields = pre ++ fs → w.heap a = e0 → w0.evolves w →
      w.ranked rank → (∀ c, (w.heap c).safe) →
      ∃ r y, getInsertQueryLoop save a pk pre.length (fs.map Field.typ) w cols qvs vals =
          .ok r ∧
        r.1.heap a = e0 ∧ r.2.2.2 = vals ++ y ∧
        ∀ (k : Nat) (f : Field),
          (fs.filter (fun f => isInsertedField pk f.typ))[k]? = some f →
          isRelated w0 f.value = false → y[k]? = some f.value.Interface := by
  induction fs with
  | nil =>
    intro pre w cols qvs vals _ ha _ _ _
    exact ⟨_, [], rfl, ha, by simp, by simp⟩
  | cons f rest ih =>
    intro pre w cols qvs vals hfields ha hw0 hr hsafe
    have hfields' : e0.fields = (pre ++ [f]) ++ rest := by simp [hfields]
    have hlen : (pre ++ [f]).length = pre.length + 1 := by simp
    simp only [List.map_cons]
    unfold getInsertQueryLoop
    by_cases hins : isInsertedField pk f.typ = true
    · have hins' := hins
      simp only [isInsertedField, Bool.and_eq_true, decide_eq_true_eq] at hins'
      obtain ⟨⟨h1, h2⟩, h3⟩ := hins'
      have hval : (w.heap a).fieldValue pre.length = f.value := by
        have : (pre ++ f :: rest)[pre.length]? = some f := by
          rw [List.getElem?_append_right (le_refl _)]
          simp
        simp [Entity.fieldValue, ha, hfields, this]
      obtain ⟨r1, hr1, hf1⟩ := saveRelated_returns (rank a) hs w f.value hr hsafe
        (fun t b hv => hr a pre.length t b (by rw [hval, hv]))
        (fun t k c hv => (hsafe a).2.1 pre.length t k c (by rw [hval, hv]))
      obtain ⟨w1, v1⟩ := r1
      have hev1 := saveRelated_evolves hev hr1
      have ha1 : w1.heap a = e0 := (hf1 a (lt_irrefl _)).trans ha
      obtain ⟨r, y, hrun, hra, hry, hvals⟩ := ih (pre ++ [f]) w1 (cols ++ [f.typ.db])
        (qvs ++ ["?"]) (vals ++ [v1]) hfields' ha1 (world_evolves_trans hw0 hev1)
        (ranked_of_evolves hr hev1) (allSafe_of_evolves hsafe hev1)
      rw [hlen] at hrun
      refine ⟨r, v1 :: y, ?_, hra, by simpa using hry, ?_⟩
      · simp only [h1, h2, h3, hval, hr1, ne_eq, not_true_eq_false, if_false,
          not_false_eq_true]
        exact hrun
      · intro k g hk hrel
        simp only [List.filter_cons, hins, if_true] at hk
        cases k with
        | zero =>
          simp only [List.getElem?_cons_zero, Option.some.injEq] at hk
          subst hk
          have hrel' : isRelated w f.value = false := by
            rw [isRelated_evolves hw0]
            exact hrel
          rw [saveRelated_plain save w f.value hrel'] at hr1
          simp only [Except.ok.injEq, Prod.mk.injEq] at hr1
          simp [hr1.2]
        | succ k =>
          simp only [List.getElem?_cons_succ] at hk ⊢
          exact hvals k g hk hrel
    · obtain ⟨r, y, hrun, hra, hry, hvals⟩ := ih (pre ++ [f]) w cols qvs vals hfields' ha hw0
        hr hsafe
      rw [hlen] at hrun
      refine ⟨r, y, ?_, hra, hry, ?_⟩
      · simp only [isInsertedField, Bool.and_eq_true, decide_eq_true_eq, not_and, not_not]
          at hins
        by_cases h1 : f.typ.PkgPath.length = 0
        · by_cases h2 : f.typ.db.length = 0
          · simp only [h1, h2, ne_eq, not_true_eq_false, if_false, if_true]
            exact hrun
          · have h3 := hins ⟨h1, h2⟩
            simp only [h1, h2, ne_eq, not_true_eq_false, not_false_eq_true, if_false, if_true]
            rw [if_pos h3]
            exact hrun
        · simp only [h1, ne_eq, not_false_eq_true, if_true]
          exact hrun
      · intro k g hk hrel
        simp only [List.filter_cons, hins, Bool.false_eq_true, if_false] at hk
        exact hvals k g hk hrel

theorem getInsertQuery_shape {save : World → Nat → Except Fault World}
    (hev : ∀ w b w', save w b = .ok w' → w.evolves w') (w : World) (a : Nat)
    (r : World × String × List Value) (h : getInsertQuery save w a = .ok r) :
    r.2.1 = "INSERT INTO `" ++ getTableName (w.heap a) ++ "` (" ++
        ",".intercalate (((w.heap a).fields.filter
          (fun f => isInsertedField (getPrimaryKey (w.heap a)) f.typ)).map
            (fun f => f.typ.db)) ++ ") VALUES (" ++
        ",".intercalate (((w.heap a).fields.filter
          (fun f => isInsertedField (getPrimaryKey (w.heap a)) f.typ)).map
            (fun _ => "?")) ++ ")" ∧
      r.2.2.length = ((w.heap a).fields.filter
        (fun f => isInsertedField (getPrimaryKey (w.heap a)) f.typ)).length := by
  unfold getInsertQuery at h
  simp only at h
  split at h
  · cases h
  · rename_i w1 cols qvs vals hloop
    obtain ⟨c1, c2, c3⟩ := getInsertQueryLoop_columns save a _ _ _ _ _ _ _ _ hloop
    have hev1 := getInsertQueryLoop_evolves hev a _ _ _ _ _ _ _ _ hloop
    simp only [List.nil_append, List.length_nil, zero_add] at c1 c2 c3
    simp only [Except.ok.injEq] at h
    subst h
    simp only at c1 c2 c3 hev1 ⊢
    have hf : ((w.heap a).fields.map Field.typ).filter
          (isInsertedField (getPrimaryKey (w.heap a))) =
        ((w.heap a).fields.filter
          (fun f => isInsertedField (getPrimaryKey (w.heap a)) f.typ)).map Field.typ := by
      rw [List.filter_map]
      rfl
    rw [hf] at c1 c2 c3
    simp only [List.map_map, List.length_map] at c1 c2 c3
    refine ⟨?_, c3⟩
    rw [c1, c2, Entity.evolves_tableName (hev1.1 a)]
    rfl

theorem getInsertQuery_values {rank : Nat → Nat}
    {save : World → Nat → Except Fault World} (a : Nat)
    (hev : ∀ w b w', save w b = .ok w' → w.evolves w')
    (hs : ∀ w b, w.ranked rank → (∀ c, (w.heap c).safe) → rank b < rank a →
      ∃ w', save w b = .ok w' ∧ ∀ c, c ≠ b → ¬ rank c < rank b → w'.heap c = w.heap c)
    (w : World) (hr : w.ranked rank) (hsafe : ∀ c, (w.heap c).safe) :
    ∃ w1 q vals, getInsertQuery save w a = .ok (w1, q, vals) ∧ w1.heap a = w.heap a ∧
      ∀ (k : Nat) (f : Field),
        ((w.heap a).fields.filter
          (fun f => isInsertedField (getPrimaryKey (w.heap a)) f.typ))[k]? = some f →
        isRelated w f.value = false → vals[k]? = some f.value.Interface := by
  obtain ⟨r, y, hrun, hra, hry, hvals⟩ := getInsertQueryLoop_values a hev hs
    (getPrimaryKey (w.heap a)) (w.heap a) w (w.heap a).fields [] w [] [] [] rfl rfl
    (world_evolves_refl w) hr hsafe
  obtain ⟨w1, cols, qvs, vals⟩ := r
  simp only [List.length_nil, List.nil_append] at hrun hra hry
  subst hry
  unfold getInsertQuery
  simp only
  rw [hrun]
  exact ⟨_, _, _, rfl, hra, hvals⟩

theorem ranked_pair (e0 e1 : Entity)
    (h0 : ∀ f ∈ e0.fields, f.value.pointee ≠ some 0)
    (h1 : ∀ f ∈ e1.fields, f.value.pointee = none) :
    (World.pair e0 e1).ranked (fun a => if a = 0 then 1 else 0) := by
  apply ranked_of_pointees
  intro a f hf b hb
  by_cases ha : a = 0
  · subst ha
    have hb0 : b ≠ 0 := fun hb0 => h0 f hf (hb0 ▸ hb)
    simp [hb0]
  · have hf' : f ∈ e1.fields := by simpa [World.pair, ha] using hf
    rw [h1 f hf'] at hb
    cases hb

theorem safe_pair (e0 e1 : Entity) (h0 : e0.safe) (h1 : e1.safe) (c : Nat) :
    ((World.pair e0 e1).heap c).safe := by
  by_cases hc : c = 0
  · simpa [World.pair, hc] using h0
  · simpa [World.pair, hc] using h1

/-! ## What LoadEntity returns -/

theorem LoadEntity_no_row (q : Querier) (types : String → Entity) (fuel : Nat) (w : World)
    (next a : Nat) (column : String) (value : Value)
    (h : q w.log (loadQuery (w.heap a) column value) = .err ∨
      q w.log (loadQuery (w.heap a) column value) = .rows none) :
    LoadEntity q types (fuel + 1) w next a column value =
      .ok ({ w with log := w.log ++ [loadQuery (w.heap a) column value] }, next, false) := by
  unfold LoadEntity
  simp only [loadQuery] at h ⊢
  rcases h with h | h <;> rw [h]

theorem IsValid_snapshot (e : Entity) (s : Option (List (String × Value))) :
    IsValid { e with SavedValues := s } = IsValid e := rfl

/-- Once the mapping of the first row has returned, on an entity whose `db`-tagged
fields are exported, `LoadEntity` returns: false with the world of the mapping when the
key is not valid, true after taking the snapshot when it is. -/
theorem LoadEntity_after_mapping (q : Querier) (types : String → Entity) (fuel : Nat)
    (w : World) (next a : Nat) (column : String) (value : Value)
    (row : List (String × RowValue)) (w1 : World) (next1 : Nat)
    (hq : q w.log (loadQuery (w.heap a) column value) = .rows (some row))
    (hloop : LoadEntityLoop (LoadEntity q types fuel) types a row
      { w with log := w.log ++ [loadQuery (w.heap a) column value] } next = .ok (w1, next1))
    (hx : ∀ tf ∈ (w1.heap a).fields.map Field.typ,
      isDatabaseField tf = true → tf.PkgPath.length = 0) :
    ∃ w2, LoadEntity q types (fuel + 1) w next a column value =
        .ok (w2, next1, IsValid (w1.heap a)) ∧
      (IsValid (w1.heap a) = false → w2 = w1) ∧
      (IsValid (w1.heap a) = true → ∃ m, SetSavedValuesLoop (w1.heap a).fields [] = .ok m ∧
        w2 = w1.set a { w1.heap a with SavedValues := some m }) := by
  unfold LoadEntity
  simp only [loadQuery] at hq hloop ⊢
  rw [hq]
  simp only
  rw [hloop]
  simp only
  by_cases hv : IsValid (w1.heap a) = true
  · obtain ⟨m, hm⟩ := SetSavedValuesLoop_returns (w1.heap a).fields hx []
    simp only [hv, Bool.not_true, Bool.false_eq_true, if_false, SetSavedValues, hm]
    exact ⟨_, rfl, fun h => Bool.noConfusion h, fun _ => ⟨m, rfl, rfl⟩⟩
  · simp only [Bool.not_eq_true] at hv
    simp only [hv, Bool.not_false, if_true]
    exact ⟨_, rfl, fun _ => rfl, fun h => Bool.noConfusion h⟩

theorem getFieldForDbColumn_congr (e e' : Entity)
    (h : e'.fields.map Field.typ = e.fields.map Field.typ) (column : String) :
    getFieldForDbColumn e' column = getFieldForDbColumn e column := by
  simp [getFieldForDbColumn, h]

theorem alike_refl (e : Entity) : e.alike e := ⟨rfl, fun _ => rfl⟩

theorem alike_trans {e1 e2 e3 : Entity} (h1 : e1.alike e2) (h2 : e2.alike e3) :
    e1.alike e3 :=
  ⟨h2.1.trans h1.1, fun i => (h2.2 i).trans (h1.2 i)⟩

theorem alike_SetField (e : Entity) (i : Nat) (v : Value)
    (h : v.loadKind = (e.fieldValue i).loadKind) : e.alike (e.SetField i v) := by
  refine ⟨SetField_typ e i v, fun j => ?_⟩
  rw [SetField_fieldValue]
  split
  · rename_i hij
    obtain ⟨rfl, _⟩ := hij
    exact h
  · rfl

theorem plainColumn_alike {e e' : Entity} (h : e.alike e') (cv : String × RowValue) :
    plainColumn e' cv = plainColumn e cv := by
  unfold plainColumn
  rw [getFieldForDbColumn_congr e e' h.1]
  cases getFieldForDbColumn e cv.1 with
  | none => rfl
  | some i => simp only [h.2 i]

/-- A plain column is mapped without a panic and without a nested load. -/
theorem setInterfaceToFieldValue_plain
    (load : World → Nat → Nat → String → Value → Except Fault (World × Nat × Bool))
    (types : String → Entity) (w : World) (next a : Nat) (cv : String × RowValue)
    (h : plainColumn (w.heap a) cv = true) :
    ∃ w1, setInterfaceToFieldValue load types w next a
        (getFieldForDbColumn (w.heap a) cv.1) cv.2 = .ok (w1, next) ∧
      (w.heap a).alike (w1.heap a) := by
  unfold plainColumn at h
  cases hf : getFieldForDbColumn (w.heap a) cv.1 with
  | none => simp [hf] at h
  | some i =>
    simp only [hf] at h
    unfold setInterfaceToFieldValue
    simp only
    cases hv : (w.heap a).fieldValue i with
    | nil => simp [hv, Value.loadKind] at h
    | uint k n => simp [hv, Value.loadKind] at h
    | bool b => simp [hv, Value.loadKind] at h
    | struct t k c => simp [hv, Value.loadKind] at h
    | other k t c => simp [hv, Value.loadKind] at h
    | iface v => simp [hv, Value.loadKind] at h
    | int k old =>
      cases k <;> simp only [hv, Value.loadKind] at h <;> try (simp at h)
      cases hc : cv.2 <;> simp only [hc] at h <;> try (simp at h)
      rename_i n
      simp only [setValue]
      refine ⟨_, rfl, ?_⟩
      rw [World.set_heap_same]
      exact alike_SetField _ _ _ (by rw [hv]; rfl)
    | str s =>
      cases hc : cv.2
      case bytes strVal =>
        simp only
        refine ⟨_, rfl, ?_⟩
        rw [World.set_heap_same]
        exact alike_SetField _ _ _ (by rw [hv]; rfl)
      all_goals exact ⟨_, rfl, alike_refl _⟩
    | ptr elem ad =>
      cases hc : cv.2 <;> simp only [hv, hc, Value.loadKind] at h <;> try (simp at h)
      exact ⟨_, rfl, alike_refl _⟩

theorem LoadEntityLoop_plain
    (load : World → Nat → Nat → String → Value → Except Fault (World × Nat × Bool))
    (types : String → Entity) (a : Nat) (next : Nat) :
    ∀ (row : List (String × RowValue)) (w : World),
      (∀ cv ∈ row, plainColumn (w.heap a) cv = true) →
      ∃ w1, LoadEntityLoop load types a row w next = .ok (w1, next) ∧
        (w.heap a).alike (w1.heap a) := by
  intro row
  induction row with
  | nil => intro w _; exact ⟨w, rfl, alike_refl _⟩
  | cons cv rest ih =>
    intro w h
    obtain ⟨w1, h1, ha1⟩ := setInterfaceToFieldValue_plain load types w next a cv
      (h cv (List.mem_cons_self _ _))
    obtain ⟨w2, h2, ha2⟩ := ih w1 (fun cv' hcv' => by
      rw [plainColumn_alike ha1]
      exact h cv' (List.mem_cons_of_mem _ hcv'))
    refine ⟨w2, ?_, alike_trans ha1 ha2⟩
    obtain ⟨column, value⟩ := cv
    unfold LoadEntityLoop
    simp only at h1
    rw [h1]
    exact h2

/-- What `LoadEntity` answers once the mapping of the first row has returned, on an
entity whose `db`-tagged fields are exported. -/
theorem LoadEntity_mapped (q : Querier) (types : String → Entity) (fuel : Nat)
    (w : World) (next a : Nat) (column : String) (value : Value)
    (row : List (String × RowValue)) (w1 : World) (next1 : Nat)
    (hq : q w.log (loadQuery (w.heap a) column value) = .rows (some row))
    (hloop : LoadEntityLoop (LoadEntity q types fuel) types a row
      { w with log := w.log ++ [loadQuery (w.heap a) column value] } next = .ok (w1, next1))
    (hx : ∀ tf ∈ (w1.heap a).fields.map Field.typ,
      isDatabaseField tf = true → tf.PkgPath.length = 0) :
    ∃ w2 b, LoadEntity q types (fuel + 1) w next a column value = .ok (w2, next1, b) ∧
      (∀ p, getPrimaryValue (w1.heap a) = Value.int IntKind.Int64 p → (b = true ↔ p ≠ 0)) ∧
      (∀ n, getPrimaryValue (w1.heap a) = Value.uint UintKind.Uint64 n →
        (b = true ↔ n ≠ 0)) ∧
      (getPrimaryType (w1.heap a) = none → b = false) ∧
      (b = false → w2 = w1) ∧
      (b = true → ∃ m, w2.heap a = { w1.heap a with SavedValues := some m } ∧
        ((persistedNames (w1.heap a)).Nodup →
          (∀ f ∈ (w1.heap a).fields, isDatabaseField f.typ = true →
            m.lookup f.typ.Name = some f.value.Interface) ∧
          ((∀ f ∈ (w1.heap a).fields, isDatabaseField f.typ = true →
              f.value.Interface.selfEqual = true) →
            getChangedFieldNames (w2.heap a) = .ok []))) := by
  obtain ⟨w2, hrun, hfalse, htrue⟩ :=
    LoadEntity_after_mapping q types fuel w next a column value row w1 next1 hq hloop hx
  refine ⟨w2, IsValid (w1.heap a), hrun, ?_, ?_, ?_, hfalse, ?_⟩
  · intro p hp
    rw [IsValid_int64 _ _ hp]
    simp
  · intro n hn
    simp [IsValid, hn]
  · intro hnone
    simp [IsValid, getPrimaryValue, hnone]
  · intro hv
    obtain ⟨m, hm, hw2⟩ := htrue hv
    refine ⟨m, by rw [hw2, World.set_heap_same], fun hnd => ⟨?_, fun hself => ?_⟩⟩
    · exact (SetSavedValuesLoop_ok _ _ _ hm).2.2 hnd
    · rw [hw2, World.set_heap_same]
      exact getChangedFieldNames_after_snapshot (w1.heap a) m hm hnd hself

/-- A first row of plain columns is mapped, whatever the fuel, and leaves the struct
type as it was. -/
theorem LoadEntityLoop_plain_typ (q : Querier) (types : String → Entity) (fuel : Nat)
    (w : World) (next a : Nat) (column : String) (value : Value)
    (row : List (String × RowValue))
    (hplain : ∀ cv ∈ row, plainColumn (w.heap a) cv = true) :
    ∃ w1, LoadEntityLoop (LoadEntity q types fuel) types a row
        { w with log := w.log ++ [loadQuery (w.heap a) column value] } next = .ok (w1, next) ∧
      (w1.heap a).fields.map Field.typ = (w.heap a).fields.map Field.typ := by
  obtain ⟨w1, h1, ha1⟩ := LoadEntityLoop_plain (LoadEntity q types fuel) types a next row
    { w with log := w.log ++ [loadQuery (w.heap a) column value] } hplain
  exact ⟨w1, h1, ha1.1⟩

/-! ## The claims -/

/-- C1 (the code departs from the claim): `Save` of `testEntity{TestId: 0, Name: "Jake"}`
through the mock, whose `LastInsertId` is 1, returns after one `Exec` call, the INSERT,
and `TestId` is still 0: `setPrimary` has no body for the kind `int`. -/
theorem C1_Save_testEntity_leaves_TestId_zero :
    (Save mockDb 1 (World.single (testEntity 0 "Jake" 5 0)) 0).toOption.map
        (fun w => (w.log.map Call.query, getPrimaryValue (w.heap 0))) =
      some (["INSERT INTO `test` (name,time_added,time_current) VALUES (?,?,?)"],
        Value.int IntKind.Int 0) := by
  decide

/-- C2 (the code departs from the claim): `IsValid` is false on a `testEntity` whose
`int` primary key is 60, and on the same key held as `int32` or `uint16`: only the
kinds `Int64` and `Uint64` have a body in the switch. -/
theorem C2_IsValid_false_on_nonzero_int_primary :
    IsValid (testEntity 60 "Majkl" 0 0) = false ∧
    IsValid { tagEntity 0 with
      fields := [⟨exportedField "Id" "id" "true", Value.int IntKind.Int32 60⟩] } = false ∧
    IsValid { tagEntity 0 with
      fields := [⟨exportedField "Id" "id" "true", Value.uint UintKind.Uint16 60⟩] } = false := by
  decide

/-- C3, counterexample. First, a fresh `extended64Entity` whose `TestPtr` refers to a
fresh `test64Entity`, both with an `int64` primary key 0 and no snapshot, saved twice
through the mock: the first `Save` calls `Exec` twice, for the related entity and then
for the entity, the second not at all, which makes two calls over the two Saves.
Second, a fresh `tagEntity`, which has no column to insert: no call at all over the
two Saves. Third, a fresh `scoreEntity` whose `Score` is a NaN: the second `Save` finds
`Score` changed, a NaN differing from itself, and executes an UPDATE. -/
theorem C3_counterexample_cascade_calls_Exec_twice :
    getPrimaryValue ((World.pair (extended64Entity 0 (some 1) 7 0)
        (test64Entity 0 "Majkl" 0 0)).heap 0) = Value.int IntKind.Int64 0 ∧
      ((World.pair (extended64Entity 0 (some 1) 7 0)
        (test64Entity 0 "Majkl" 0 0)).heap 0).SavedValues = none ∧
      (Save mockDb 2 (World.pair (extended64Entity 0 (some 1) 7 0)
          (test64Entity 0 "Majkl" 0 0)) 0).toOption.map (fun w => w.log.map Call.query) =
        some ["INSERT INTO `test` (name,time_added,time_current) VALUES (?,?,?)",
          "INSERT INTO `extended` (test_ptr_id,time_added,time_current) VALUES (?,?,?)"] ∧
      ((Save mockDb 2 (World.pair (extended64Entity 0 (some 1) 7 0)
          (test64Entity 0 "Majkl" 0 0)) 0).bind (fun w1 => Save mockDb 2 w1 0)).toOption.map
          (fun w => w.log.length) = some 2 ∧
      ((Save mockDb 1 (World.single (tagEntity 0)) 0).bind
          (fun w1 => Save mockDb 1 w1 0)).toOption.map (fun w => w.log.length) = some 0 ∧
      ((Save mockDb 1 (World.single (scoreEntity 0 Content.nan)) 0).bind
          (fun w1 => Save mockDb 1 w1 0)).toOption.map (fun w => w.log.map Call.query) =
        some ["INSERT INTO `score` (score) VALUES (?)",
          "UPDATE `score` SET `score` = ? WHERE `id` = 1"] := by
  decide

/-- C3 (amended): for an entity with an `int64` primary key 0, persisted fields named
distinctly and holding values that equal themselves (no NaN, no slice, map or function),
and at least one field to insert, and an executor whose `Exec` always succeeds with the
generated id `N ≠ 0`: once the first `Save` has returned, the second finds no changed
field and returns the world unchanged, so it executes no statement; and when every
persisted field is exported and none of the inserted fields is a related entity, the
first `Save` returns after exactly one `Exec` call. -/
theorem C3_second_Save_executes_nothing (ex : Executor) (N : Int) (fuel fuel' : Nat)
    (w : World) (a : Nat)
    (hN : N ≠ 0) (hex : ∀ h c, ex h c = ExecResult.ok (some N))
    (hp : getPrimaryValue (w.heap a) = Value.int IntKind.Int64 0)
    (hnd : (persistedNames (w.heap a)).Nodup)
    (hself : ∀ f ∈ (w.heap a).fields, isDatabaseField f.typ = true →
      f.value.Interface.selfEqual = true)
    (hins : ∃ f ∈ (w.heap a).fields,
      isInsertedField (getPrimaryKey (w.heap a)) f.typ = true) :
    (∀ w1, Save ex fuel w a = Except.ok w1 →
        getChangedFieldNames (w1.heap a) = Except.ok [] ∧
          Save ex (fuel' + 1) w1 a = Except.ok w1) ∧
      ((∀ f ∈ (w.heap a).fields, isDatabaseField f.typ = true → f.typ.PkgPath.length = 0) →
        (∀ f ∈ (w.heap a).fields, isInsertedField (getPrimaryKey (w.heap a)) f.typ = true →
          isRelated w f.value = false) →
        ∃ w1 c, Save ex (fuel + 1) w a = Except.ok w1 ∧ w1.log = w.log ++ [c]) := by
  refine ⟨fun w1 h1 => Save_again_noop ex N fuel fuel' w w1 a hN hex hp hnd hself hins h1,
    fun hexp hplain => ?_⟩
  obtain ⟨w1, q, h1, hlog⟩ := Save_plain_insert ex fuel w a
    (by rw [IsValid_int64 _ _ hp]; rfl)
    (by
      intro tf htf
      obtain ⟨f, hf, rfl⟩ := List.mem_map.1 htf
      exact hexp f hf)
    hins hplain (by intro h c; rw [hex]; exact fun h => by cases h)
  exact ⟨w1, _, h1, hlog⟩

/-- C3, witness: `test64Entity{TestId: 0, Name: "Jake"}` saved twice through the mock. -/
theorem C3_witness :
    (∃ w1, Save mockDb 1 (World.single (test64Entity 0 "Jake" 5 0)) 0 = Except.ok w1 ∧
        getChangedFieldNames (w1.heap 0) = Except.ok [] ∧
          Save mockDb 1 w1 0 = Except.ok w1) ∧
      ∃ w1 c, Save mockDb 2 (World.single (test64Entity 0 "Jake" 5 0)) 0 = Except.ok w1 ∧
        w1.log = (World.single (test64Entity 0 "Jake" 5 0)).log ++ [c] :=
  ⟨⟨_, rfl, (C3_second_Save_executes_nothing mockDb 1 1 0
      (World.single (test64Entity 0 "Jake" 5 0)) 0
      (by decide) (fun _ _ => rfl) (by decide) (by decide) (by decide) (by decide)).1 _ rfl⟩,
    (C3_second_Save_executes_nothing mockDb 1 1 0
      (World.single (test64Entity 0 "Jake" 5 0)) 0
      (by decide) (fun _ _ => rfl) (by decide) (by decide) (by decide) (by decide)).2
      (by decide) (by decide)⟩

/-- C4, counterexample: `accountEntity` has a persisted (`db`-tagged) field `token`
whose value differs from the snapshot, and `getChangedFieldNames` returns no name: the
field is unexported and the loop skips it. -/
theorem C4_counterexample_unexported_field :
    (accountEntity.fields.filter (fun f => isDatabaseField f.typ &&
        (savedValue accountEntity.SavedValues f.typ.Name != f.value))).map
        (fun f => f.typ.Name) = ["token"] ∧
      accountEntity.SavedValues ≠ none ∧
      getChangedFieldNames accountEntity = Except.ok [] := by
  decide

/-- C4 (amended): when every comparison it makes is defined (no exported persisted field
holds a slice, a map, a function or a struct with one inside while the snapshot stores a
value of that same type), `getChangedFieldNames` returns the names of the exported
persisted fields whose value differs, under `!=`, from the one the snapshot stores under
their name (the nil interface when it stores none), in declaration order; each name once
when the field names are distinct; and, for a snapshot that matched the entity, exactly
the names of the exported persisted fields whose value was changed afterwards. -/
theorem C4_getChangedFieldNames_exported (e : Entity) :
    ((∀ f ∈ e.fields, f.typ.PkgPath.length = 0 → isDatabaseField f.typ = true →
          interfaceNe (savedValue e.SavedValues f.typ.Name) f.value.Interface ≠ none) →
        getChangedFieldNames e =
          Except.ok ((e.fields.filter (fun f => decide (f.typ.PkgPath.length = 0) &&
            isDatabaseField f.typ &&
              (interfaceNe (savedValue e.SavedValues f.typ.Name) f.value.Interface ==
                some true))).map (fun f => f.typ.Name))) ∧
      (∀ names, getChangedFieldNames e = Except.ok names →
        (e.fields.map (fun f => f.typ.Name)).Nodup → names.Nodup) ∧
      ∀ e' : Entity, e'.SavedValues = e.SavedValues →
        e'.fields.map Field.typ = e.fields.map Field.typ →
        getChangedFieldNames e = Except.ok [] →
        (∀ f ∈ e'.fields, f.typ.PkgPath.length = 0 → isDatabaseField f.typ = true →
          interfaceNe (savedValue e'.SavedValues f.typ.Name) f.value.Interface ≠ none) →
        getChangedFieldNames e' =
          Except.ok (((e.fields.zip e'.fields).filter (fun p =>
            decide (p.2.typ.PkgPath.length = 0) && isDatabaseField p.2.typ &&
              (interfaceNe p.1.value.Interface p.2.value.Interface == some true))).map
            (fun p => p.2.typ.Name)) := by
  have hcmp : ∀ x : Entity,
      (∀ f ∈ x.fields, f.typ.PkgPath.length = 0 → isDatabaseField f.typ = true →
        interfaceNe (savedValue x.SavedValues f.typ.Name) f.value.Interface ≠ none) →
      ∀ f ∈ x.fields, isComparedField x.SavedValues f = true := by
    intro x hx f hf
    unfold isComparedField
    by_cases h1 : f.typ.PkgPath.length = 0
    · by_cases h2 : isDatabaseField f.typ = true
      · have := hx f hf h1 h2
        simp only [h1, h2, decide_True, Bool.and_self, Bool.not_true, Bool.false_or]
        exact Option.isSome_iff_ne_none.2 this
      · simp [h2]
    · simp [h1]
  refine ⟨fun h => ?_, fun names hn hnd => ?_, fun e' hs ht hnil h' => ?_⟩
  · rw [getChangedFieldNames_eq e (hcmp e h)]
    rfl
  · rw [(getChangedFieldNames_ok e names hn).2]
    exact List.Nodup.sublist (List.Sublist.map _ (List.filter_sublist _)) hnd
  · rw [getChangedFieldNames_eq e' (hcmp e' h'), hs]
    congr 1
    exact filter_changed_of_matching _ _ _ ht ((getChangedFieldNames_eq_nil_iff e).1 hnil)

/-- C4, witness: the saved `test64Entity` after `TimeCurrent` and then `Name` were
changed, as in `TestLoadUpdateEntity`: first one name, then two. -/
theorem C4_witness :
    getChangedFieldNames (savedTest64Entity "Jake" 9) = Except.ok ["TimeCurrent"] ∧
      getChangedFieldNames (savedTest64Entity "Majkl" 9) =
        Except.ok ["Name", "TimeCurrent"] :=
  ⟨((C4_getChangedFieldNames_exported (savedTest64Entity "Jake" 0)).2.2
      (savedTest64Entity "Jake" 9) rfl rfl (by decide) (by decide)).trans (by decide),
    ((C4_getChangedFieldNames_exported (savedTest64Entity "Jake" 0)).2.2
      (savedTest64Entity "Majkl" 9) rfl rfl (by decide) (by decide)).trans (by decide)⟩

/-- C5, counterexample: a fresh `scoreEntity` whose `Score` is a NaN, saved through the
mock. `Save` returns after the INSERT, and the snapshot stores the NaN under `Score`;
but `getChangedFieldNames` called right after returns `Score`, a NaN differing from
itself under `!=`. -/
theorem C5_counterexample_NaN_field :
    (Save mockDb 1 (World.single (scoreEntity 0 Content.nan)) 0).toOption.map
        (fun w => (w.log.map Call.query, (w.heap 0).SavedValues,
          getChangedFieldNames (w.heap 0))) =
      some (["INSERT INTO `score` (score) VALUES (?)"],
        some [("Score", Value.other OtherKind.float64 "float64" Content.nan),
          ("Id", Value.int IntKind.Int64 1)],
        Except.ok ["Score"]) := by
  decide

/-- C5 (amended): on an acyclic heap of safe entities, when every `Exec` succeeds and the
persisted fields of the entity are named distinctly and hold values that equal themselves
(no NaN), `Save` returns once the fuel exceeds the entity's rank; and if it called
`Exec`, it left the entity with a snapshot that maps the name of every persisted field
to the field's current value, and `getChangedFieldNames` then returns no name. -/
theorem C5_Save_refreshes_snapshot (ex : Executor) (rank : Nat → Nat) (fuel : Nat)
    (w : World) (a : Nat)
    (hex : ∀ h c, ex h c ≠ ExecResult.err)
    (hr : w.ranked rank) (hsafe : ∀ c, (w.heap c).safe) (hfuel : rank a < fuel)
    (hnd : (persistedNames (w.heap a)).Nodup)
    (hself : ∀ f ∈ (w.heap a).fields, isDatabaseField f.typ = true →
      f.value.Interface.selfEqual = true) :
    ∃ w', Save ex fuel w a = Except.ok w' ∧
      (w'.log ≠ w.log →
        ∃ m, (w'.heap a).SavedValues = some m ∧
          (∀ f ∈ (w'.heap a).fields, isDatabaseField f.typ = true →
            m.lookup f.typ.Name = some f.value.Interface) ∧
          getChangedFieldNames (w'.heap a) = Except.ok []) := by
  obtain ⟨w', hsave, _⟩ := Save_returns ex rank fuel w a hr hsafe hfuel
  refine ⟨w', hsave, fun hlog => ?_⟩
  cases fuel with
  | zero => simp [Save] at hsave
  | succ n =>
    unfold Save at hsave
    split at hsave
    · cases hsave
    · rename_i w1 q data hb
      have hev := buildQuery_evolves (Save_evolves ex n) hb
      by_cases hd : data = []
      · exfalso
        have hw1 : w1 = w := buildQuery_nil _ _ _ _ hb hd
        subst hd
        simp only [execQuery, List.length_nil, if_true, Except.ok.injEq] at hsave
        apply hlog
        rw [← hsave, hw1]
      · cases hres : ex w1.log ⟨q, data⟩ with
        | err => exact absurd hres (hex _ _)
        | ok res =>
          obtain ⟨e3, m, he3, _, _, hm, hheap, _, _⟩ :=
            execQuery_ok ex a w1 w' q data res hd hres hsave
          have htyp : e3.fields.map Field.typ = (w.heap a).fields.map Field.typ :=
            he3.2.1.trans (hev.1 a).2.1
          have hnd3 : (persistedNames e3).Nodup := by
            rw [persistedNames_congr _ e3 htyp]
            exact hnd
          refine ⟨m, by rw [hheap], ?_, ?_⟩
          · rw [hheap]
            exact (SetSavedValuesLoop_ok _ _ _ hm).2.2 hnd3
          · rw [hheap]
            exact getChangedFieldNames_after_snapshot e3 m hm hnd3
              (allSelfEqual_of_evolves (entity_evolves_trans (hev.1 a) he3) hself)

/-- C5, witness: `test64Entity{TestId: 0, Name: "Jake"}` saved through the mock. -/
theorem C5_witness :
    ∃ w', Save mockDb 1 (World.single (test64Entity 0 "Jake" 5 0)) 0 = Except.ok w' ∧
      (w'.log ≠ (World.single (test64Entity 0 "Jake" 5 0)).log →
        ∃ m, (w'.heap 0).SavedValues = some m ∧
          (∀ f ∈ (w'.heap 0).fields, isDatabaseField f.typ = true →
            m.lookup f.typ.Name = some f.value.Interface) ∧
          getChangedFieldNames (w'.heap 0) = Except.ok []) :=
  C5_Save_refreshes_snapshot mockDb (fun _ => 0) 1 (World.single (test64Entity 0 "Jake" 5 0)) 0
    (by intro h c; simp [mockDb]) (ranked_single _ _ (by decide))
    (fun _ => safe_of_fields (test64Entity 0 "Jake" 5 0) (by decide) (by decide) (by decide)
      (by decide))
    (by decide) (by decide) (by decide)

/-- C6, counterexample. First, an `extended64Entity` with primary key 5 and a snapshot
taken when `TestPtr` was nil, whose `TestPtr` now refers to a fresh `test64Entity`:
`Save` executes two statements, the INSERT of the related entity and then the UPDATE,
and the value bound to `test_ptr_id` is the related entity's key 1, not the pointer the
field holds. Second, `accountEntity`, whose only differing persisted field is
unexported: `Save` executes no statement. -/
theorem C6_counterexample_cascade_and_unexported :
    (Save mockDb 2 (World.pair
        { extended64Entity 5 (some 1) 7 0 with
          SavedValues := some [("Id", Value.int IntKind.Int64 5),
            ("TestPtr", Value.ptr "testEntity" none),
            ("TimeAdded", Value.struct "time.Time" "" 7),
            ("TimeCurrent", Value.struct "time.Time" "" 0)] }
        (test64Entity 0 "Majkl" 0 0)) 0).toOption.map (fun w => w.log) =
      some [⟨"INSERT INTO `test` (name,time_added,time_current) VALUES (?,?,?)",
          [Value.str "Majkl", Value.struct "time.Time" "" 0, Value.struct "time.Time" "" 0]⟩,
        ⟨"UPDATE `extended` SET `test_ptr_id` = ? WHERE `id` = 5",
          [Value.int IntKind.Int64 1]⟩] ∧
      IsValid accountEntity = true ∧
      (accountEntity.fields.filter (fun f => isDatabaseField f.typ &&
        (savedValue accountEntity.SavedValues f.typ.Name != f.value))).length = 1 ∧
      (Save mockDb 1 (World.single accountEntity) 0).toOption.map (fun w => w.log) =
        some [] := by
  decide

/-- C6 (amended): for an entity with a nonzero `int64` primary key `p`, a snapshot,
distinct field names, at least one exported persisted field that differs from the
snapshot and no related entity among the differing fields, `Save` logs exactly one
`Exec` call: the UPDATE on the entity's table whose SET list holds the columns of the
exported persisted fields that differ from the snapshot, in declaration order, with
those fields' current values bound in the same order, and `WHERE` comparing the primary
column to the literal `p`. -/
theorem C6_Save_updates_changed_columns (ex : Executor) (fuel : Nat) (w : World) (a : Nat)
    (p : Int) (m : List (String × Value)) (names : List String)
    (hp : getPrimaryValue (w.heap a) = Value.int IntKind.Int64 p) (hp0 : p ≠ 0)
    (hs : (w.heap a).SavedValues = some m)
    (hnd : ((w.heap a).fields.map (fun f => f.typ.Name)).Nodup)
    (hnames : getChangedFieldNames (w.heap a) = Except.ok names) (hchanged : names ≠ [])
    (hplain : ∀ f ∈ (w.heap a).fields,
      isChangedField (some m) f = true → isRelated w f.value = false) :
    ∃ w', finalWorld (Save ex (fuel + 1) w a) = some w' ∧
      w'.log = w.log ++
        [⟨"UPDATE `" ++ getTableName (w.heap a) ++ "` SET " ++
            ",".intercalate (((w.heap a).fields.filter (fun f =>
              decide (f.typ.PkgPath.length = 0) && isDatabaseField f.typ &&
                (interfaceNe (savedValue (some m) f.typ.Name) f.value.Interface ==
                  some true))).map
              (fun f => "`" ++ f.typ.db ++ "` = ?")) ++
            " WHERE `" ++ getPrimaryKey (w.heap a) ++ "` = " ++ toString p,
          ((w.heap a).fields.filter (fun f =>
              decide (f.typ.PkgPath.length = 0) && isDatabaseField f.typ &&
                (interfaceNe (savedValue (some m) f.typ.Name) f.value.Interface ==
                  some true))).map (fun f => f.value.Interface)⟩] :=
  Save_plain_update ex fuel w a p m names hp hp0 hs hnd hnames hchanged hplain

/-- C6, witness: a saved `test64Entity` with key 1 whose `Name` was changed from "Jake"
to "Majkl". -/
theorem C6_witness :
    ∃ w', finalWorld (Save mockDb 1 (World.single (savedTest64Entity "Majkl" 0)) 0) = some w' ∧
      w'.log = [⟨"UPDATE `test` SET `name` = ? WHERE `test_id` = 1", [Value.str "Majkl"]⟩] :=
  C6_Save_updates_changed_columns mockDb 0 (World.single (savedTest64Entity "Majkl" 0)) 0 1 _
    ["Name"] (by decide) (by decide) rfl (by decide) (by decide) (by decide) (by decide)

/-- C7: when `Save` has nothing to bind, the world it leaves is the world it found: no
`Exec` call, no field and no snapshot touched. This holds whenever the builder returns
an empty argument list, and in the two cases of the claim: on the insert path no field
that `getInsertQuery` lists, on the update path no changed field. `Save` returns
normally unless the primary key is a `uint64` (the update path then panics on
`Value.Int`, after having changed nothing). -/
theorem C7_Save_nothing_to_bind (ex : Executor) (fuel : Nat) (w : World) (a : Nat) :
    (∀ w1 q, buildQuery (Save ex fuel) w a = Except.ok (w1, q, []) →
        Save ex (fuel + 1) w a = Except.ok w) ∧
      ((((IsValid (w.heap a) = false ∨ (w.heap a).SavedValues = none) ∧
            ∀ f ∈ (w.heap a).fields,
              isInsertedField (getPrimaryKey (w.heap a)) f.typ = false) ∨
          (IsValid (w.heap a) = true ∧ (w.heap a).SavedValues ≠ none ∧
            getChangedFieldNames (w.heap a) = Except.ok [])) →
        finalWorld (Save ex (fuel + 1) w a) = some w ∧
          ((∀ n, getPrimaryValue (w.heap a) ≠ Value.uint UintKind.Uint64 n) →
            Save ex (fuel + 1) w a = Except.ok w)) :=
  ⟨fun w1 q hb => Save_empty_data ex fuel w a w1 q hb,
    fun h => Save_nothing_to_bind ex fuel w a h⟩

/-- C7, witness: `tagEntity{Id: 0}` has nothing to insert, and a saved `test64Entity`
that was not changed has nothing to update. -/
theorem C7_witness :
    Save mockDb 1 (World.single (tagEntity 0)) 0 = Except.ok (World.single (tagEntity 0)) ∧
      Save mockDb 1 (World.single (savedTest64Entity "Jake" 0)) 0 =
        Except.ok (World.single (savedTest64Entity "Jake" 0)) :=
  ⟨((C7_Save_nothing_to_bind mockDb 0 (World.single (tagEntity 0)) 0).2
      (Or.inl ⟨Or.inl (by decide), by decide⟩)).2 (fun n h => by cases h),
    ((C7_Save_nothing_to_bind mockDb 0 (World.single (savedTest64Entity "Jake" 0)) 0).2
      (Or.inr ⟨by decide, by decide, by decide⟩)).2 (fun n h => by cases h)⟩

/-- C8, counterexample: a `nodeEntity` whose `Parent` points to itself, saved through an
executor that always fails. `Save` recurses into the same entity before it reaches
`Exec`: with whatever fuel, it has not returned. -/
theorem C8_counterexample_relation_cycle :
    getPrimaryValue ((World.single (nodeEntity 0 (some 0))).heap 0) = Value.int IntKind.Int64 0 ∧
      ∀ fuel, Save failingDb fuel (World.single (nodeEntity 0 (some 0))) 0 =
        Except.error Fault.fuel := by
  refine ⟨by decide, fun fuel => ?_⟩
  induction fuel with
  | zero => rfl
  | succ n ih =>
    have hv : IsValid ((World.single (nodeEntity 0 (some 0))).heap 0) = false := by decide
    have hpk : getPrimaryKey ((World.single (nodeEntity 0 (some 0))).heap 0) = "id" := by decide
    have hf : ((World.single (nodeEntity 0 (some 0))).heap 0).fields.map Field.typ =
        [exportedField "Id" "id" "true", exportedField "Parent" "parent_id" ""] := by decide
    have hval : ((World.single (nodeEntity 0 (some 0))).heap 0).fieldValue 1 =
        Value.ptr "nodeEntity" (some 0) := by decide
    unfold Save buildQuery getInsertQuery
    simp only [hv, Bool.not_false, Bool.true_or, if_true, hpk, hf]
    unfold getInsertQueryLoop
    have e1 : (exportedField "Id" "id" "true").PkgPath.length = 0 := by decide
    have e2 : ¬ (exportedField "Id" "id" "true").db.length = 0 := by decide
    have e3 : (exportedField "Id" "id" "true").db = "id" := by decide
    simp only [e1, e2, e3, ne_eq, not_true_eq_false, if_false, if_true]
    unfold getInsertQueryLoop
    have g1 : (exportedField "Parent" "parent_id" "").PkgPath.length = 0 := by decide
    have g2 : ¬ (exportedField "Parent" "parent_id" "").db.length = 0 := by decide
    have g3 : ¬ (exportedField "Parent" "parent_id" "").db = "id" := by decide
    simp only [g1, g2, g3, ne_eq, not_true_eq_false, if_false, zero_add, hval]
    unfold saveRelated
    have hk : getPrimaryKey ((World.single (nodeEntity 0 (some 0))).heap 0) ≠ "" := by decide
    simp only [hk, ne_eq, not_false_eq_true, if_true, ih, ite_self]

/-- C8 (amended): on a heap whose relation graph is acyclic and whose entities are safe
from the panics of `SetSavedValues`, `mustBePtr`, `Value.Int` and the comparison of
`getChangedFieldNames`, when `Exec` returns an error for every statement on the entity's
table, `Save` returns normally once the fuel exceeds the entity's rank, and the entity
is exactly what it was: snapshot, primary key and every other field. -/
theorem C8_Save_exec_error_keeps_entity (ex : Executor) (rank : Nat → Nat) (fuel : Nat)
    (w : World) (a : Nat)
    (hr : w.ranked rank) (hsafe : ∀ c, (w.heap c).safe) (hfuel : rank a < fuel)
    (hex : ∀ h c, isStatementOn (getTableName (w.heap a)) c.query → ex h c = ExecResult.err) :
    ∃ w', Save ex fuel w a = Except.ok w' ∧ w'.heap a = w.heap a := by
  cases fuel with
  | zero => cases hfuel
  | succ n =>
    have hs : ∀ w b, w.ranked rank → (∀ c, (w.heap c).safe) → rank b < rank a →
        ∃ w', Save ex n w b = .ok w' ∧
          ∀ c, c ≠ b → ¬ rank c < rank b → w'.heap c = w.heap c :=
      fun w b hr hsafe hb => Save_returns ex rank n w b hr hsafe (by omega)
    obtain ⟨r, hb, hf⟩ := buildQuery_returns a (Save_evolves ex n) hs w hr hsafe
    have hstmt := buildQuery_statement _ _ _ _ hb
    obtain ⟨w1, q, data⟩ := r
    have ha : w1.heap a = w.heap a := hf a (lt_irrefl _)
    simp only at hstmt
    rw [ha] at hstmt
    unfold Save
    rw [hb]
    simp only
    unfold execQuery
    split
    · exact ⟨_, rfl, ha⟩
    · simp only [hex w1.log ⟨q, data⟩ hstmt]
      exact ⟨_, rfl, ha⟩

/-- C8, witness: a `nodeEntity` without parent, saved through the failing executor. -/
theorem C8_witness :
    ∃ w', Save failingDb 1 (World.single (nodeEntity 0 none)) 0 = Except.ok w' ∧
      w'.heap 0 = (World.single (nodeEntity 0 none)).heap 0 :=
  C8_Save_exec_error_keeps_entity failingDb (fun _ => 0) 1 (World.single (nodeEntity 0 none)) 0
    (ranked_single _ _ (by decide))
    (fun _ => safe_of_fields (nodeEntity 0 none) (by decide) (by decide) (by decide)
      (by decide))
    (by decide) (fun _ _ _ => rfl)

/-- C9, counterexample: a `nodeEntity` with key 5 and a snapshot, whose `Parent` was set
to the entity itself. `IsValid` holds and `SavedValues` is non-nil, yet no UPDATE is
built: `Parent` counts as changed, and binding it saves the entity it points to, which
is the entity being saved; with whatever fuel, neither the builder nor `Save` has
returned. -/
theorem C9_counterexample_cycle_builds_nothing :
    IsValid ((World.single selfParentEntity).heap 0) = true ∧
      ((World.single selfParentEntity).heap 0).SavedValues ≠ none ∧
      getChangedFieldNames ((World.single selfParentEntity).heap 0) = Except.ok ["Parent"] ∧
      ∀ fuel, Save mockDb fuel (World.single selfParentEntity) 0 = Except.error Fault.fuel ∧
        buildQuery (Save mockDb fuel) (World.single selfParentEntity) 0 =
          Except.error Fault.fuel := by
  have hv : IsValid ((World.single selfParentEntity).heap 0) = true := by decide
  have hsv : ((World.single selfParentEntity).heap 0).SavedValues.isNone = false := by decide
  have hch : getChangedFieldNames ((World.single selfParentEntity).heap 0) =
      Except.ok ["Parent"] := by decide
  have hfn : ((World.single selfParentEntity).heap 0).FieldByName "Parent" =
      some ⟨exportedField "Parent" "parent_id" "", Value.ptr "nodeEntity" (some 0)⟩ := by
    decide
  have hk : getPrimaryKey ((World.single selfParentEntity).heap 0) ≠ "" := by decide
  have hb : ∀ save : World → Nat → Except Fault World,
      save (World.single selfParentEntity) 0 = Except.error Fault.fuel →
      buildQuery save (World.single selfParentEntity) 0 = Except.error Fault.fuel := by
    intro save hsave
    unfold buildQuery getUpdateQuery
    simp only [hv, hsv, hch, Bool.not_true, Bool.or_false, Bool.false_eq_true, if_false]
    unfold getUpdateQueryLoop
    simp only [hfn]
    unfold saveRelated
    simp only [hk, ne_eq, not_false_eq_true, if_true, hsave, ite_self]
  have hs : ∀ fuel, Save mockDb fuel (World.single selfParentEntity) 0 =
      Except.error Fault.fuel := by
    intro fuel
    induction fuel with
    | zero => rfl
    | succ n ih =>
      unfold Save
      rw [hb _ ih]
  exact ⟨hv, by decide, hch, fun fuel => ⟨hs fuel, hb _ (hs fuel)⟩⟩

/-- C9 (amended): on a heap whose relation graph is acyclic and whose entities are safe,
with fuel up to the entity's rank for the cascade, the builder of `Save` returns a
statement; it is an UPDATE exactly when `IsValid` holds and the snapshot is non-nil; in
every other case it is the INSERT on the entity's table whose columns are the `db` tags
of the listed fields, the primary-key column never among them, with one placeholder and
one bound value a column. -/
theorem C9_Save_routes_insert_or_update (ex : Executor) (rank : Nat → Nat) (fuel : Nat)
    (w : World) (a : Nat)
    (hr : w.ranked rank) (hsafe : ∀ c, (w.heap c).safe) (hfuel : rank a ≤ fuel) :
    ∃ r, buildQuery (Save ex fuel) w a = Except.ok r ∧
      ((∃ rest, r.2.1 = "UPDATE `" ++ rest) ↔
        (IsValid (w.heap a) = true ∧ (w.heap a).SavedValues ≠ none)) ∧
      (¬ (IsValid (w.heap a) = true ∧ (w.heap a).SavedValues ≠ none) →
        r.2.1 = "INSERT INTO `" ++ getTableName (r.1.heap a) ++ "` (" ++
          ",".intercalate ((((w.heap a).fields.map Field.typ).filter
            (isInsertedField (getPrimaryKey (w.heap a)))).map StructField.db) ++
          ") VALUES (" ++
          ",".intercalate ((((w.heap a).fields.map Field.typ).filter
            (isInsertedField (getPrimaryKey (w.heap a)))).map (fun _ => "?")) ++ ")" ∧
        r.2.2.length = (((w.heap a).fields.map Field.typ).filter
            (isInsertedField (getPrimaryKey (w.heap a)))).length ∧
        getPrimaryKey (w.heap a) ∉ (((w.heap a).fields.map Field.typ).filter
            (isInsertedField (getPrimaryKey (w.heap a)))).map StructField.db) := by
  have hs : ∀ w b, w.ranked rank → (∀ c, (w.heap c).safe) → rank b < rank a →
      ∃ w', Save ex fuel w b = .ok w' ∧
        ∀ c, c ≠ b → ¬ rank c < rank b → w'.heap c = w.heap c :=
    fun w b hr hsafe hb => Save_returns ex rank fuel w b hr hsafe (by omega)
  obtain ⟨r, hb, _⟩ := buildQuery_returns a (Save_evolves ex fuel) hs w hr hsafe
  obtain ⟨h1, h2⟩ := buildQuery_shape (Save ex fuel) w a r hb
  exact ⟨r, hb, h1, fun hn => ⟨(h2 hn).1, (h2 hn).2, primaryKey_not_inserted _ _⟩⟩

/-- C9, witness: a saved `test64Entity` whose `Name` changed is routed to the UPDATE. -/
theorem C9_witness :
    ∃ r, buildQuery (Save mockDb 0) (World.single (savedTest64Entity "Majkl" 0)) 0 =
        Except.ok r ∧
      ((∃ rest, r.2.1 = "UPDATE `" ++ rest) ↔
        (IsValid ((World.single (savedTest64Entity "Majkl" 0)).heap 0) = true ∧
          ((World.single (savedTest64Entity "Majkl" 0)).heap 0).SavedValues ≠ none)) ∧
      r.2.1 = "UPDATE `test` SET `name` = ? WHERE `test_id` = 1" := by
  obtain ⟨r, hb, h1, _⟩ := C9_Save_routes_insert_or_update mockDb (fun _ => 0) 0
    (World.single (savedTest64Entity "Majkl" 0)) 0 (ranked_single _ _ (by decide))
    (fun _ => safe_of_fields (savedTest64Entity "Majkl" 0) (by decide) (by decide)
      (by decide) (by decide))
    (by decide)
  refine ⟨r, hb, h1, ?_⟩
  have hr : buildQuery (Save mockDb 0) (World.single (savedTest64Entity "Majkl" 0)) 0 =
      Except.ok (World.single (savedTest64Entity "Majkl" 0),
        "UPDATE `test` SET `name` = ? WHERE `test_id` = 1", [Value.str "Majkl"]) := rfl
  rw [hr] at hb
  cases hb
  rfl

/-- C10 (the code departs from the claim): `extendedEntity{TestPtr: &testEntity{TestId:
0, Name: "Majkl"}}` saved through the mock, whose `LastInsertId` is 1. The related
entity is inserted first, but its `TestId`, declared `int`, is still 0 afterwards, and
0 is the value bound to `test_ptr_id` in the outer INSERT. -/
theorem C10_Save_extendedEntity_related_key_stays_zero :
    (Save mockDb 2 (World.pair (extendedEntity 0 (some 1) 7 0)
        (testEntity 0 "Majkl" 0 0)) 0).toOption.map
        (fun w => (w.log, getPrimaryValue (w.heap 1))) =
      some ([⟨"INSERT INTO `test` (name,time_added,time_current) VALUES (?,?,?)",
            [Value.str "Majkl", Value.struct "time.Time" "" 0, Value.struct "time.Time" "" 0]⟩,
          ⟨"INSERT INTO `extended` (test_ptr_id,time_added,time_current) VALUES (?,?,?)",
            [Value.int IntKind.Int 0, Value.struct "time.Time" "" 7,
              Value.struct "time.Time" "" 0]⟩],
        Value.int IntKind.Int 0) := by
  decide

/-- C11 (the code departs from the claim): `setPrimary` on `testEntity`, whose primary
field `TestId` is an integer of kind `int`, returns the error `Invalid primary` and
leaves `TestId` at 0; so it does on a primary key of kind `uint32`. Only `Int64` and
`Uint64` have a body in the switch. -/
theorem C11_setPrimary_rejects_int_primary :
    setPrimary (testEntity 0 "Jake" 5 0) 7 = (testEntity 0 "Jake" 5 0, false) ∧
      (setPrimary { tagEntity 0 with
        fields := [⟨exportedField "Id" "id" "true", Value.uint UintKind.Uint32 0⟩] } 7).2 =
        false ∧
      (setPrimary (test64Entity 0 "Jake" 5 0) 7).2 = true := by
  decide

/-- C12 (the code departs from the claim): `testEntity` with its `int` primary key at 0
is not valid, and is still not valid after `setPrimary` with the nonzero value 7. -/
theorem C12_IsValid_false_after_setPrimary :
    IsValid (testEntity 0 "Jake" 5 0) = false ∧
      IsValid (setPrimary (testEntity 0 "Jake" 5 0) 7).1 = false ∧
      getPrimaryValue (setPrimary (testEntity 0 "Jake" 5 0) 7).1 = Value.int IntKind.Int 0 := by
  decide

/-- C13, counterexample: `accountEntity` has two persisted (`db`-tagged) fields, the
primary key `Id` and the unexported `token`, yet `getInsertQuery` lists no column and
binds no value: the loop skips unexported fields before it looks at the tag. -/
theorem C13_counterexample_unexported_column :
    ((accountEntity.fields.map Field.typ).filter
        (fun tf => isDatabaseField tf && (tf.db != getPrimaryKey accountEntity))).map
          StructField.db = ["token"] ∧
      (getInsertQuery (Save mockDb 0) (World.single accountEntity) 0).toOption.map
        (fun r => (r.2.1, r.2.2)) = some ("INSERT INTO `account` () VALUES ()", []) := by
  decide

/-- C13 (amended): every statement `getInsertQuery` returns is `INSERT INTO <table>
(<columns>) VALUES (<placeholders>)` on the table named by `getTableName`, the columns
being the `db` tags of the listed fields (exported, tagged, the tag different from the
primary-key column) in declaration order, with one `?` and one bound value a listed
field. On an acyclic heap of safe entities `getInsertQuery` does return, leaves the
entity as it was, and the value bound at the position of a listed field that is no
related entity is that field's value. -/
theorem C13_getInsertQuery_lists_exported_columns (ex : Executor) (rank : Nat → Nat)
    (fuel : Nat) (w : World) (a : Nat) :
    (∀ w1 q vals, getInsertQuery (Save ex fuel) w a = Except.ok (w1, q, vals) →
        q = "INSERT INTO `" ++ getTableName (w.heap a) ++ "` (" ++
            ",".intercalate (((w.heap a).fields.filter
              (fun f => isInsertedField (getPrimaryKey (w.heap a)) f.typ)).map
                (fun f => f.typ.db)) ++ ") VALUES (" ++
            ",".intercalate (((w.heap a).fields.filter
              (fun f => isInsertedField (getPrimaryKey (w.heap a)) f.typ)).map
                (fun _ => "?")) ++ ")" ∧
          vals.length = ((w.heap a).fields.filter
            (fun f => isInsertedField (getPrimaryKey (w.heap a)) f.typ)).length) ∧
      (w.ranked rank → (∀ c, (w.heap c).safe) → rank a ≤ fuel →
        ∃ w1 q vals, getInsertQuery (Save ex fuel) w a = Except.ok (w1, q, vals) ∧
          w1.heap a = w.heap a ∧
          ∀ (k : Nat) (f : Field),
            ((w.heap a).fields.filter
              (fun f => isInsertedField (getPrimaryKey (w.heap a)) f.typ))[k]? = some f →
            isRelated w f.value = false → vals[k]? = some f.value.Interface) := by
  refine ⟨fun w1 q vals h => getInsertQuery_shape (Save_evolves ex fuel) w a _ h,
    fun hr hsafe hfuel => ?_⟩
  have hs : ∀ w b, w.ranked rank → (∀ c, (w.heap c).safe) → rank b < rank a →
      ∃ w', Save ex fuel w b = .ok w' ∧
        ∀ c, c ≠ b → ¬ rank c < rank b → w'.heap c = w.heap c :=
    fun w b hr hsafe hb => Save_returns ex rank fuel w b hr hsafe (by omega)
  exact getInsertQuery_values a (Save_evolves ex fuel) hs w hr hsafe

/-- C13, witness: a fresh `extended64Entity` pointing to a fresh `test64Entity`. The
INSERT lists `test_ptr_id`, `time_added` and `time_current`; the two time fields are
bound as they are, the pointer field is bound to the key the related entity got. -/
theorem C13_witness :
    (∃ w1 q vals, getInsertQuery (Save mockDb 1)
          (World.pair (extended64Entity 0 (some 1) 7 0) (test64Entity 0 "Majkl" 0 0)) 0 =
            Except.ok (w1, q, vals) ∧
        w1.heap 0 = (World.pair (extended64Entity 0 (some 1) 7 0)
          (test64Entity 0 "Majkl" 0 0)).heap 0 ∧
        ∀ (k : Nat) (f : Field),
          (((World.pair (extended64Entity 0 (some 1) 7 0)
              (test64Entity 0 "Majkl" 0 0)).heap 0).fields.filter
            (fun f => isInsertedField (getPrimaryKey ((World.pair
              (extended64Entity 0 (some 1) 7 0) (test64Entity 0 "Majkl" 0 0)).heap 0))
                f.typ))[k]? = some f →
          isRelated (World.pair (extended64Entity 0 (some 1) 7 0)
            (test64Entity 0 "Majkl" 0 0)) f.value = false →
              vals[k]? = some f.value.Interface) ∧
      (getInsertQuery (Save mockDb 1)
          (World.pair (extended64Entity 0 (some 1) 7 0) (test64Entity 0 "Majkl" 0 0))
          0).toOption.map (fun r => (r.2.1, r.2.2)) =
        some ("INSERT INTO `extended` (test_ptr_id,time_added,time_current) VALUES (?,?,?)",
          [Value.int IntKind.Int64 1, Value.struct "time.Time" "" 7,
            Value.struct "time.Time" "" 0]) :=
  ⟨(C13_getInsertQuery_lists_exported_columns mockDb (fun a => if a = 0 then 1 else 0) 1
      (World.pair (extended64Entity 0 (some 1) 7 0) (test64Entity 0 "Majkl" 0 0)) 0).2
      (ranked_pair _ _ (by decide) (by decide))
      (safe_pair _ _
        (safe_of_fields (extended64Entity 0 (some 1) 7 0) (by decide) (by decide) (by decide)
          (by decide))
        (safe_of_fields (test64Entity 0 "Majkl" 0 0) (by decide) (by decide) (by decide)
          (by decide)))
      (by decide),
    by decide⟩

/-- C14 (the code departs from the claim): on `counterEntity`, whose primary key is the
`uint64` 5 and whose snapshot is non-nil, `getUpdateQuery` panics, also when a field
was changed: it reads the key with `Value.Int`, which is defined on signed kinds only.
So does `Save`, which takes the update path since `IsValid` holds. -/
theorem C14_getUpdateQuery_panics_on_uint64_primary :
    IsValid (counterEntity 2) = true ∧
      panicMessage (getUpdateQuery (Save mockDb 0) (World.single (counterEntity 2)) 0) =
        some "reflect: call of reflect.Value.Int on uint64 Value" ∧
      panicMessage (getUpdateQuery (Save mockDb 0) (World.single (counterEntity 1)) 0) =
        some "reflect: call of reflect.Value.Int on uint64 Value" ∧
      panicMessage (Save mockDb 1 (World.single (counterEntity 2)) 0) =
        some "reflect: call of reflect.Value.Int on uint64 Value" := by
  decide

/-- C15, counterexample: the type name `EntityLog` does not end in `Entity`, yet
`getTableName` gives `log`, not `entitylog`; and of `statEntityEntity` it removes both
occurrences, giving `stat`, not `statentity`. -/
theorem C15_counterexample_Entity_inside_name :
    getTableName (emptyStruct "EntityLog") = "log" ∧
      getTableName (emptyStruct "statEntityEntity") = "stat" := by
  decide

/-- C15 (amended): `getTableName` returns the type name with every occurrence of
`Entity` removed, found left to right, and then lower-cased by `strings.ToLower`. A name
in which `Entity` does not occur is lower-cased and otherwise unchanged; a name
`p ++ "Entity" ++ s` in which no occurrence starts before that one gives the lower-cased
`p` followed by the table name of `s`; so a name `p ++ "Entity"` with no earlier
occurrence gives the lower-cased `p`, as `testEntity` gives `test`. -/
theorem C15_getTableName_removes_every_Entity (e : Entity) :
    ((∀ k, k < e.typeName.data.length →
          "Entity".data.isPrefixOf (e.typeName.data.drop k) = false) →
        getTableName e = String.mk (strings.ToLower e.typeName.data)) ∧
      (∀ p s : List Char, e.typeName.data = p ++ "Entity".data ++ s →
        (∀ k, k < p.length →
          "Entity".data.isPrefixOf ((p ++ "Entity".data ++ s).drop k) = false) →
        getTableName e =
          String.mk (strings.ToLower p) ++ getTableName { e with typeName := String.mk s }) ∧
      (∀ p : List Char, e.typeName.data = p ++ "Entity".data →
        (∀ k, k < p.length → "Entity".data.isPrefixOf ((p ++ "Entity".data).drop k) = false) →
        getTableName e = String.mk (strings.ToLower p)) := by
  have hne : "Entity".data ≠ [] := by decide
  refine ⟨fun h => ?_, fun p s hp h => ?_, fun p hp h => ?_⟩
  · unfold getTableName
    rw [removeAll_none _ _ h]
  · unfold getTableName
    rw [hp, removeAll_first _ hne s p h]
    simp only [strings.ToLower, List.map_append]
    rfl
  · unfold getTableName
    have h' : ∀ k, k < p.length →
        "Entity".data.isPrefixOf ((p ++ "Entity".data ++ []).drop k) = false := by
      simpa using h
    have := removeAll_first _ hne [] p h'
    simp only [List.append_nil] at this
    rw [hp, this]
    simp [removeAll]

/-- C15, witness: `testEntity` gives `test`, `user` gives `user`, and `ÉcoleEntity`
gives `école`. -/
theorem C15_witness :
    getTableName (testEntity 0 "Jake" 5 0) = "test" ∧
      getTableName (emptyStruct "user") = "user" ∧
      getTableName (emptyStruct "ÉcoleEntity") = "école" :=
  ⟨((C15_getTableName_removes_every_Entity (testEntity 0 "Jake" 5 0)).2.2 "test".data
      (by decide) (by decide)).trans (by decide),
    ((C15_getTableName_removes_every_Entity (emptyStruct "user")).1 (by decide)).trans
      (by decide),
    ((C15_getTableName_removes_every_Entity (emptyStruct "ÉcoleEntity")).2.2 "École".data
      (by decide) (by decide)).trans (by decide)⟩

/-- C16 (the code departs from the claim): `LoadEntity` of a `test64Entity` from a row
with the columns `test_id` and `extra` panics. No field has the `db` tag `extra`, so
`getFieldForDbColumn` returns the zero `reflect.Value`, and `setInterfaceToFieldValue`
calls `Set` on it. -/
theorem C16_LoadEntity_panics_on_unknown_column :
    getFieldForDbColumn (test64Entity 0 "" 0 0) "extra" = none ∧
      panicMessage (LoadEntity (rowDb [("test_id", RowValue.int64 1), ("extra", RowValue.int64 2)])
        zeroOf 1 (World.single (test64Entity 0 "" 0 0)) 1 0 "test_id" (Value.int IntKind.Int 1)) =
        some "reflect: call of reflect.Value.Set on zero Value" ∧
      (LoadEntity (rowDb [("test_id", RowValue.int64 1)])
        zeroOf 1 (World.single (test64Entity 0 "" 0 0)) 1 0 "test_id"
          (Value.int IntKind.Int 1)).toOption.map (fun r => r.2.2) = some true := by
  decide

/-- C17 (the code departs from the claim): with a nil row value,
`setInterfaceToFieldValue` panics on the `int64` field `TestId` and on the `time.Time`
field `TimeAdded` of a `test64Entity` (`Set` refuses the zero `reflect.Value`); it
leaves the string field `Name` and the pointer field `Parent` of a `nodeEntity` as they
were. -/
theorem C17_setInterfaceToFieldValue_panics_on_nil :
    panicMessage (setInterfaceToFieldValue (LoadEntity noRowQuery zeroOf 0) zeroOf
        (World.single (test64Entity 1 "Jake" 5 0)) 1 0 (some 0) RowValue.null) =
        some "reflect: call of reflect.Value.Set on zero Value" ∧
      panicMessage (setInterfaceToFieldValue (LoadEntity noRowQuery zeroOf 0) zeroOf
        (World.single (test64Entity 1 "Jake" 5 0)) 1 0 (some 2) RowValue.null) =
        some "reflect: call of reflect.Value.Set on zero Value" ∧
      (setInterfaceToFieldValue (LoadEntity noRowQuery zeroOf 0) zeroOf
        (World.single (test64Entity 1 "Jake" 5 0)) 1 0 (some 1) RowValue.null).toOption.map
        (fun r => r.1.heap 0) = some (test64Entity 1 "Jake" 5 0) ∧
      (setInterfaceToFieldValue (LoadEntity noRowQuery zeroOf 0) zeroOf
        (World.single (nodeEntity 1 (some 3))) 1 0 (some 1) RowValue.null).toOption.map
        (fun r => r.1.heap 0) = some (nodeEntity 1 (some 3)) := by
  decide

/-- C18, counterexample. First, a `scoreEntity` whose `Score` is a NaN, loaded from a row
with the column `id`: `LoadEntity` answers true and takes the snapshot, yet
`getChangedFieldNames` called right after returns `Score`, a NaN differing from itself
under `!=`. Second, a `nodeEntity` loaded through a querier whose every row has
`parent_id` 1: the query succeeds, the row is there and its `id` is 1, but mapping
`parent_id` loads the parent, whose row again names a parent; with whatever fuel,
`LoadEntity` has not returned. -/
theorem C18_counterexample_NaN_and_endless_parents :
    (LoadEntity (rowDb [("id", RowValue.int64 1)]) zeroOf 1
        (World.single (scoreEntity 0 Content.nan)) 1 0 "id"
        (Value.int IntKind.Int64 1)).toOption.map
        (fun r => (r.2.2, (r.1.heap 0).SavedValues, getChangedFieldNames (r.1.heap 0))) =
      some (true,
        some [("Score", Value.other OtherKind.float64 "float64" Content.nan),
          ("Id", Value.int IntKind.Int64 1)],
        Except.ok ["Score"]) ∧
      ∀ fuel, LoadEntity (rowDb [("id", RowValue.int64 1), ("parent_id", RowValue.int64 1)])
        zeroOf fuel (World.single (nodeEntity 0 none)) 1 0 "id" (Value.int IntKind.Int64 1) =
          Except.error Fault.fuel := by
  refine ⟨by decide, fun fuel => ?_⟩
  have key : ∀ (fuel : Nat) (w : World) (next a : Nat) (column : String) (value : Value),
      (∃ x ad, w.heap a = nodeEntity x ad) →
      LoadEntity (rowDb [("id", RowValue.int64 1), ("parent_id", RowValue.int64 1)])
        zeroOf fuel w next a column value = Except.error Fault.fuel := by
    intro fuel
    induction fuel with
    | zero => intro w next a column value _; rfl
    | succ n ih =>
      intro w next a column value hw
      obtain ⟨x, ad, hw⟩ := hw
      have h0 : ∀ x ad, getFieldForDbColumn (nodeEntity x ad) "id" = some 0 :=
        fun _ _ => rfl
      have h1 : ∀ x ad, getFieldForDbColumn (nodeEntity x ad) "parent_id" = some 1 :=
        fun _ _ => rfl
      have hset : ∀ x ad, (nodeEntity x ad).SetField 0 (Value.int IntKind.Int64 1) =
          nodeEntity 1 ad := fun _ _ => rfl
      have hz : zeroOf "nodeEntity" = nodeEntity 0 none := by decide
      have hv0 : ∀ x ad, (nodeEntity x ad).fieldValue 0 = Value.int IntKind.Int64 x :=
        fun _ _ => rfl
      have hv1 : ∀ x ad, (nodeEntity x ad).fieldValue 1 = Value.ptr "nodeEntity" ad :=
        fun _ _ => rfl
      have step : ∀ (w1 : World) (next1 : Nat), w1.heap a = nodeEntity 1 ad →
          LoadEntityLoop (LoadEntity (rowDb [("id", RowValue.int64 1),
            ("parent_id", RowValue.int64 1)]) zeroOf n) zeroOf a
            [("parent_id", RowValue.int64 1)] w1 next1 = Except.error Fault.fuel := by
        intro w1 next1 hw1
        unfold LoadEntityLoop
        simp only [hw1, h1]
        unfold setInterfaceToFieldValue
        simp only [hw1, hv1, hz]
        rw [ih _ _ _ _ _ ⟨0, none, World.set_heap_same _ _ _⟩]
      unfold LoadEntity
      simp only [rowDb]
      unfold LoadEntityLoop
      simp only [hw, h0]
      unfold setInterfaceToFieldValue
      simp only [hw, hv0, setValue, hset]
      rw [step _ _ (World.set_heap_same _ _ _)]
  exact key fuel _ 1 0 _ _ ⟨0, none, rfl⟩

/-- C18 (amended): `LoadEntity` answers false, without failing, when `Query` returns an
error or no row. Once the mapping of the first row has returned, on an entity whose
`db`-tagged fields are exported, `LoadEntity` returns: with an `int64` or `uint64`
primary key it answers true exactly when the key is nonzero after the mapping, without a
primary field it answers false; after the answer false the entity is as the mapping left
it; after the answer true it has a snapshot which, the persisted fields named distinctly,
stores every persisted field's value under its name, and `getChangedFieldNames` then
returns no name if these values equal themselves (no NaN). A first row of plain columns
is mapped, whatever the fuel, with the struct type unchanged. -/
theorem C18_LoadEntity_true_iff_row_and_valid (q : Querier) (types : String → Entity)
    (fuel : Nat) (w : World) (next a : Nat) (column : String) (value : Value) :
    ((q w.log (loadQuery (w.heap a) column value) = QueryResult.err ∨
        q w.log (loadQuery (w.heap a) column value) = QueryResult.rows none) →
        LoadEntity q types (fuel + 1) w next a column value =
          Except.ok ({ w with log := w.log ++ [loadQuery (w.heap a) column value] },
            next, false)) ∧
      (∀ row w1 next1,
        q w.log (loadQuery (w.heap a) column value) = QueryResult.rows (some row) →
        LoadEntityLoop (LoadEntity q types fuel) types a row
          { w with log := w.log ++ [loadQuery (w.heap a) column value] } next =
            Except.ok (w1, next1) →
        (∀ tf ∈ (w1.heap a).fields.map Field.typ,
          isDatabaseField tf = true → tf.PkgPath.length = 0) →
        ∃ w2 b, LoadEntity q types (fuel + 1) w next a column value =
            Except.ok (w2, next1, b) ∧
          (∀ p, getPrimaryValue (w1.heap a) = Value.int IntKind.Int64 p →
            (b = true ↔ p ≠ 0)) ∧
          (∀ n, getPrimaryValue (w1.heap a) = Value.uint UintKind.Uint64 n →
            (b = true ↔ n ≠ 0)) ∧
          (getPrimaryType (w1.heap a) = none → b = false) ∧
          (b = false → w2 = w1) ∧
          (b = true → ∃ m, w2.heap a = { w1.heap a with SavedValues := some m } ∧
            ((persistedNames (w1.heap a)).Nodup →
              (∀ f ∈ (w1.heap a).fields, isDatabaseField f.typ = true →
                m.lookup f.typ.Name = some f.value.Interface) ∧
              ((∀ f ∈ (w1.heap a).fields, isDatabaseField f.typ = true →
                  f.value.Interface.selfEqual = true) →
                getChangedFieldNames (w2.heap a) = Except.ok [])))) ∧
      (∀ row,
        q w.log (loadQuery (w.heap a) column value) = QueryResult.rows (some row) →
        (∀ cv ∈ row, plainColumn (w.heap a) cv = true) →
        ∃ w1, LoadEntityLoop (LoadEntity q types fuel) types a row
            { w with log := w.log ++ [loadQuery (w.heap a) column value] } next =
              Except.ok (w1, next) ∧
          (w1.heap a).fields.map Field.typ = (w.heap a).fields.map Field.typ) :=
  ⟨LoadEntity_no_row q types fuel w next a column value,
    fun row w1 next1 hq hloop hx =>
      LoadEntity_mapped q types fuel w next a column value row w1 next1 hq hloop hx,
    fun row _ hplain => LoadEntityLoop_plain_typ q types fuel w next a column value row hplain⟩

/-- C18, witness: a `test64Entity` loaded by `test_id` 1. Without a first row the answer
is false; from a row with the columns `test_id` and `name` the answer is true, the key
being 1, and no field counts as changed afterwards. -/
theorem C18_witness :
    LoadEntity noRowQuery zeroOf 1 (World.single (test64Entity 0 "" 0 0)) 1 0 "test_id"
        (Value.int IntKind.Int 1) =
        Except.ok ({ World.single (test64Entity 0 "" 0 0) with
          log := (World.single (test64Entity 0 "" 0 0)).log ++
            [loadQuery ((World.single (test64Entity 0 "" 0 0)).heap 0) "test_id"
              (Value.int IntKind.Int 1)] }, 1, false) ∧
      ∃ w2, LoadEntity (rowDb [("test_id", RowValue.int64 1), ("name", RowValue.bytes "Jake")])
          zeroOf 1 (World.single (test64Entity 0 "" 0 0)) 1 0 "test_id"
          (Value.int IntKind.Int 1) = Except.ok (w2, 1, true) ∧
        (w2.heap 0).fields.map Field.value =
          [Value.int IntKind.Int64 1, Value.str "Jake", Value.struct "time.Time" "" 0,
            Value.struct "time.Time" "" 0] ∧
        getChangedFieldNames (w2.heap 0) = Except.ok [] := by
  refine ⟨(C18_LoadEntity_true_iff_row_and_valid noRowQuery zeroOf 0
      (World.single (test64Entity 0 "" 0 0)) 1 0 "test_id" (Value.int IntKind.Int 1)).1
      (Or.inr rfl), ?_⟩
  obtain ⟨w2, b, hrun, h64, _, _, _, htrue⟩ :=
    (C18_LoadEntity_true_iff_row_and_valid
      (rowDb [("test_id", RowValue.int64 1), ("name", RowValue.bytes "Jake")]) zeroOf 0
      (World.single (test64Entity 0 "" 0 0)) 1 0 "test_id" (Value.int IntKind.Int 1)).2.1
      [("test_id", RowValue.int64 1), ("name", RowValue.bytes "Jake")] _ 1
      rfl rfl (by decide)
  have hb : b = true := (h64 1 (by decide)).2 (by decide)
  subst hb
  obtain ⟨m, hheap, hrest⟩ := htrue rfl
  refine ⟨w2, hrun, ?_, ?_⟩
  · rw [hheap]
    dsimp only
    decide
  · exact (hrest (by decide)).2 (by decide)

/-- C19, counterexample: on `testEntity{Name: "Jake"}`, whose `SavedValues` is nil,
`getChangedFieldNames` returns the names of all four persisted fields, and
`getUpdateQuery`, which calls it, returns its statement: nothing panics. -/
theorem C19_counterexample_nil_snapshot_returns :
    (testEntity 7 "Jake" 5 0).SavedValues = none ∧
      getChangedFieldNames (testEntity 7 "Jake" 5 0) =
        Except.ok ["TestId", "Name", "TimeAdded", "TimeCurrent"] ∧
      (getUpdateQuery (Save mockDb 0) (World.single (testEntity 7 "Jake" 5 0)) 0).toOption.map
        (fun r => r.2.1) =
        some ("UPDATE `test` SET `test_id` = ?,`name` = ?,`time_added` = ?,`time_current` = ?" ++
          " WHERE `test_id` = 7") := by
  decide

/-- C19 (amended): on an entity whose `SavedValues` is nil, `getChangedFieldNames`
returns a list: the names of the exported persisted fields whose value is not the nil
interface, in declaration order. The type assertion holds for a nil map, and every
lookup in it yields nil. -/
theorem C19_getChangedFieldNames_nil_snapshot (e : Entity) (h : e.SavedValues = none) :
    getChangedFieldNames e =
      Except.ok ((e.fields.filter (fun f => decide (f.typ.PkgPath.length = 0) &&
        isDatabaseField f.typ && (f.value.Interface != Value.nil))).map
          (fun f => f.typ.Name)) := by
  have hne : ∀ v : Value, interfaceNe Value.nil v = some (v != Value.nil) := by
    intro v
    have : (Value.nil != v) = (v != Value.nil) := by
      by_cases hv : v = Value.nil
      · rw [hv]
      · have hv' : ¬ Value.nil = v := fun h => hv h.symm
        rw [bne_iff_ne.2 hv, bne_iff_ne.2 hv']
    rw [← this]
    cases v <;> rfl
  rw [getChangedFieldNames_eq, h]
  · congr 2
    apply List.filter_congr
    intro f _
    simp only [isChangedField, savedValue, hne]
    congr 1
    cases f.value.Interface != Value.nil <;> rfl
  · intro f _
    simp only [isComparedField, h, savedValue, hne, Option.isSome_some, Bool.or_true]

/-- C19, witness: a fresh `test64Entity`. -/
theorem C19_witness :
    getChangedFieldNames (test64Entity 0 "Jake" 5 0) =
      Except.ok ["TestId", "Name", "TimeAdded", "TimeCurrent"] :=
  (C19_getChangedFieldNames_nil_snapshot (test64Entity 0 "Jake" 5 0) rfl).trans (by decide)

/-- C20: for an entity whose primary field, tagged with a column, holds the `int64` value
`p1`, nonzero, while the snapshot stores `p0` under that field's name, `p1` different
from `p0`: every statement `getUpdateQuery` returns is `UPDATE <table> SET <clauses>
WHERE <primary column> = <p1>` where the clauses, one a bound value, contain the primary
column's own clause at a position at which the bound value is `p1`. The snapshot value
`p0` does not enter the WHERE clause. On an acyclic heap of safe entities `getUpdateQuery`
does return. -/
theorem C20_getUpdateQuery_sets_and_compares_current_primary (ex : Executor)
    (rank : Nat → Nat) (fuel : Nat) (w : World) (a i : Nat) (tf : StructField) (p0 p1 : Int)
    (m : List (String × Value))
    (hpt : getPrimaryType (w.heap a) = some (i, tf)) (hdb : isDatabaseField tf = true)
    (hp : getPrimaryValue (w.heap a) = Value.int IntKind.Int64 p1) (hp1 : p1 ≠ 0)
    (hm : (w.heap a).SavedValues = some m)
    (hp0 : m.lookup tf.Name = some (Value.int IntKind.Int64 p0)) (hne : p1 ≠ p0)
    (hnd : ((w.heap a).fields.map (fun f => f.typ.Name)).Nodup) :
    IsValid (w.heap a) = true ∧
      (∀ w1 q vals, getUpdateQuery (Save ex fuel) w a = Except.ok (w1, q, vals) →
        ∃ qvs : List String,
          q = "UPDATE `" ++ getTableName (w.heap a) ++ "` SET " ++ ",".intercalate qvs ++
            " WHERE `" ++ tf.db ++ "` = " ++ toString p1 ∧
          qvs.length = vals.length ∧
          ∃ k : Nat, qvs[k]? = some ("`" ++ tf.db ++ "` = ?") ∧
            vals[k]? = some (Value.int IntKind.Int64 p1)) ∧
      (w.ranked rank → (∀ c, (w.heap c).safe) → rank a ≤ fuel →
        ∃ r, getUpdateQuery (Save ex fuel) w a = Except.ok r) := by
  refine ⟨?_, fun w1 q vals h => ?_, fun hr hsafe hfuel => ?_⟩
  · rw [IsValid_int64 _ p1 hp]
    simpa using hp1
  · exact getUpdateQuery_changed_primary (Save_evolves ex fuel) w a i tf p0 p1 m hpt hdb hp hp1
      hm hp0 hne hnd _ h
  · have hs : ∀ w b, w.ranked rank → (∀ c, (w.heap c).safe) → rank b < rank a →
        ∃ w', Save ex fuel w b = .ok w' ∧
          ∀ c, c ≠ b → ¬ rank c < rank b → w'.heap c = w.heap c :=
      fun w b hr hsafe hb => Save_returns ex rank fuel w b hr hsafe (by omega)
    exact getUpdateQuery_returns a (Save_evolves ex fuel) hs w hr hsafe p1 hp

/-- C20, witness: a `test64Entity` loaded with key 1 whose `TestId` was set to 7. -/
theorem C20_witness :
    getUpdateQuery (Save mockDb 0) (World.single (rekeyedTest64Entity 7)) 0 =
        Except.ok (World.single (rekeyedTest64Entity 7),
          "UPDATE `test` SET `test_id` = ? WHERE `test_id` = 7", [Value.int IntKind.Int64 7]) ∧
      ∃ qvs : List String,
        "UPDATE `test` SET `test_id` = ? WHERE `test_id` = 7" =
          "UPDATE `" ++ getTableName ((World.single (rekeyedTest64Entity 7)).heap 0) ++
            "` SET " ++ ",".intercalate qvs ++ " WHERE `" ++
            (exportedField "TestId" "test_id" "true").db ++ "` = " ++ toString (7 : Int) ∧
        qvs.length = [Value.int IntKind.Int64 7].length ∧
        ∃ k : Nat, qvs[k]? = some ("`" ++ (exportedField "TestId" "test_id" "true").db ++
            "` = ?") ∧
          [Value.int IntKind.Int64 7][k]? = some (Value.int IntKind.Int64 7) :=
  ⟨rfl,
    (C20_getUpdateQuery_sets_and_compares_current_primary mockDb (fun _ => 0) 0
      (World.single (rekeyedTest64Entity 7)) 0 0 (exportedField "TestId" "test_id" "true") 1 7 _
      (by decide) (by decide) (by decide) (by decide) rfl (by decide) (by decide)
      (by decide)).2.1 (World.single (rekeyedTest64Entity 7)) _ _ rfl⟩

end Sorm
